import Mathlib

/-!
Orbit-render PLY analyzers: a shallow embedding

Embedding of `tools/orbit-render/analyze-ply.mjs` (flat PLY) and
`tools/orbit-render/analyze-compressed-ply.mjs` (chunked, bit-packed PLY).

Conventions of the embedding

* A file is a `List Nat` of bytes; a JavaScript string is a `List Nat` of UTF-16 code units.
* A JavaScript number is a `JsNum`: `NaN`, the two infinities, or a finite value carried as an
  exact rational.  Comparisons and the special values follow IEEE 754; the sign of zero is not
  modelled.  The operators `+ - * /` on `JsNum` are exact on finite values; where the rounding
  of the program's binary64 arithmetic is followed, each operation is wrapped in
  `JsNum.toDouble`.  This is done for the dequantization of the chunked analyzer
  (`unpackUnormDouble`, `lerpDouble`, `dequantizeDouble`), which is what `analyzeCompressedPly`
  runs; `unpackUnorm`, `lerp` and `dequantize` are the same formulas in exact arithmetic.
* A buffer whose size comes from the header (`Buffer.alloc(numChunks * 72)`) is allocated only
  up to a limit of the runtime, the parameter `Runtime` of the chunked analyzer; beyond it
  `Buffer.alloc` throws `RangeError`.
* Integers that the program parses from the header (`parseInt`) are exact naturals, which is
  what JavaScript computes below `2^53`.
-/

namespace OrbitRender

/-! ## JavaScript numbers -/

/-- A JavaScript number: `NaN`, `-Infinity`, `+Infinity` or a finite value. -/
inductive JsNum where
  | nan : JsNum
  | negInf : JsNum
  | posInf : JsNum
  | fin (q : ℚ) : JsNum
  deriving DecidableEq

namespace JsNum

/-- Unary minus. -/
def neg : JsNum → JsNum
  | nan => nan
  | negInf => posInf
  | posInf => negInf
  | fin q => fin (-q)

/-- IEEE addition: `Infinity + -Infinity` is `NaN`. -/
def add : JsNum → JsNum → JsNum
  | nan, _ => nan
  | _, nan => nan
  | posInf, negInf => nan
  | negInf, posInf => nan
  | posInf, _ => posInf
  | _, posInf => posInf
  | negInf, _ => negInf
  | _, negInf => negInf
  | fin a, fin b => fin (a + b)

/-- The product of an infinity with the finite value `q`: `NaN` when `q` is zero. -/
def infTimes (positive : Bool) (q : ℚ) : JsNum :=
  if q = 0 then nan
  else if (0 < q) = positive then posInf else negInf

/-- IEEE multiplication: `Infinity * 0` is `NaN`. -/
def mul : JsNum → JsNum → JsNum
  | nan, _ => nan
  | _, nan => nan
  | posInf, posInf => posInf
  | posInf, negInf => negInf
  | negInf, posInf => negInf
  | negInf, negInf => posInf
  | posInf, fin q => infTimes true q
  | negInf, fin q => infTimes false q
  | fin q, posInf => infTimes true q
  | fin q, negInf => infTimes false q
  | fin a, fin b => fin (a * b)

/-- IEEE division; a zero divisor is taken to be `+0`. -/
def div : JsNum → JsNum → JsNum
  | nan, _ => nan
  | _, nan => nan
  | fin _, posInf => fin 0
  | fin _, negInf => fin 0
  | fin a, fin b =>
      if b = 0 then (if a = 0 then nan else if 0 < a then posInf else negInf)
      else fin (a / b)
  | posInf, fin b => if 0 ≤ b then posInf else negInf
  | negInf, fin b => if 0 ≤ b then negInf else posInf
  | _, _ => nan

instance : Neg JsNum := ⟨neg⟩
instance : Add JsNum := ⟨add⟩
instance : Sub JsNum := ⟨fun a b => add a (neg b)⟩
instance : Mul JsNum := ⟨mul⟩
instance : Div JsNum := ⟨div⟩
instance : OfNat JsNum n := ⟨fin (n : ℚ)⟩

/-- JavaScript `a < b`: false as soon as one side is `NaN`. -/
def lt : JsNum → JsNum → Bool
  | nan, _ => false
  | _, nan => false
  | _, negInf => false
  | negInf, _ => true
  | posInf, _ => false
  | fin _, posInf => true
  | fin a, fin b => decide (a < b)

/-- JavaScript `a <= b`: false as soon as one side is `NaN`. -/
def le : JsNum → JsNum → Bool
  | nan, _ => false
  | _, nan => false
  | negInf, _ => true
  | _, posInf => true
  | _, negInf => false
  | posInf, _ => false
  | fin a, fin b => decide (a ≤ b)

/-- JavaScript `Math.abs`. -/
def abs : JsNum → JsNum
  | nan => nan
  | negInf => posInf
  | posInf => posInf
  | fin q => fin |q|

end JsNum

/-! ## Rounding to binary64 -/

/-- Rounding of a rational to the nearest integer, ties to the even one. -/
def roundHalfEven (x : ℚ) : ℤ :=
  let m := ⌊x⌋
  if x - m < 1 / 2 then m
  else if 1 / 2 < x - m then m + 1
  else if m % 2 = 0 then m else m + 1

/-- The spacing of the binary64 values around `x`: `2^(e - 52)` with `e = floor(log2 |x|)`,
and `2^-1074` from the subnormal range down. -/
def quantum (x : ℚ) : ℚ := 2 ^ (max (Int.log 2 |x|) (-1022) - 52)

/-- The binary64 value nearest to `x`, ties to the even significand; an infinity when the
rounded value is beyond the largest finite double. -/
def roundDouble (x : ℚ) : JsNum :=
  let v := (roundHalfEven (x / quantum x) : ℚ) * quantum x
  if 2 ^ 1024 ≤ v then JsNum.posInf
  else if v ≤ -2 ^ 1024 then JsNum.negInf
  else JsNum.fin v

/-- The result of one arithmetic operation as the program holds it: the exact result rounded
to binary64. -/
def JsNum.toDouble : JsNum → JsNum
  | JsNum.fin q => roundDouble q
  | x => x

/-! ## Bit unpacking and interpolation (`analyze-compressed-ply.mjs`, lines 3-16) -/

/-- `const CHUNK_SIZE = 256`. -/
def CHUNK_SIZE : Nat := 256

/-- JavaScript `value >>> n`: the operand is first reduced to an unsigned 32-bit word. -/
def ushr (value n : Nat) : Nat := (value % 2 ^ 32) >>> n

/-- `unpackUnorm(value, bits)`: `t = (1 << bits) - 1; return (value & t) / t`.
The mask `t` is below `2^31`, so `&` on the 32-bit operands keeps the low bits of `value`. -/
def unpackUnorm (value bits : Nat) : JsNum :=
  let t := (1 <<< bits) - 1
  JsNum.fin ((value &&& t : Nat) : ℚ) / JsNum.fin (t : ℚ)

/-- A triple of JavaScript numbers: the object `{x, y, z}`. -/
structure Vec3 where
  x : JsNum
  y : JsNum
  z : JsNum
  deriving DecidableEq

/-- `unpack111011(value)`: the 11/10/11-bit fields of the packed word. -/
def unpack111011 (value : Nat) : Vec3 :=
  { x := unpackUnorm (ushr value 21) 11
    y := unpackUnorm (ushr value 11) 10
    z := unpackUnorm value 11 }

/-- `lerp(a, b, t) = a * (1 - t) + b * t`, in exact arithmetic. -/
def lerp (a b t : JsNum) : JsNum := a * (1 - t) + b * t

/-- `unpackUnorm(value, bits)` as the program computes it: the quotient `(value & t) / t`
rounded to binary64. -/
def unpackUnormDouble (value bits : Nat) : JsNum := (unpackUnorm value bits).toDouble

/-- `unpack111011(value)` as the program computes it. -/
def unpack111011Double (value : Nat) : Vec3 :=
  { x := unpackUnormDouble (ushr value 21) 11
    y := unpackUnormDouble (ushr value 11) 10
    z := unpackUnormDouble value 11 }

/-- `lerp(a, b, t) = a * (1 - t) + b * t` as the program computes it: the subtraction, the two
products and the sum are each rounded to binary64. -/
def lerpDouble (a b t : JsNum) : JsNum :=
  ((a * ((1 : JsNum) - t).toDouble).toDouble + (b * t).toDouble).toDouble

/-! ## Buffers, files and binary reads (Node `Buffer` and `FileHandle`) -/

/-- `Buffer.alloc(length)` followed by `file.read(buf, 0, length, position)`: the bytes of the
file from `position` on, and zeros where the file has ended. -/
def fileRead (file : List Nat) (length position : Nat) : List Nat :=
  (List.range length).map (fun k => file.getD (position + k) 0)

/-- `buf.readUInt32LE(offset)`: throws (here `none`) unless `offset + 4 <= buf.length`. -/
def readUInt32LE (buf : List Nat) (offset : Nat) : Option Nat :=
  if offset + 4 ≤ buf.length then
    some (buf.getD offset 0 + buf.getD (offset + 1) 0 * 2 ^ 8 + buf.getD (offset + 2) 0 * 2 ^ 16
      + buf.getD (offset + 3) 0 * 2 ^ 24)
  else none

/-- The value of an IEEE 754 binary32 bit pattern. -/
def float32OfBits (bits : Nat) : JsNum :=
  let sign : Nat := bits / 2 ^ 31 % 2
  let e : Nat := bits / 2 ^ 23 % 256
  let m : Nat := bits % 2 ^ 23
  if e = 255 then
    if m = 0 then (if sign = 0 then JsNum.posInf else JsNum.negInf) else JsNum.nan
  else
    let mag : ℚ := if e = 0 then (m : ℚ) / 2 ^ 149 else ((2 ^ 23 + m : Nat) : ℚ) * 2 ^ e / 2 ^ 150
    JsNum.fin (if sign = 0 then mag else -mag)

/-- `buf.readFloatLE(offset)`: throws (here `none`) unless `offset + 4 <= buf.length`. -/
def readFloatLE (buf : List Nat) (offset : Nat) : Option JsNum :=
  (readUInt32LE buf offset).map float32OfBits

/-- The little-endian 32-bit word stored in the file at byte offset `offset`
(bytes past the end of the file count as zero). -/
def wordAt (file : List Nat) (offset : Nat) : Nat :=
  file.getD offset 0 + file.getD (offset + 1) 0 * 2 ^ 8 + file.getD (offset + 2) 0 * 2 ^ 16
    + file.getD (offset + 3) 0 * 2 ^ 24

/-- The little-endian binary32 float stored in the file at byte offset `offset`. -/
def floatAt (file : List Nat) (offset : Nat) : JsNum := float32OfBits (wordAt file offset)

/-! ## Text: UTF-8 decoding, `indexOf`, and the header regular expressions -/

/-- The UTF-16 code units of a code point. -/
def utf16Units (cp : Nat) : List Nat :=
  if cp < 0x10000 then [cp]
  else [0xD800 + (cp - 0x10000) / 0x400, 0xDC00 + (cp - 0x10000) % 0x400]

/-- A UTF-8 sequence in progress: continuation bytes still needed, the code point so far, and
the range allowed for the next byte. -/
structure Utf8State where
  needed : Nat
  cp : Nat
  lower : Nat
  upper : Nat

/-- A byte met outside a multi-byte sequence: what it emits and the sequence it opens. -/
def utf8Start (b : Nat) : List Nat × Option Utf8State :=
  if b < 0x80 then ([b], none)
  else if 0xC2 ≤ b ∧ b ≤ 0xDF then ([], some ⟨1, b % 0x20, 0x80, 0xBF⟩)
  else if 0xE0 ≤ b ∧ b ≤ 0xEF then
    ([], some ⟨2, b % 0x10, if b = 0xE0 then 0xA0 else 0x80, if b = 0xED then 0x9F else 0xBF⟩)
  else if 0xF0 ≤ b ∧ b ≤ 0xF4 then
    ([], some ⟨3, b % 0x08, if b = 0xF0 then 0x90 else 0x80, if b = 0xF4 then 0x8F else 0xBF⟩)
  else ([0xFFFD], none)

/-- The UTF-8 decoder behind `buf.toString('utf-8')`: every ill-formed sequence becomes one
U+FFFD, and the byte that broke a sequence is decoded again on its own. -/
def utf8DecodeFrom : Option Utf8State → List Nat → List Nat
  | none, [] => []
  | some _, [] => [0xFFFD]
  | none, b :: bs => (utf8Start b).1 ++ utf8DecodeFrom (utf8Start b).2 bs
  | some st, b :: bs =>
      if st.lower ≤ b ∧ b ≤ st.upper then
        if st.needed = 1 then utf16Units (st.cp * 64 + b % 64) ++ utf8DecodeFrom none bs
        else utf8DecodeFrom (some ⟨st.needed - 1, st.cp * 64 + b % 64, 0x80, 0xBF⟩) bs
      else 0xFFFD :: ((utf8Start b).1 ++ utf8DecodeFrom (utf8Start b).2 bs)

/-- `buf.toString('utf-8', 0, bytesRead)` on the bytes read. -/
def toStringUtf8 (bytes : List Nat) : List Nat := utf8DecodeFrom none bytes

/-- The code units of an ASCII string literal of the program. -/
def lit (s : String) : List Nat := s.toList.map Char.toNat

/-- Search for `needle` from the current position, which has index `i`. -/
def indexOfFrom (needle : List Nat) : List Nat → Nat → Option Nat
  | [], i => if needle.isPrefixOf [] then some i else none
  | c :: cs, i => if needle.isPrefixOf (c :: cs) then some i else indexOfFrom needle cs (i + 1)

/-- `text.indexOf(needle)`: the index of the first occurrence, `none` for `-1`. -/
def indexOf (text needle : List Nat) : Option Nat := indexOfFrom needle text 0

/-- The class `\d`. -/
def isDigit (c : Nat) : Bool := 48 ≤ c && c ≤ 57

/-- The class `\w`. -/
def isWordChar (c : Nat) : Bool :=
  isDigit c || (65 ≤ c && c ≤ 90) || (97 ≤ c && c ≤ 122) || c == 95

/-- `text.match(/<prefix>(\d+)/)`: the digits captured by the leftmost match, the capture
being the longest run of digits after the literal prefix. -/
def matchDigitsAfter (pre : List Nat) : List Nat → Option (List Nat)
  | [] => none
  | c :: cs =>
      if pre.isPrefixOf (c :: cs) ∧ (((c :: cs).drop pre.length).takeWhile isDigit) ≠ [] then
        some (((c :: cs).drop pre.length).takeWhile isDigit)
      else matchDigitsAfter pre cs

/-- `parseInt` on a run of decimal digits. -/
def parseInt (digits : List Nat) : Nat := digits.foldl (fun acc d => acc * 10 + (d - 48)) 0

/-- `text.match(/<prefix>(\w+)/g)`: all matches from left to right, none overlapping an earlier
one (`skip` counts the code units of the previous match still to be passed over); `null`
is the empty list. -/
def matchAllWordsAfter (pre : List Nat) : Nat → List Nat → List (List Nat)
  | _, [] => []
  | skip + 1, _ :: cs => matchAllWordsAfter pre skip cs
  | 0, c :: cs =>
      if pre.isPrefixOf (c :: cs) ∧ (((c :: cs).drop pre.length).takeWhile isWordChar) ≠ [] then
        (pre ++ ((c :: cs).drop pre.length).takeWhile isWordChar) ::
          matchAllWordsAfter pre
            (pre.length + (((c :: cs).drop pre.length).takeWhile isWordChar).length - 1) cs
      else matchAllWordsAfter pre 0 cs

/-- `s.replace(pattern, '')` with a string pattern: the first occurrence is removed. -/
def replaceFirst (s pattern : List Nat) : List Nat :=
  match indexOf s pattern with
  | none => s
  | some i => s.take i ++ s.drop (i + pattern.length)

/-- `array.indexOf(value)` on an array of strings, `none` for `-1`. -/
def arrayIndexOf (value : List Nat) : List (List Nat) → Option Nat
  | [] => none
  | s :: rest => if s = value then some 0 else (arrayIndexOf value rest).map (· + 1)

/-! ## The bounding box and the report (both analyzers) -/

/-- The six running extremes `minX, maxX, minY, maxY, minZ, maxZ`. -/
structure BoundingBox where
  minX : JsNum
  maxX : JsNum
  minY : JsNum
  maxY : JsNum
  minZ : JsNum
  maxZ : JsNum
  deriving DecidableEq

/-- The initial state: `let minX = Infinity, maxX = -Infinity` and likewise for Y and Z. -/
def BoundingBox.empty : BoundingBox :=
  ⟨JsNum.posInf, JsNum.negInf, JsNum.posInf, JsNum.negInf, JsNum.posInf, JsNum.negInf⟩

/-- One running minimum: `if (v < m) m = v`. -/
def stepMin (m v : JsNum) : JsNum := if v.lt m then v else m

/-- One running maximum: `if (v > m) m = v`. -/
def stepMax (m v : JsNum) : JsNum := if m.lt v then v else m

/-- The six updates `if (x < minX) minX = x; if (x > maxX) maxX = x; ...` for one vertex. -/
def BoundingBox.update (b : BoundingBox) (p : Vec3) : BoundingBox :=
  { minX := stepMin b.minX p.x
    maxX := stepMax b.maxX p.x
    minY := stepMin b.minY p.y
    maxY := stepMax b.maxY p.y
    minZ := stepMin b.minZ p.z
    maxZ := stepMax b.maxZ p.z }

/-- The running update applied to the decoded vertices in loop order. -/
def foldBox (b : BoundingBox) (ps : List Vec3) : BoundingBox := ps.foldl BoundingBox.update b

/-- What the analyzers compute from the final box: centre, size and the origin test. -/
structure Report where
  box : BoundingBox
  centerX : JsNum
  centerY : JsNum
  centerZ : JsNum
  sizeX : JsNum
  sizeY : JsNum
  sizeZ : JsNum
  isCenteredAtOrigin : Bool
  deriving DecidableEq

/-- `centerX = (minX + maxX) / 2`, `sizeX = maxX - minX`,
`isCenteredAtOrigin = Math.abs(centerX) < 0.01 && ...`. -/
def mkReport (b : BoundingBox) : Report :=
  let centerX := (b.minX + b.maxX) / 2
  let centerY := (b.minY + b.maxY) / 2
  let centerZ := (b.minZ + b.maxZ) / 2
  { box := b
    centerX := centerX
    centerY := centerY
    centerZ := centerZ
    sizeX := b.maxX - b.minX
    sizeY := b.maxY - b.minY
    sizeZ := b.maxZ - b.minZ
    isCenteredAtOrigin :=
      centerX.abs.lt (JsNum.fin (1 / 100)) && centerY.abs.lt (JsNum.fin (1 / 100))
        && centerZ.abs.lt (JsNum.fin (1 / 100)) }

/-- Why an analysis stops without a report: the three early returns of `analyzePly`, the
extra one of `analyzeCompressedPly`, an out-of-range buffer read, and a buffer that the
runtime does not allocate (the last two are a `RangeError` that rejects the analysis). -/
inductive Failure where
  | noEndHeader
  | notValidPly
  | noXYZ
  | notCompressed
  | outOfRange
  | allocation
  deriving DecidableEq

/-- An analysis run: the payload reads issued after the header read, as
`(position, length)` pairs in order, and the report or the failure. -/
structure Outcome where
  payloadReads : List (Nat × Nat)
  result : Except Failure Report

/-- `const batchSize = 10000`. -/
def batchSize : Nat := 10000

/-- `totalBatches = Math.ceil(numVertices / batchSize)`. -/
def totalBatches (numVertices : Nat) : Nat := (numVertices + (batchSize - 1)) / batchSize

/-- The header text: the first `128 * 1024` bytes of the file, decoded. -/
def headerTextOf (file : List Nat) : List Nat := toStringUtf8 (file.take (128 * 1024))

/-- The batch loop `for (let batch = 0; batch < totalBatches; batch++)`: every batch issues
its read, then decodes; a decoding exception ends the run. -/
def runBatches (readOf : Nat → Nat × Nat) (decode : Nat → Option (List Vec3)) :
    List Nat → List (Nat × Nat) × Option (List Vec3)
  | [] => ([], some [])
  | batch :: rest =>
      match decode batch with
      | none => ([readOf batch], none)
      | some ps =>
          (readOf batch :: (runBatches readOf decode rest).1,
            (runBatches readOf decode rest).2.map (ps ++ ·))

/-! ## The flat analyzer (`analyze-ply.mjs`) -/

/-- What `analyzePly` has derived from the header when it starts reading vertices. -/
structure FlatHeader where
  numVertices : Nat
  properties : List (List Nat)
  xIdx : Nat
  yIdx : Nat
  zIdx : Nat
  vertexSize : Nat
  headerSize : Nat
  deriving DecidableEq

/-- Lines 33-34 of `analyze-ply.mjs`: `propertyMatches = header.match(/property float (\w+)/g)`
and `properties = propertyMatches.map(m => m.replace('property float ', ''))`, or `[]`. -/
def declaredProperties (header : List Nat) : List (List Nat) :=
  (matchAllWordsAfter (lit "property float ") 0 header).map
    (fun m => replaceFirst m (lit "property float "))

/-- Lines 6-50 of `analyze-ply.mjs`: the header checks and the derived layout. -/
def analyzePlyHeader (file : List Nat) : Except Failure FlatHeader :=
  let headerText := headerTextOf file
  match indexOf headerText (lit "end_header") with
  | none => .error .noEndHeader
  | some headerEnd =>
    let header := headerText.take headerEnd
    match matchDigitsAfter (lit "element vertex ") header with
    | none => .error .notValidPly
    | some vertexMatch =>
      let numVertices := parseInt vertexMatch
      let properties := declaredProperties header
      match arrayIndexOf (lit "x") properties, arrayIndexOf (lit "y") properties,
          arrayIndexOf (lit "z") properties with
      | some xIdx, some yIdx, some zIdx =>
        .ok { numVertices := numVertices
              properties := properties
              xIdx := xIdx
              yIdx := yIdx
              zIdx := zIdx
              vertexSize := properties.length * 4
              headerSize := headerEnd + (lit "end_header\n").length }
      | _, _, _ => .error .noXYZ

/-- The body of the inner loop of `analyzePly` for vertex `i` of a batch. -/
def decodeFlatVertex (buf : List Nat) (h : FlatHeader) (i : Nat) : Option Vec3 := do
  let vertexOffset := i * h.vertexSize
  let x ← readFloatLE buf (vertexOffset + h.xIdx * 4)
  let y ← readFloatLE buf (vertexOffset + h.yIdx * 4)
  let z ← readFloatLE buf (vertexOffset + h.zIdx * 4)
  pure ⟨x, y, z⟩

/-- The read issued by batch `batch` of `analyzePly`: `(offset, bufferSize)`. -/
def flatBatchRead (h : FlatHeader) (batch : Nat) : Nat × Nat :=
  let startVertex := batch * batchSize
  let endVertex := min (startVertex + batchSize) h.numVertices
  let vertexCount := endVertex - startVertex
  (h.headerSize + startVertex * h.vertexSize, vertexCount * h.vertexSize)

/-- One batch of `analyzePly`: the vertices it decodes, in order. -/
def decodeFlatBatch (file : List Nat) (h : FlatHeader) (batch : Nat) : Option (List Vec3) :=
  let startVertex := batch * batchSize
  let endVertex := min (startVertex + batchSize) h.numVertices
  let vertexCount := endVertex - startVertex
  let offset := h.headerSize + startVertex * h.vertexSize
  let bufferSize := vertexCount * h.vertexSize
  let buf := fileRead file bufferSize offset
  (List.range vertexCount).mapM (decodeFlatVertex buf h)

/-- The vertex phase of `analyzePly`: reads issued and positions decoded, in loop order. -/
def decodeFlat (file : List Nat) (h : FlatHeader) : List (Nat × Nat) × Option (List Vec3) :=
  runBatches (flatBatchRead h) (decodeFlatBatch file h) (List.range (totalBatches h.numVertices))

/-- `analyzePly(plyPath)` on the bytes of the file.  The box is updated vertex by vertex
inside the loops; since decoding never looks at the box, that is the left fold of the update
over the decoded vertices. -/
def analyzePly (file : List Nat) : Outcome :=
  match analyzePlyHeader file with
  | .error e => ⟨[], .error e⟩
  | .ok h =>
    match decodeFlat file h with
    | (reads, none) => ⟨reads, .error .outOfRange⟩
    | (reads, some ps) => ⟨reads, .ok (mkReport (foldBox BoundingBox.empty ps))⟩

/-! ## The chunked analyzer (`analyze-compressed-ply.mjs`) -/

/-- `chunkElementSize = 18 * 4`. -/
def chunkElementSize : Nat := 18 * 4

/-- `vertexElementSize = 4 * 4`. -/
def vertexElementSize : Nat := 4 * 4

/-- What `analyzeCompressedPly` has derived from the header when it starts reading. -/
structure ChunkedHeader where
  numVertices : Nat
  numChunks : Nat
  headerSize : Nat
  deriving DecidableEq

/-- Lines 21-58 of `analyze-compressed-ply.mjs`: the header checks. -/
def analyzeCompressedPlyHeader (file : List Nat) : Except Failure ChunkedHeader :=
  let headerText := headerTextOf file
  match indexOf headerText (lit "end_header") with
  | none => .error .noEndHeader
  | some headerEnd =>
    let header := headerText.take headerEnd
    match matchDigitsAfter (lit "element vertex ") header with
    | none => .error .notValidPly
    | some vertexMatch =>
      match matchDigitsAfter (lit "element chunk ") header with
      | none => .error .notCompressed
      | some chunkMatch =>
        .ok { numVertices := parseInt vertexMatch
              numChunks := parseInt chunkMatch
              headerSize := headerEnd + (lit "end_header\n").length }

/-- `chunkDataOffset = headerSize`. -/
def ChunkedHeader.chunkDataOffset (h : ChunkedHeader) : Nat := h.headerSize

/-- `vertexDataOffset = headerSize + numChunks * chunkElementSize`. -/
def ChunkedHeader.vertexDataOffset (h : ChunkedHeader) : Nat :=
  h.headerSize + h.numChunks * chunkElementSize

/-- The six `Float32Array(numChunks)` filled by the chunk loop. -/
structure ChunkArrays where
  min_x : List JsNum
  max_x : List JsNum
  min_y : List JsNum
  max_y : List JsNum
  min_z : List JsNum
  max_z : List JsNum
  deriving DecidableEq

/-- What the chunked analyzer depends on besides the file: `maxAlloc`, the largest byte length
for which `Buffer.alloc` returns a buffer.  A larger request throws `RangeError`.  The limit is
that of the machine and of `buffer.constants.MAX_LENGTH`, which lies between `2^30 - 1` and
`2^53 - 1` in every Node runtime.  So the buffers whose size the program fixes (the header
buffer of `128 * 1024` bytes, a vertex batch of at most 160000 bytes) are always allocated, and
so are the six `Float32Array(numChunks)` once the buffer of `72 * numChunks` bytes is.  A
product `numChunks * 72` within the limit is below `2^53`, hence exact in the program. -/
structure Runtime where
  maxAlloc : Nat
  lower : 2 ^ 30 - 1 ≤ maxAlloc
  upper : maxAlloc ≤ 2 ^ 53 - 1

/-- Lines 75-90: the six arrays filled from the chunk buffer; record `i` gives
`min_x, min_y, min_z, max_x, max_y, max_z` from its first six floats. -/
def chunkArraysOf (chunkBuf : List Nat) (numChunks : Nat) : Option ChunkArrays := do
  let min_x ← (List.range numChunks).mapM (fun i => readFloatLE chunkBuf (i * chunkElementSize))
  let min_y ← (List.range numChunks).mapM
    (fun i => readFloatLE chunkBuf (i * chunkElementSize + 4))
  let min_z ← (List.range numChunks).mapM
    (fun i => readFloatLE chunkBuf (i * chunkElementSize + 8))
  let max_x ← (List.range numChunks).mapM
    (fun i => readFloatLE chunkBuf (i * chunkElementSize + 12))
  let max_y ← (List.range numChunks).mapM
    (fun i => readFloatLE chunkBuf (i * chunkElementSize + 16))
  let max_z ← (List.range numChunks).mapM
    (fun i => readFloatLE chunkBuf (i * chunkElementSize + 20))
  pure ⟨min_x, max_x, min_y, max_y, min_z, max_z⟩

/-- Lines 72-90: `Buffer.alloc(numChunks * chunkElementSize)`, which throws when the runtime
does not allocate that many bytes; then the read of the chunk table into the buffer and the
fill of the six arrays.  The result is the list of the reads issued and the arrays or the
failure. -/
def readChunks (rt : Runtime) (file : List Nat) (h : ChunkedHeader) :
    List (Nat × Nat) × Except Failure ChunkArrays :=
  if rt.maxAlloc < h.numChunks * chunkElementSize then ([], .error .allocation)
  else
    ([(h.chunkDataOffset, h.numChunks * chunkElementSize)],
      match chunkArraysOf (fileRead file (h.numChunks * chunkElementSize) h.chunkDataOffset)
          h.numChunks with
      | none => .error .outOfRange
      | some c => .ok c)

/-- Reading a typed array at `ci`: outside the array the value is `undefined`, which the
arithmetic of `lerp` turns into `NaN`. -/
def arrayAt (a : List JsNum) (ci : Nat) : JsNum := a.getD ci JsNum.nan

/-- Lines 118-124 in exact arithmetic: the position of a vertex from its packed word and its
chunk index. -/
def dequantize (c : ChunkArrays) (ci packedPos : Nat) : Vec3 :=
  let p := unpack111011 packedPos
  { x := lerp (arrayAt c.min_x ci) (arrayAt c.max_x ci) p.x
    y := lerp (arrayAt c.min_y ci) (arrayAt c.max_y ci) p.y
    z := lerp (arrayAt c.min_z ci) (arrayAt c.max_z ci) p.z }

/-- Lines 118-124 as the program computes them: the position of a vertex from its packed word
and its chunk index, every operation rounded to binary64. -/
def dequantizeDouble (c : ChunkArrays) (ci packedPos : Nat) : Vec3 :=
  let p := unpack111011Double packedPos
  { x := lerpDouble (arrayAt c.min_x ci) (arrayAt c.max_x ci) p.x
    y := lerpDouble (arrayAt c.min_y ci) (arrayAt c.max_y ci) p.y
    z := lerpDouble (arrayAt c.min_z ci) (arrayAt c.max_z ci) p.z }

/-- The body of the inner loop of `analyzeCompressedPly` for vertex `i` of a batch. -/
def decodeChunkedVertex (buf : List Nat) (c : ChunkArrays) (startVertex i : Nat) :
    Option Vec3 := do
  let vertexOffset := i * vertexElementSize
  let packedPos ← readUInt32LE buf vertexOffset
  let ci := (startVertex + i) / CHUNK_SIZE
  pure (dequantizeDouble c ci packedPos)

/-- The read issued by batch `batch` of `analyzeCompressedPly`: `(offset, bufferSize)`. -/
def chunkedBatchRead (h : ChunkedHeader) (batch : Nat) : Nat × Nat :=
  let startVertex := batch * batchSize
  let endVertex := min (startVertex + batchSize) h.numVertices
  let vertexCount := endVertex - startVertex
  (h.vertexDataOffset + startVertex * vertexElementSize, vertexCount * vertexElementSize)

/-- One batch of `analyzeCompressedPly`: the vertices it decodes, in order. -/
def decodeChunkedBatch (file : List Nat) (h : ChunkedHeader) (c : ChunkArrays) (batch : Nat) :
    Option (List Vec3) :=
  let startVertex := batch * batchSize
  let endVertex := min (startVertex + batchSize) h.numVertices
  let vertexCount := endVertex - startVertex
  let offset := h.vertexDataOffset + startVertex * vertexElementSize
  let bufferSize := vertexCount * vertexElementSize
  let buf := fileRead file bufferSize offset
  (List.range vertexCount).mapM (decodeChunkedVertex buf c startVertex)

/-- The vertex phase of `analyzeCompressedPly`. -/
def decodeChunked (file : List Nat) (h : ChunkedHeader) (c : ChunkArrays) :
    List (Nat × Nat) × Option (List Vec3) :=
  runBatches (chunkedBatchRead h) (decodeChunkedBatch file h c)
    (List.range (totalBatches h.numVertices))

/-- `analyzeCompressedPly(plyPath)` on the bytes of the file, in the runtime `rt`. -/
def analyzeCompressedPly (rt : Runtime) (file : List Nat) : Outcome :=
  match analyzeCompressedPlyHeader file with
  | .error e => ⟨[], .error e⟩
  | .ok h =>
    match readChunks rt file h with
    | (chunkReads, .error e) => ⟨chunkReads, .error e⟩
    | (chunkReads, .ok c) =>
      match decodeChunked file h c with
      | (reads, none) => ⟨chunkReads ++ reads, .error .outOfRange⟩
      | (reads, some ps) =>
          ⟨chunkReads ++ reads, .ok (mkReport (foldBox BoundingBox.empty ps))⟩

/-! ## Reference descriptions used to state the properties -/

/-- The position a flat file stores for vertex `g`: the three floats at
`headerSize + g * stride + 4 * k`, `k` being the index of `x`, `y` and `z`. -/
def flatVertexAt (file : List Nat) (h : FlatHeader) (g : Nat) : Vec3 :=
  { x := floatAt file (h.headerSize + g * h.vertexSize + 4 * h.xIdx)
    y := floatAt file (h.headerSize + g * h.vertexSize + 4 * h.yIdx)
    z := floatAt file (h.headerSize + g * h.vertexSize + 4 * h.zIdx) }

/-- The position a chunked file stores for vertex `g`: the packed word at
`headerSize + 72 * numChunks + 16 * g`, dequantized with chunk `g / 256`. -/
def chunkedVertexAt (file : List Nat) (h : ChunkedHeader) (c : ChunkArrays) (g : Nat) : Vec3 :=
  dequantizeDouble c (g / 256) (wordAt file (h.headerSize + 72 * h.numChunks + 16 * g))

/-- The chunk table of a chunked file: chunk `k` has the six floats at
`headerSize + 72 * k + {0, 12, 4, 16, 8, 20}` as `min_x, max_x, min_y, max_y, min_z, max_z`. -/
def chunkTableAt (file : List Nat) (h : ChunkedHeader) : ChunkArrays :=
  { min_x := (List.range h.numChunks).map (fun k => floatAt file (h.headerSize + 72 * k + 0))
    max_x := (List.range h.numChunks).map (fun k => floatAt file (h.headerSize + 72 * k + 12))
    min_y := (List.range h.numChunks).map (fun k => floatAt file (h.headerSize + 72 * k + 4))
    max_y := (List.range h.numChunks).map (fun k => floatAt file (h.headerSize + 72 * k + 16))
    min_z := (List.range h.numChunks).map (fun k => floatAt file (h.headerSize + 72 * k + 8))
    max_z := (List.range h.numChunks).map (fun k => floatAt file (h.headerSize + 72 * k + 20)) }

/-- Combining two batch results as the specification describes it: per axis, the smaller of
the minima and the larger of the maxima.  The program has no such step; it carries one
running state through all batches. -/
def BoundingBox.combine (a b : BoundingBox) : BoundingBox :=
  { minX := stepMin a.minX b.minX
    maxX := stepMax a.maxX b.maxX
    minY := stepMin a.minY b.minY
    maxY := stepMax a.maxY b.maxY
    minZ := stepMin a.minZ b.minZ
    maxZ := stepMax a.maxZ b.maxZ }

/-- The length of the line break that starts a byte sequence: `\r\n`, `\n` or `\r`. -/
def lineBreakLength : List Nat → Nat
  | 13 :: 10 :: _ => 2
  | 10 :: _ => 1
  | 13 :: _ => 1
  | _ => 0

/-- The payload offset as the specification words it: the byte index at which the terminator
token starts, plus the length of the token, plus the length of its trailing line break. -/
def payloadOffsetSpec (file : List Nat) : Option Nat :=
  (indexOf (file.take (128 * 1024)) (lit "end_header")).map
    (fun i => i + (lit "end_header").length
      + lineBreakLength (file.drop (i + (lit "end_header").length)))

/-! ## Example files -/

/-- The flat scenario: the vertices `(1, 2, 3)` and `(-1, 0, 5)` after a header declaring
`x y z`. -/
def exampleFlatFile : List Nat :=
  lit "ply\nformat binary_little_endian 1.0\nelement vertex 2\nproperty float x\nproperty float y\nproperty float z\nend_header\n"
    ++ [0x00, 0x00, 0x80, 0x3F, 0x00, 0x00, 0x00, 0x40, 0x00, 0x00, 0x40, 0x40,
        0x00, 0x00, 0x80, 0xBF, 0x00, 0x00, 0x00, 0x00, 0x00, 0x00, 0xA0, 0x40]

/-- A flat file with one vertex whose three coordinates are the binary32 `NaN` `0x7FC00000`. -/
def nanFlatFile : List Nat :=
  lit "ply\nformat binary_little_endian 1.0\nelement vertex 1\nproperty float x\nproperty float y\nproperty float z\nend_header\n"
    ++ [0x00, 0x00, 0xC0, 0x7F, 0x00, 0x00, 0xC0, 0x7F, 0x00, 0x00, 0xC0, 0x7F]

/-- A flat file that declares no vertex. -/
def emptyFlatFile : List Nat :=
  lit "ply\nformat binary_little_endian 1.0\nelement vertex 0\nproperty float x\nproperty float y\nproperty float z\nend_header\n"

/-- The flat scenario with `\r\n` line ends and one vertex `(1, 2, 3)`. -/
def crlfFlatFile : List Nat :=
  lit "ply\r\nformat binary_little_endian 1.0\r\nelement vertex 1\r\nproperty float x\r\nproperty float y\r\nproperty float z\r\nend_header\r\n"
    ++ [0x00, 0x00, 0x80, 0x3F, 0x00, 0x00, 0x00, 0x40, 0x00, 0x00, 0x40, 0x40]

/-- The flat scenario with one vertex `(1, 2, 3)` and a comment line holding the two-byte
UTF-8 character U+00E9. -/
def accentFlatFile : List Nat :=
  lit "ply\nformat binary_little_endian 1.0\ncomment caf" ++ [0xC3, 0xA9]
    ++ lit "\nelement vertex 1\nproperty float x\nproperty float y\nproperty float z\nend_header\n"
    ++ [0x00, 0x00, 0x80, 0x3F, 0x00, 0x00, 0x00, 0x40, 0x00, 0x00, 0x40, 0x40]

/-- The chunked scenario: one chunk with range `0 .. 10` on every axis (the other twelve
floats of the record are zero) and one vertex whose packed position is `0xFFE007FF`. -/
def exampleChunkedFile : List Nat :=
  lit "ply\nformat binary_little_endian 1.0\nelement chunk 1\nelement vertex 1\nend_header\n"
    ++ [0x00, 0x00, 0x00, 0x00, 0x00, 0x00, 0x00, 0x00, 0x00, 0x00, 0x00, 0x00,
        0x00, 0x00, 0x20, 0x41, 0x00, 0x00, 0x20, 0x41, 0x00, 0x00, 0x20, 0x41]
    ++ List.replicate 48 0
    ++ [0xFF, 0x07, 0xE0, 0xFF] ++ List.replicate 12 0

/-- A header that declares a chunk element and also float properties `x y z`, followed by
twelve payload bytes. -/
def mixedFile : List Nat :=
  lit "ply\nformat binary_little_endian 1.0\nelement chunk 1\nproperty float x\nproperty float y\nproperty float z\nelement vertex 1\nproperty uint packed_position\nend_header\n"
    ++ [0x00, 0x00, 0x80, 0x3F, 0x00, 0x00, 0x00, 0x40, 0x00, 0x00, 0x40, 0x40]

/-! ## Numbers from strings (`parseFloat`, `parseInt(s, 10)`, `trim`, `split`) -/

/-- The white space that `parseFloat`, `parseInt` and `trim` skip. -/
def isWhiteSpace (c : Nat) : Bool :=
  (9 ≤ c && c ≤ 13) || c == 32 || c == 160 || c == 0x1680 || (0x2000 ≤ c && c ≤ 0x200A)
    || c == 0x2028 || c == 0x2029 || c == 0x202F || c == 0x205F || c == 0x3000 || c == 0xFEFF

/-- The value of a run of decimal digits. -/
def digitsValue (digits : List Nat) : Nat := digits.foldl (fun acc d => acc * 10 + (d - 48)) 0

/-- A sign character at the head of a string: whether it is `-`, and the rest. -/
def takeSign : List Nat → Bool × List Nat
  | 43 :: rest => (false, rest)
  | 45 :: rest => (true, rest)
  | s => (false, s)

/-- What `parseFloat` reads from a string: nothing (`NaN`), `Infinity` with its sign, or a
decimal literal with its sign, the digits of its mantissa as one integer, and its power of
ten. -/
inductive NumLit where
  | nan : NumLit
  | inf (negative : Bool) : NumLit
  | dec (negative : Bool) (mantissa : Nat) (exp10 : Int) : NumLit
  deriving DecidableEq

/-- The exponent part `e[+-]digits` at the head of a string, or 0 when there is none. -/
def scanExponent : List Nat → Int
  | c :: rest =>
      if c = 101 ∨ c = 69 then
        if ((takeSign rest).2.takeWhile isDigit) = [] then 0
        else if (takeSign rest).1 then -((digitsValue ((takeSign rest).2.takeWhile isDigit) : Nat) : Int)
        else ((digitsValue ((takeSign rest).2.takeWhile isDigit) : Nat) : Int)
      else 0
  | [] => 0

/-- The unsigned decimal literal at the head of a string: digits, an optional fraction, an
optional exponent; `none` when there is no digit. -/
def scanDecimal (s : List Nat) : Option (Nat × Int) :=
  let intDigits := s.takeWhile isDigit
  let afterInt := s.dropWhile isDigit
  let fracDigits := match afterInt with
    | 46 :: rest => rest.takeWhile isDigit
    | _ => []
  let afterFrac := match afterInt with
    | 46 :: rest => rest.dropWhile isDigit
    | _ => afterInt
  if intDigits = [] ∧ fracDigits = [] then none
  else some (digitsValue (intDigits ++ fracDigits), scanExponent afterFrac - (fracDigits.length : Int))

/-- The longest prefix of the trimmed string that is a decimal literal, as `parseFloat`
reads it. -/
def scanFloat (s : List Nat) : NumLit :=
  let signed := takeSign (s.dropWhile isWhiteSpace)
  if (lit "Infinity").isPrefixOf signed.2 then NumLit.inf signed.1
  else
    match scanDecimal signed.2 with
    | none => NumLit.nan
    | some (mantissa, exp10) => NumLit.dec signed.1 mantissa exp10

/-- The number a literal denotes (exact: neither rounding nor overflow is modelled). -/
def NumLit.toJsNum : NumLit → JsNum
  | NumLit.nan => JsNum.nan
  | NumLit.inf negative => if negative then JsNum.negInf else JsNum.posInf
  | NumLit.dec negative mantissa exp10 =>
      JsNum.fin ((if negative then -1 else 1) * (mantissa : ℚ) * (10 : ℚ) ^ exp10)

/-- `parseFloat(value)`. -/
def parseFloat (value : List Nat) : JsNum := (scanFloat value).toJsNum

/-- `parseInt(value, 10)`: `none` is `NaN`. -/
def parseInt10 (value : List Nat) : Option Int :=
  let signed := takeSign (value.dropWhile isWhiteSpace)
  let digits := signed.2.takeWhile isDigit
  if digits = [] then none
  else some (if signed.1 then -((digitsValue digits : Nat) : Int) else ((digitsValue digits : Nat) : Int))

/-- `value.trim()`. -/
def trim (value : List Nat) : List Nat :=
  ((value.dropWhile isWhiteSpace).reverse.dropWhile isWhiteSpace).reverse

/-- `value.split(sep)` for a separator of one code unit. -/
def splitAtSep (sep : Nat) : List Nat → List (List Nat)
  | [] => [[]]
  | c :: cs =>
      if c = sep then [] :: splitAtSep sep cs
      else
        match splitAtSep sep cs with
        | [] => [[c]]
        | part :: parts => (c :: part) :: parts

/-! ## The command line of `index.mjs` (`parseOptions`, lines 51-107) -/

/-- What `parseArgs` found on the command line, before the defaults: the positionals, the
string options that were given, and the flags. -/
structure CliArgs where
  positionals : List (List Nat)
  output : Option (List Nat)
  frames : Option (List Nat)
  radius : Option (List Nat)
  width : Option (List Nat)
  imgHeight : Option (List Nat)
  fov : Option (List Nat)
  target : Option (List Nat)
  startAngle : Option (List Nat)
  swingAngle : Option (List Nat)
  cleanup : Bool
  quiet : Bool
  help : Bool

/-- The object `parseOptions` returns.  The two paths are kept as given (`resolve` is not
modelled); `frames`, `width` and `height` come from `parseInt`, so `none` is `NaN`. -/
structure Options where
  inputFile : List Nat
  outputDir : List Nat
  frames : Option Int
  radius : JsNum
  width : Option Int
  height : Option Int
  fov : JsNum
  target : List JsNum
  startAngle : JsNum
  swingAngle : JsNum
  cleanup : Bool
  quiet : Bool

/-- How `parseOptions` ends the process: the usage text with its exit code, `Invalid <name>`,
or `Invalid vector`. -/
inductive Exit where
  | usage (code : Nat)
  | invalidNumber (name : List Nat)
  | invalidVector
  deriving DecidableEq

/-- The `default:` entries of the `parseArgs` configuration. -/
def defaultOutput : List Nat := lit "./frames"

/-- `frames: { ..., default: '36' }`. -/
def defaultFrames : List Nat := lit "36"

/-- `radius: { ..., default: '2' }`. -/
def defaultRadius : List Nat := lit "2"

/-- `width: { ..., default: '1920' }`. -/
def defaultWidth : List Nat := lit "1920"

/-- `'img-height': { ..., default: '1080' }`. -/
def defaultImgHeight : List Nat := lit "1080"

/-- `fov: { ..., default: '50' }`. -/
def defaultFov : List Nat := lit "50"

/-- `target: { ..., default: '0,0,0' }`. -/
def defaultTarget : List Nat := lit "0,0,0"

/-- `'start-angle': { ..., default: '0' }`. -/
def defaultStartAngle : List Nat := lit "0"

/-- `'swing-angle': { ..., default: '30' }`. -/
def defaultSwingAngle : List Nat := lit "30"

/-- `parseNumber(value, name)`: `parseFloat`, and exit when the result is `NaN`. -/
def parseNumber (value name : List Nat) : Except Exit JsNum :=
  let num := parseFloat value
  if num = JsNum.nan then .error (.invalidNumber name) else .ok num

/-- `parseVec3(value)`: three comma-separated numbers, none of them `NaN`. -/
def parseVec3 (value : List Nat) : Except Exit (List JsNum) :=
  let parts := (splitAtSep 44 value).map (fun v => parseFloat (trim v))
  if parts.length ≠ 3 ∨ parts.any (fun p => p = JsNum.nan) then .error .invalidVector
  else .ok parts

/-- `parseOptions()` on what `parseArgs` found. -/
def parseOptions (args : CliArgs) : Except Exit Options :=
  if args.help ∨ args.positionals.length = 0 then .error (.usage (if args.help then 0 else 1))
  else do
    let radius ← parseNumber (args.radius.getD defaultRadius) (lit "radius")
    let fov ← parseNumber (args.fov.getD defaultFov) (lit "fov")
    let target ← parseVec3 (args.target.getD defaultTarget)
    let startAngle ← parseNumber (args.startAngle.getD defaultStartAngle) (lit "start-angle")
    let swingAngle ← parseNumber (args.swingAngle.getD defaultSwingAngle) (lit "swing-angle")
    pure
      { inputFile := args.positionals.headD []
        outputDir := args.output.getD defaultOutput
        frames := parseInt10 (args.frames.getD defaultFrames)
        radius := radius
        width := parseInt10 (args.width.getD defaultWidth)
        height := parseInt10 (args.imgHeight.getD defaultImgHeight)
        fov := fov
        target := target
        startAngle := startAngle
        swingAngle := swingAngle
        cleanup := args.cleanup
        quiet := args.quiet }

/-- The defaults the usage text of `index.mjs` documents (lines 24-32), as it prints them. -/
structure UsageDefaults where
  output : List Nat
  frames : Nat
  radius : Nat
  width : Nat
  imgHeight : Nat
  fov : Nat
  target : List Nat
  startAngle : Nat
  swingAngle : Nat

/-- The usage text: `(default: ./frames)`, `(default: 36)`, `(default: 5)`, `(default: 1920)`,
`(default: 1080)`, `(default: 50)`, `(default: 0,0,0)`, `(default: 0)`, `(default: 30, ...)`. -/
def usageDefaults : UsageDefaults :=
  { output := lit "./frames"
    frames := 36
    radius := 5
    width := 1920
    imgHeight := 1080
    fov := 50
    target := [0, 0, 0]
    startAngle := 0
    swingAngle := 30 }

/-- The command line `node index.mjs input.ply`: one positional and no option. -/
def bareArgs : CliArgs :=
  { positionals := [lit "input.ply"]
    output := none, frames := none, radius := none, width := none, imgHeight := none
    fov := none, target := none, startAngle := none, swingAngle := none
    cleanup := false, quiet := false, help := false }

/-! ## The orbit of `renderOrbitSequence` (`index.mjs`, lines 275-290) -/

/-- `Math.sin` and `Math.cos`, which the language leaves to the implementation. -/
structure JsMath where
  sin : JsNum → JsNum
  cos : JsNum → JsNum

/-- `Math.PI`, the double nearest to the circle constant. -/
def Math_PI : JsNum := JsNum.fin (884279719003555 / 281474976710656)

/-- One rendered frame: its index, the angle, and the position and Euler angles given to the
camera. -/
structure OrbitFrame where
  index : Nat
  angleDeg : JsNum
  position : Vec3
  rotation : Vec3

/-- The value of `options.frames` as a number. -/
def framesNumber (frames : Option Int) : JsNum :=
  match frames with
  | some k => JsNum.fin (k : ℚ)
  | none => JsNum.nan

/-- How often `for (let i = 0; i < options.frames; i++)` runs: never for `NaN`, zero or a
negative count. -/
def loopCount (frames : Option Int) : Nat :=
  match frames with
  | some k => k.toNat
  | none => 0

/-- The body of the render loop for frame `i`: the pose handed to the page. -/
def orbitFrame (m : JsMath) (options : Options) (i : Nat) : OrbitFrame :=
  let halfSwingAngle := options.swingAngle / 2
  let startAngle := -halfSwingAngle
  let endAngle := halfSwingAngle
  let radius := options.radius
  let angleDeg := startAngle
    + (JsNum.fin (i : ℚ) / (framesNumber options.frames - 1)) * (endAngle - startAngle)
  let angleRad := (angleDeg * Math_PI) / 180
  let cameraX := radius * m.sin angleRad
  let cameraY : JsNum := 0
  let cameraZ := radius * m.cos angleRad - radius
  let rotationX : JsNum := 180
  let rotationY := angleDeg
  let rotationZ : JsNum := 180
  { index := i
    angleDeg := angleDeg
    position := ⟨cameraX, cameraY, cameraZ⟩
    rotation := ⟨rotationX, rotationY, rotationZ⟩ }

/-- The frames of the render loop, in the order they are rendered. -/
def orbitFrames (m : JsMath) (options : Options) : List OrbitFrame :=
  (List.range (loopCount options.frames)).map (orbitFrame m options)

/-! ## The preset command builder (`use-preset.mjs`) -/

/-- A value found in `additionalOptions`: `undefined`, a boolean or a string. -/
inductive JsValue where
  | undefined : JsValue
  | bool (b : Bool) : JsValue
  | str (s : List Nat) : JsValue
  deriving DecidableEq

/-- Whether a value counts as true in a condition. -/
def JsValue.truthy : JsValue → Bool
  | JsValue.undefined => false
  | JsValue.bool b => b
  | JsValue.str s => !s.isEmpty

/-- The text a template literal inserts for a value. -/
def JsValue.toText : JsValue → List Nat
  | JsValue.undefined => lit "undefined"
  | JsValue.bool true => lit "true"
  | JsValue.bool false => lit "false"
  | JsValue.str s => s

/-- One entry of `presets.json`, which is not part of the sources at hand: every field is
`none` when the entry has no such field or a value that counts as false, and otherwise the
text a template literal inserts for it (for `target`, the text of `target.join(',')`). -/
structure Preset where
  frames : Option (List Nat)
  width : Option (List Nat)
  height : Option (List Nat)
  radius : Option (List Nat)
  cameraHeight : Option (List Nat)
  fov : Option (List Nat)
  target : Option (List Nat)

/-- `presets.presets[presetName]` on the table read from `presets.json`. -/
def lookupPreset (presets : List (List Nat × Preset)) (presetName : List Nat) : Option Preset :=
  (presets.find? (fun entry => entry.1 = presetName)).map (·.2)

/-- `if (field) command += flag + field` for one preset field. -/
def addField (command flag : List Nat) (field : Option (List Nat)) : List Nat :=
  match field with
  | some text => command ++ flag ++ text
  | none => command

/-- The body of the `forEach` over `Object.entries(additionalOptions)` for one entry. -/
def addOption (command : List Nat) (entry : List Nat × JsValue) : List Nat :=
  if entry.1 = lit "cleanup" ∧ entry.2.truthy then command ++ lit " --cleanup"
  else if entry.1 = lit "quiet" ∧ entry.2.truthy then command ++ lit " -q"
  else if entry.1 = lit "startAngle" then command ++ lit " --start-angle " ++ entry.2.toText
  else command

/-- Lines 17-29 of `use-preset.mjs`: the command before the additional options. -/
def baseCommand (preset : Preset) (inputFile : List Nat) (outputDir : Option (List Nat)) :
    List Nat :=
  let command := lit "node index.mjs \"" ++ inputFile ++ lit "\""
  let command := match outputDir with
    | some dir => if dir.isEmpty then command else command ++ lit " -o \"" ++ dir ++ lit "\""
    | none => command
  let command := addField command (lit " -f ") preset.frames
  let command := addField command (lit " -w ") preset.width
  let command := addField command (lit " -H ") preset.height
  let command := addField command (lit " -r ") preset.radius
  let command := addField command (lit " -h ") preset.cameraHeight
  let command := addField command (lit " --fov ") preset.fov
  addField command (lit " --target ") preset.target

/-- `generateCommand(inputFile, presetName, outputDir, additionalOptions)`; `none` is the
`process.exit(1)` of an unknown preset. -/
def generateCommand (presets : List (List Nat × Preset)) (inputFile presetName : List Nat)
    (outputDir : Option (List Nat)) (additionalOptions : List (List Nat × JsValue)) :
    Option (List Nat) :=
  match lookupPreset presets presetName with
  | none => none
  | some preset => some (additionalOptions.foldl addOption (baseCommand preset inputFile outputDir))

/-- `args.find(arg => arg.startsWith('--start-angle'))?.split('=')[1]`. -/
def startAngleOf (args : List (List Nat)) : JsValue :=
  match args.find? (fun arg => (lit "--start-angle").isPrefixOf arg) with
  | none => JsValue.undefined
  | some arg =>
      match (splitAtSep 61 arg)[1]? with
      | none => JsValue.undefined
      | some value => JsValue.str value

/-- `main()` of `use-preset.mjs` on `process.argv.slice(2)`: the generated command, or the
exit code when it stops before printing one. -/
def usePresetMain (presets : List (List Nat × Preset)) (args : List (List Nat)) :
    Except Nat (List Nat) :=
  if args.length = 0 ∨ args.contains (lit "--help") ∨ args.contains (lit "-h") then .error 0
  else
    let inputFile := args.headD (lit "undefined")
    let presetName := args.getD 1 (lit "undefined")
    let outputDir := args[2]?
    let additionalOptions :=
      [(lit "cleanup", JsValue.bool (args.contains (lit "--cleanup"))),
        (lit "quiet", JsValue.bool (args.contains (lit "--quiet"))),
        (lit "startAngle", startAngleOf args)]
    match generateCommand presets inputFile presetName outputDir additionalOptions with
    | none => .error 1
    | some command => .ok command

/-- A stand-in for the `high_quality` entry of `presets.json`, with the figures of the
`High Quality` case of `test.mjs`: 72 frames, 1920 by 1080, radius 8. -/
def highQualityPreset : Preset :=
  { frames := some (lit "72"), width := some (lit "1920"), height := some (lit "1080")
    radius := some (lit "8"), cameraHeight := none, fov := none, target := none }

/-! ## The printed camera advice (both analyzers) -/

/-- What an analyzer prints after the box: the recommended camera positions and, for the
chunked analyzer only, the recommended target. -/
structure Advice where
  placements : List Vec3
  target : Option Vec3

/-- The six lines under `For orbit radius of 1, recommended camera positions:`, in the order
`+X, -X, +Y, -Y, +Z, -Z`. -/
def cameraRecommendations (r : Report) : List Vec3 :=
  [⟨r.centerX + 1, r.centerY, r.centerZ⟩, ⟨r.centerX - 1, r.centerY, r.centerZ⟩,
    ⟨r.centerX, r.centerY + 1, r.centerZ⟩, ⟨r.centerX, r.centerY - 1, r.centerZ⟩,
    ⟨r.centerX, r.centerY, r.centerZ + 1⟩, ⟨r.centerX, r.centerY, r.centerZ - 1⟩]

/-- Lines 125-132 of `analyze-ply.mjs`: six positions and no target. -/
def flatAdvice (r : Report) : Advice := ⟨cameraRecommendations r, none⟩

/-- Lines 170-180 of `analyze-compressed-ply.mjs`: six positions and the target, which is the
centre. -/
def compressedAdvice (r : Report) : Advice :=
  ⟨cameraRecommendations r, some ⟨r.centerX, r.centerY, r.centerZ⟩⟩

/-- The placements as the specification words them: the centre moved by plus and minus the
orbit radius along each axis. -/
def advisedPlacements (c : Vec3) (radius : JsNum) : List Vec3 :=
  [⟨c.x + radius, c.y, c.z⟩, ⟨c.x - radius, c.y, c.z⟩, ⟨c.x, c.y + radius, c.z⟩,
    ⟨c.x, c.y - radius, c.z⟩, ⟨c.x, c.y, c.z + radius⟩, ⟨c.x, c.y, c.z - radius⟩]

/-- The theoretical re-normalization of a decoded coordinate, as the specification words it:
`(v - min) / (max - min)`. -/
def renormalize (v min max : JsNum) : JsNum := (v - min) / (max - min)

/-- The flat scenario file cut after its first vertex: the header declares two vertices and
only twelve payload bytes follow. -/
def truncatedFlatFile : List Nat := exampleFlatFile.take 127

/-! ## Reference descriptions and example inputs for the orbit and the command lines -/

/-- The pose of frame `i` as the specification words it, for `frameCount` frames, radius `r`
and swing angle `s`: `angleDeg = -s/2 + (i / (frameCount - 1)) * s`, position
`(r sin a, 0, r cos a - r)` with `a = angleDeg * pi / 180`, rotation `(180, angleDeg, 180)`. -/
def specFrame (m : JsMath) (r s : JsNum) (frameCount i : Nat) : OrbitFrame :=
  { index := i
    angleDeg := -(s / 2) + (JsNum.fin (i : ℚ) / JsNum.fin ((frameCount : ℚ) - 1)) * s
    position :=
      ⟨r * m.sin
          ((-(s / 2) + (JsNum.fin (i : ℚ) / JsNum.fin ((frameCount : ℚ) - 1)) * s)
            * Math_PI / 180),
        0,
        r * m.cos
          ((-(s / 2) + (JsNum.fin (i : ℚ) / JsNum.fin ((frameCount : ℚ) - 1)) * s)
            * Math_PI / 180) - r⟩
    rotation :=
      ⟨180, -(s / 2) + (JsNum.fin (i : ℚ) / JsNum.fin ((frameCount : ℚ) - 1)) * s, 180⟩ }

/-- A stand-in for `Math.sin` and `Math.cos` by their small-angle polynomials; like the
functions of the language it gives `sin 0 = 0` and `cos 0 = 1`. -/
def smallAngleMath : JsMath :=
  { sin := fun x => x
    cos := fun x => 1 - x * x / 2 }

/-- The command line `node index.mjs input.ply -f 3 -r 5`. -/
def threeFrameArgs : CliArgs := { bareArgs with frames := some (lit "3"), radius := some (lit "5") }

/-- The options of `node index.mjs input.ply -f 3 -r 5`: three frames, radius 5, and the
default swing angle 30. -/
def threeFrameOptions : Options :=
  { inputFile := lit "input.ply"
    outputDir := lit "./frames"
    frames := some 3
    radius := JsNum.fin 5
    width := some 1920
    height := some 1080
    fov := JsNum.fin 50
    target := [JsNum.fin 0, JsNum.fin 0, JsNum.fin 0]
    startAngle := JsNum.fin 0
    swingAngle := JsNum.fin 30
    cleanup := false
    quiet := false }

/-- The command line `node index.mjs input.ply -f 2 --swing-angle=-30`. -/
def negativeSwingArgs : CliArgs :=
  { bareArgs with frames := some (lit "2"), swingAngle := some (lit "-30") }

/-- The command line `node index.mjs input.ply -f 1`. -/
def oneFrameArgs : CliArgs := { bareArgs with frames := some (lit "1") }

/-- The command line `node index.mjs input.ply -f 3 --start-angle 45`. -/
def startAngleArgs : CliArgs :=
  { bareArgs with frames := some (lit "3"), startAngle := some (lit "45") }

/-- The command line `node index.mjs input.ply -f 0 --radius=-1`. -/
def badRangeArgs : CliArgs :=
  { bareArgs with frames := some (lit "0"), radius := some (lit "-1") }

/-- The command line `node index.mjs input.ply -f 3 -r 0`. -/
def zeroRadiusArgs : CliArgs :=
  { bareArgs with frames := some (lit "3"), radius := some (lit "0") }

/-- The documented invocation `node use-preset.mjs model.ply high_quality ./output
--start-angle 45`, as `process.argv.slice(2)`. -/
def documentedPresetArgs : List (List Nat) :=
  [lit "model.ply", lit "high_quality", lit "./output", lit "--start-angle", lit "45"]

/-- The invocation `node use-preset.mjs model.ply high_quality ./output`, which supplies no
start angle. -/
def plainPresetArgs : List (List Nat) := [lit "model.ply", lit "high_quality", lit "./output"]

/-- The box of the flat scenario, `x:[-1,1], y:[0,2], z:[3,5]`, with centre `(0, 1, 4)`. -/
def scenarioBox : BoundingBox :=
  ⟨JsNum.fin (-1), JsNum.fin 1, JsNum.fin 0, JsNum.fin 2, JsNum.fin 3, JsNum.fin 5⟩

/-! ## Reference descriptions and example inputs for the chunk table -/

/-- The per-axis hull of the chunk bounds as the specification words it: on every axis the
least of the chunk minima and the greatest of the chunk maxima (`+Infinity` and `-Infinity`
when the table is empty).  The program computes no such box. -/
def chunkHull (c : ChunkArrays) : BoundingBox :=
  { minX := c.min_x.foldl stepMin JsNum.posInf
    maxX := c.max_x.foldl stepMax JsNum.negInf
    minY := c.min_y.foldl stepMin JsNum.posInf
    maxY := c.max_y.foldl stepMax JsNum.negInf
    minZ := c.min_z.foldl stepMin JsNum.posInf
    maxZ := c.max_z.foldl stepMax JsNum.negInf }

/-- The box `inner` lies within the box `outer` on every axis: `outer.min <= inner.min` and
`inner.max <= outer.max`. -/
def BoundingBox.within (inner outer : BoundingBox) : Bool :=
  outer.minX.le inner.minX && inner.maxX.le outer.maxX
    && outer.minY.le inner.minY && inner.maxY.le outer.maxY
    && outer.minZ.le inner.minZ && inner.maxZ.le outer.maxZ

/-- The chunk table of the chunked scenario: one chunk with range `0 .. 10` on every axis. -/
def exampleChunkArrays : ChunkArrays :=
  { min_x := [JsNum.fin 0], max_x := [JsNum.fin 10], min_y := [JsNum.fin 0],
    max_y := [JsNum.fin 10], min_z := [JsNum.fin 0], max_z := [JsNum.fin 10] }

/-- A chunked header that declares one vertex and no chunk, followed by the 16 bytes of the
vertex record (packed position `0xFFE007FF`). -/
def zeroChunkFile : List Nat :=
  lit "ply\nformat binary_little_endian 1.0\nelement chunk 0\nelement vertex 1\nend_header\n"
    ++ [0xFF, 0x07, 0xE0, 0xFF] ++ List.replicate 12 0

/-- A runtime with the largest limit there is, `2^53 - 1`, the `buffer.constants.MAX_LENGTH`
of Node 22 on a 64-bit machine. -/
def largestRuntime : Runtime := ⟨2 ^ 53 - 1, by norm_num, le_refl _⟩

/-- A chunked header that declares `10^15` chunks and one vertex, followed by no payload. -/
def hugeChunkFile : List Nat :=
  lit "ply\nformat binary_little_endian 1.0\nelement chunk 1000000000000000\nelement vertex 1\nend_header\n"

/-- A chunked file with one chunk whose six bounds are the float `0x3DCCCCCD`, the float
nearest to `0.1` (the other twelve floats of the record are zero), and one vertex whose packed
position `0x00200000` has the X field 1 and the Y and Z fields 0. -/
def tenthChunkedFile : List Nat :=
  lit "ply\nformat binary_little_endian 1.0\nelement chunk 1\nelement vertex 1\nend_header\n"
    ++ [0xCD, 0xCC, 0xCC, 0x3D, 0xCD, 0xCC, 0xCC, 0x3D, 0xCD, 0xCC, 0xCC, 0x3D,
        0xCD, 0xCC, 0xCC, 0x3D, 0xCD, 0xCC, 0xCC, 0x3D, 0xCD, 0xCC, 0xCC, 0x3D]
    ++ List.replicate 48 0
    ++ [0x00, 0x00, 0x20, 0x00] ++ List.replicate 12 0

/-- The value of the float `0x3DCCCCCD`: `13421773 / 2^27`. -/
def tenthFloat : ℚ := 13421773 / 2 ^ 27

/-- The chunk table of `tenthChunkedFile`: one chunk whose six bounds are the float
`0x3DCCCCCD`. -/
def tenthChunkArrays : ChunkArrays :=
  { min_x := [JsNum.fin tenthFloat], max_x := [JsNum.fin tenthFloat],
    min_y := [JsNum.fin tenthFloat], max_y := [JsNum.fin tenthFloat],
    min_z := [JsNum.fin tenthFloat], max_z := [JsNum.fin tenthFloat] }

/-- The relative slack that the five roundings of one dequantization can add to a coordinate:
`2^-48` of the largest absolute bound. -/
def dequantizeSlack : ℚ := 1 / 2 ^ 48

/-- One axis of a box widened by `rel` times its largest absolute bound; an axis with an
infinite or `NaN` bound is left as it is. -/
def widenAxis (rel : ℚ) (lo hi : JsNum) : JsNum × JsNum :=
  match lo, hi with
  | JsNum.fin l, JsNum.fin u =>
      (JsNum.fin (l - rel * max |l| |u|), JsNum.fin (u + rel * max |l| |u|))
  | _, _ => (lo, hi)

/-- A box widened on every axis by `rel` times the largest absolute bound of the axis. -/
def BoundingBox.widen (b : BoundingBox) (rel : ℚ) : BoundingBox :=
  { minX := (widenAxis rel b.minX b.maxX).1
    maxX := (widenAxis rel b.minX b.maxX).2
    minY := (widenAxis rel b.minY b.maxY).1
    maxY := (widenAxis rel b.minY b.maxY).2
    minZ := (widenAxis rel b.minZ b.maxZ).1
    maxZ := (widenAxis rel b.minZ b.maxZ).2 }

/-! ## Arithmetic of `JsNum` -/

namespace JsNum

/-- Finite values add exactly. -/
@[simp]
theorem fin_add_fin (a b : ℚ) : fin a + fin b = fin (a + b) := rfl

/-- Finite values subtract exactly. -/
@[simp]
theorem fin_sub_fin (a b : ℚ) : fin a - fin b = fin (a - b) := by
  show add (fin a) (neg (fin b)) = _
  simp [add, neg, sub_eq_add_neg]

/-- Finite values multiply exactly. -/
@[simp]
theorem fin_mul_fin (a b : ℚ) : fin a * fin b = fin (a * b) := rfl

/-- Division of finite values by a non-zero finite value is exact. -/
theorem fin_div_fin (a b : ℚ) (hb : b ≠ 0) : fin a / fin b = fin (a / b) := by
  show div (fin a) (fin b) = _
  simp [div, hb]

/-- A numeric literal is the finite value it denotes. -/
@[simp]
theorem ofNat_eq_fin (n : Nat) : (OfNat.ofNat n : JsNum) = fin (n : ℚ) := rfl

/-- Halving a finite value. -/
theorem fin_div_two (a : ℚ) : fin a / 2 = fin (a / 2) := by
  show div (fin a) (fin ((2 : Nat) : ℚ)) = _
  simp [div]

end JsNum


/-! ## Properties of the rounding -/

theorem roundHalfEven_close (x : ℚ) : |(roundHalfEven x : ℚ) - x| ≤ 1 / 2 := by
  have h0 := Int.floor_le x
  have h1 := Int.lt_floor_add_one x
  unfold roundHalfEven
  dsimp only
  split_ifs with a b c
  · rw [abs_le]; constructor <;> linarith
  · rw [abs_le]; push_cast; constructor <;> linarith
  · rw [abs_le]; constructor <;> linarith
  · rw [abs_le]; push_cast; constructor <;> linarith

theorem roundHalfEven_of_lt (x : ℚ) (m : ℤ) (h1 : (m : ℚ) - 1 / 2 < x) (h2 : x < m + 1 / 2) :
    roundHalfEven x = m := by
  have h0 := Int.floor_le x
  have h3 := Int.lt_floor_add_one x
  have hf : ⌊x⌋ = m ∨ ⌊x⌋ = m - 1 := by
    have a1 : m - 1 ≤ ⌊x⌋ := by
      rw [Int.le_floor]; push_cast; linarith
    have a2 : ⌊x⌋ < m + 1 := by
      rw [Int.floor_lt]; push_cast; linarith
    omega
  unfold roundHalfEven
  dsimp only
  rcases hf with hf | hf
  · rw [hf] at h0 h3 ⊢
    rw [if_pos (by linarith)]
  · rw [hf] at h0 h3 ⊢
    push_cast at h0 h3 ⊢
    rw [if_neg (by linarith), if_pos (by linarith)]
    ring

theorem roundHalfEven_intCast (n : ℤ) : roundHalfEven (n : ℚ) = n :=
  roundHalfEven_of_lt _ n (by linarith) (by linarith)

theorem quantum_pos (x : ℚ) : 0 < quantum x := by
  unfold quantum
  positivity

/-- The exponent of a positive rational between two consecutive powers of two. -/
theorem log_of_bracket (y : ℚ) (e : ℤ) (h1 : (2 : ℚ) ^ e ≤ y) (h2 : y < (2 : ℚ) ^ (e + 1)) :
    Int.log 2 y = e := by
  have hy : 0 < y := lt_of_lt_of_le (by positivity) h1
  have a1 : e ≤ Int.log 2 y := by
    rw [← Int.zpow_le_iff_le_log (by decide) hy]
    exact_mod_cast h1
  have a2 : Int.log 2 y < e + 1 := by
    rw [← Int.lt_zpow_iff_log_lt (by decide) hy]
    exact_mod_cast h2
  omega

theorem quantum_of_bracket (x : ℚ) (e : ℤ) (h1 : (2 : ℚ) ^ e ≤ |x|) (h2 : |x| < (2 : ℚ) ^ (e + 1)) :
    quantum x = 2 ^ (max e (-1022) - 52) := by
  unfold quantum
  rw [log_of_bracket |x| e h1 h2]



theorem zpow_two_mono {a b : ℤ} (h : a ≤ b) : (2 : ℚ) ^ a ≤ 2 ^ b :=
  zpow_le_zpow_right₀ (by norm_num) h

theorem zpow_two_lt {a b : ℤ} (h : (2 : ℚ) ^ a < 2 ^ b) : a < b := by
  by_contra hn
  exact absurd (zpow_two_mono (not_lt.mp hn)) (not_le.mpr h)

/-- Evaluation of a rounding from the bracket of the argument and the nearest integer. -/
theorem roundDouble_eval (x : ℚ) (e m : ℤ) (h1 : (2 : ℚ) ^ e ≤ |x|) (h2 : |x| < (2 : ℚ) ^ (e + 1))
    (he : -1022 ≤ e) (hm1 : (m : ℚ) - 1 / 2 < x / 2 ^ (e - 52))
    (hm2 : x / 2 ^ (e - 52) < m + 1 / 2) (hb : |(m : ℚ) * 2 ^ (e - 52)| < 2 ^ 1024) :
    roundDouble x = JsNum.fin ((m : ℚ) * 2 ^ (e - 52)) := by
  unfold roundDouble
  rw [quantum_of_bracket x e h1 h2, max_eq_left he, roundHalfEven_of_lt _ m hm1 hm2]
  dsimp only
  rw [abs_lt] at hb
  rw [if_neg (by linarith), if_neg (by linarith)]

theorem roundDouble_zero : roundDouble 0 = JsNum.fin 0 := by
  unfold roundDouble
  have : roundHalfEven (0 / quantum 0) = 0 := by
    rw [zero_div]
    exact_mod_cast roundHalfEven_intCast 0
  rw [this]
  norm_num

/-- The spacing around a non-zero `x` is at most `2^-52 |x|`, or `2^-1074`. -/
theorem quantum_le (x : ℚ) (hx : x ≠ 0) : quantum x ≤ 2 ^ (-52 : ℤ) * |x| + 2 ^ (-1074 : ℤ) := by
  have hpos : 0 < |x| := abs_pos.mpr hx
  have hl : (2 : ℚ) ^ (Int.log 2 |x|) ≤ |x| := by
    exact_mod_cast Int.zpow_log_le_self (by decide) hpos
  unfold quantum
  rcases le_total (Int.log 2 |x|) (-1022) with h | h
  · rw [max_eq_right h]
    have : (0 : ℚ) ≤ 2 ^ (-52 : ℤ) * |x| := by positivity
    have e : (-1022 : ℤ) - 52 = -1074 := by norm_num
    rw [e]
    linarith
  · rw [max_eq_left h, zpow_sub₀ (by norm_num), div_eq_mul_inv, ← zpow_neg]
    have h3 : (0 : ℚ) < 2 ^ (-1074 : ℤ) := by positivity
    have h4 : (0 : ℚ) < 2 ^ (-(52 : ℤ)) := by positivity
    nlinarith

/-- The error of one rounding below the overflow range: at most `|x| / 2^53 + 1 / 2^1075`. -/
theorem roundDouble_close (x : ℚ) (hx : |x| ≤ 2 ^ 1023) :
    ∃ v : ℚ, roundDouble x = JsNum.fin v ∧ |v - x| ≤ 1 / 2 ^ 53 * |x| + 1 / 2 ^ 1075 := by
  have c1 : (2 : ℚ) ^ (-53 : ℤ) = 1 / 2 ^ 53 := by norm_num
  have c2 : (2 : ℚ) ^ (-1075 : ℤ) = 1 / 2 ^ 1075 := by norm_num
  rw [← c1, ← c2]
  by_cases h0 : x = 0
  · subst h0
    refine ⟨0, roundDouble_zero, ?_⟩
    norm_num
  · have hq := quantum_pos x
    have hle := quantum_le x h0
    have hr := roundHalfEven_close (x / quantum x)
    have herr : |(roundHalfEven (x / quantum x) : ℚ) * quantum x - x| ≤ quantum x / 2 := by
      have e : (roundHalfEven (x / quantum x) : ℚ) * quantum x - x
          = ((roundHalfEven (x / quantum x) : ℚ) - x / quantum x) * quantum x := by
        field_simp
      rw [e, abs_mul, abs_of_pos hq]
      nlinarith
    have hbound : quantum x / 2 ≤ 2 ^ (-53 : ℤ) * |x| + 2 ^ (-1075 : ℤ) := by
      have e1 : (2 : ℚ) ^ (-53 : ℤ) = 2 ^ (-52 : ℤ) / 2 := by norm_num
      have e2 : (2 : ℚ) ^ (-1075 : ℤ) = 2 ^ (-1074 : ℤ) / 2 := by norm_num
      have h2 : quantum x / 2 ≤ (2 ^ (-52 : ℤ) * |x| + 2 ^ (-1074 : ℤ)) / 2 :=
        div_le_div_of_nonneg_right hle (by norm_num)
      calc quantum x / 2 ≤ (2 ^ (-52 : ℤ) * |x| + 2 ^ (-1074 : ℤ)) / 2 := h2
        _ = 2 ^ (-53 : ℤ) * |x| + 2 ^ (-1075 : ℤ) := by rw [e1, e2]; ring
    refine ⟨(roundHalfEven (x / quantum x) : ℚ) * quantum x, ?_, le_trans herr hbound⟩
    unfold roundDouble
    dsimp only
    have hv := abs_le.mp herr
    have hx' := abs_le.mp hx
    have hsmall : quantum x / 2 < 2 ^ 1023 := by
      have a1 : (2 : ℚ) ^ (-53 : ℤ) * |x| ≤ 2 ^ (-53 : ℤ) * 2 ^ 1023 :=
        mul_le_mul_of_nonneg_left hx (by positivity)
      have a2 : (2 : ℚ) ^ (-53 : ℤ) * 2 ^ 1023 + 2 ^ (-1075 : ℤ) < 2 ^ 1023 := by norm_num
      linarith
    have p : (2 : ℚ) ^ 1024 = 2 * 2 ^ 1023 := by norm_num
    rw [if_neg (by rw [p]; linarith), if_neg (by rw [p]; linarith)]

/-- A value `n * 2^k` with `|n| < 2^53` on or above the subnormal grid and below `2^1024` is a
double: rounding leaves it unchanged. -/
theorem roundDouble_exact (x : ℚ) (n k : ℤ) (hx : x = (n : ℚ) * 2 ^ k) (hn : |n| < 2 ^ 53)
    (hk : -1074 ≤ k) (hb : |x| < 2 ^ 1024) : roundDouble x = JsNum.fin x := by
  by_cases h0 : x = 0
  · rw [h0]; exact roundDouble_zero
  · have hpos : 0 < |x| := abs_pos.mpr h0
    have hl : (2 : ℚ) ^ (Int.log 2 |x|) ≤ |x| := by
      exact_mod_cast Int.zpow_log_le_self (by decide) hpos
    have hxn : |x| < 2 ^ (53 + k) := by
      rw [hx, abs_mul, abs_of_pos (by positivity : (0 : ℚ) < 2 ^ k), zpow_add₀ (by norm_num)]
      have h53 : (2 : ℚ) ^ (53 : ℤ) = ((2 ^ 53 : ℤ) : ℚ) := by norm_num
      have : |(n : ℚ)| < 2 ^ (53 : ℤ) := by
        rw [h53, ← Int.cast_abs]
        exact_mod_cast hn
      exact mul_lt_mul_of_pos_right this (by positivity)
    have hL : Int.log 2 |x| < 53 + k := zpow_two_lt (lt_of_le_of_lt hl hxn)
    have hp : max (Int.log 2 |x|) (-1022) - 52 ≤ k := by
      rcases le_total (Int.log 2 |x|) (-1022) with h | h
      · rw [max_eq_right h]; omega
      · rw [max_eq_left h]; omega
    obtain ⟨d, hd⟩ : ∃ d : ℕ, k = max (Int.log 2 |x|) (-1022) - 52 + d :=
      ⟨(k - (max (Int.log 2 |x|) (-1022) - 52)).toNat, by omega⟩
    have hq : quantum x = 2 ^ (max (Int.log 2 |x|) (-1022) - 52) := rfl
    generalize max (Int.log 2 |x|) (-1022) - 52 = p at hd hq
    have hdiv : x / quantum x = ((n * 2 ^ d : ℤ) : ℚ) := by
      rw [hq, hx, hd, zpow_add₀ (by norm_num), zpow_natCast]
      push_cast
      field_simp
      ring
    unfold roundDouble
    dsimp only
    rw [hdiv, roundHalfEven_intCast, ← hdiv, div_mul_cancel₀ _ (ne_of_gt (quantum_pos x))]
    rw [abs_lt] at hb
    rw [if_neg (by linarith), if_neg (by linarith)]

/-! ## Dequantization in binary64 -/

theorem JsNum.toDouble_fin (q : ℚ) : (JsNum.fin q).toDouble = roundDouble q := rfl

/-- A natural number below `2^53` is a double. -/
theorem roundDouble_natCast (n : Nat) (hn : n < 2 ^ 53) :
    roundDouble (n : ℚ) = JsNum.fin (n : ℚ) := by
  apply roundDouble_exact (n : ℚ) (n : ℤ) 0 (by simp) _ (by norm_num)
  · have h1 : ((n : ℚ)) < 2 ^ 53 := by exact_mod_cast hn
    rw [abs_of_nonneg (Nat.cast_nonneg n)]
    have h2 : (2 : ℚ) ^ 53 < 2 ^ 1024 := by norm_num
    linarith
  · rw [abs_of_nonneg (Int.natCast_nonneg n)]
    exact_mod_cast hn

theorem roundDouble_one : roundDouble 1 = JsNum.fin 1 := by
  have := roundDouble_natCast 1 (by norm_num)
  simpa using this

/-- The exact quotient of `unpackUnorm` for 10 and 11 bits. -/
theorem unpackUnorm_eq_mod (v bits : Nat) (hb : bits = 10 ∨ bits = 11) :
    unpackUnorm v bits
      = JsNum.fin (((v % 2 ^ bits : Nat) : ℚ) / ((2 ^ bits - 1 : Nat) : ℚ)) := by
  have h11 : (1 <<< 11) - 1 = 2 ^ 11 - 1 := by decide
  have h10 : (1 <<< 10) - 1 = 2 ^ 10 - 1 := by decide
  rcases hb with rfl | rfl
  · simp only [unpackUnorm, h10, Nat.and_pow_two_sub_one_eq_mod]
    rw [JsNum.fin_div_fin _ _ (by norm_num)]
  · simp only [unpackUnorm, h11, Nat.and_pow_two_sub_one_eq_mod]
    rw [JsNum.fin_div_fin _ _ (by norm_num)]

theorem unpackUnormDouble_eq (v bits : Nat) (hb : bits = 10 ∨ bits = 11) :
    unpackUnormDouble v bits
      = roundDouble (((v % 2 ^ bits : Nat) : ℚ) / ((2 ^ bits - 1 : Nat) : ℚ)) := by
  unfold unpackUnormDouble
  rw [unpackUnorm_eq_mod v bits hb]
  rfl

/-- An all-zero field is decoded to 0. -/
theorem unpackUnormDouble_zeros (v bits : Nat) (hb : bits = 10 ∨ bits = 11)
    (hv : v % 2 ^ bits = 0) : unpackUnormDouble v bits = JsNum.fin 0 := by
  rw [unpackUnormDouble_eq v bits hb, hv]
  simp [roundDouble_zero]

/-- An all-ones field is decoded to 1. -/
theorem unpackUnormDouble_ones (v bits : Nat) (hb : bits = 10 ∨ bits = 11)
    (hv : v % 2 ^ bits = 2 ^ bits - 1) : unpackUnormDouble v bits = JsNum.fin 1 := by
  rw [unpackUnormDouble_eq v bits hb, hv]
  have hne : ((2 ^ bits - 1 : Nat) : ℚ) ≠ 0 := by
    rcases hb with rfl | rfl <;> norm_num
  rw [div_self hne, roundDouble_one]

theorem one_sub_fin (q : ℚ) : (1 : JsNum) - JsNum.fin q = JsNum.fin (1 - q) := by
  rw [JsNum.ofNat_eq_fin, JsNum.fin_sub_fin]
  norm_num

/-- The interpolation as the program computes it, on finite values. -/
theorem lerpDouble_fin (a b t : ℚ) :
    lerpDouble (JsNum.fin a) (JsNum.fin b) (JsNum.fin t)
      = ((JsNum.fin a * roundDouble (1 - t)).toDouble + roundDouble (b * t)).toDouble := by
  unfold lerpDouble
  rw [one_sub_fin, JsNum.fin_mul_fin]
  rfl

/-- At the parameter 0 the program's interpolation is the lower bound, when that is a
double. -/
theorem lerpDouble_zero (a b : ℚ) (ha : roundDouble a = JsNum.fin a) :
    lerpDouble (JsNum.fin a) (JsNum.fin b) (JsNum.fin 0) = JsNum.fin a := by
  rw [lerpDouble_fin]
  norm_num [roundDouble_one, roundDouble_zero, JsNum.fin_mul_fin, JsNum.fin_add_fin,
    JsNum.toDouble_fin, ha]

/-- At the parameter 1 the program's interpolation is the upper bound, when that is a
double. -/
theorem lerpDouble_one (a b : ℚ) (hb : roundDouble b = JsNum.fin b) :
    lerpDouble (JsNum.fin a) (JsNum.fin b) (JsNum.fin 1) = JsNum.fin b := by
  rw [lerpDouble_fin]
  norm_num [roundDouble_one, roundDouble_zero, JsNum.fin_mul_fin, JsNum.fin_add_fin,
    JsNum.toDouble_fin, hb]

theorem JsNum.nan_mul (x : JsNum) : JsNum.nan * x = JsNum.nan := by cases x <;> rfl

theorem JsNum.mul_nan (x : JsNum) : x * JsNum.nan = JsNum.nan := by cases x <;> rfl

theorem JsNum.nan_add (x : JsNum) : JsNum.nan + x = JsNum.nan := by cases x <;> rfl

theorem JsNum.add_nan (x : JsNum) : x + JsNum.nan = JsNum.nan := by cases x <;> rfl

theorem lerpDouble_nan_left (b t : JsNum) : lerpDouble JsNum.nan b t = JsNum.nan := by
  unfold lerpDouble
  rw [JsNum.nan_mul]
  show (JsNum.nan + _).toDouble = _
  rw [JsNum.nan_add]
  rfl

theorem abs_mul_le_mul (x y X Y : ℚ) (hx : |x| ≤ X) (hy : |y| ≤ Y) : |x * y| ≤ X * Y := by
  rw [abs_mul]
  exact mul_le_mul hx hy (abs_nonneg _) (le_trans (abs_nonneg _) hx)

/-- The rounded parameter and its rounded complement. -/
theorem lerp_error_param (ε η t0 t u : ℚ) (hε0 : 0 ≤ ε) (hε : ε ≤ 1 / 2 ^ 53)
    (hη : η ≤ 1 / 2 ^ 53) (h0 : 0 ≤ t0) (h1 : t0 ≤ 1)
    (e1 : |t - t0| ≤ ε * |t0| + η) (e2 : |u - (1 - t)| ≤ ε * |1 - t| + η) :
    |t - t0| ≤ 1 / 2 ^ 52 ∧ |t| ≤ 2 ∧ |u - (1 - t0)| ≤ 5 / 2 ^ 53 ∧ |u| ≤ 2 := by
  have ht0 : |t0| ≤ 1 := by rw [abs_le]; constructor <;> linarith only [h0, h1]
  have dt : |t - t0| ≤ 1 / 2 ^ 52 := by
    have h2 : ε * |t0| ≤ ε := mul_le_of_le_one_right hε0 ht0
    have c52 : (1 : ℚ) / 2 ^ 53 + 1 / 2 ^ 53 = 1 / 2 ^ 52 := by norm_num
    linarith only [h2, c52, e1, hε, hη]
  have dt' := abs_le.mp dt
  have small : (1 : ℚ) / 2 ^ 52 ≤ 1 := by norm_num
  have htabs : |t| ≤ 2 := by
    rw [abs_le]
    constructor <;> linarith only [dt'.1, dt'.2, small, h0, h1]
  have h1t : |1 - t| ≤ 2 := by
    rw [abs_le]
    constructor <;> linarith only [dt'.1, dt'.2, small, h0, h1]
  have du : |u - (1 - t)| ≤ 3 / 2 ^ 53 := by
    have h2 : ε * |1 - t| ≤ 1 / 2 ^ 53 * 2 := mul_le_mul hε h1t (abs_nonneg _) (by norm_num)
    linarith only [h2, e2, hη]
  have du' := abs_le.mp du
  have c : (1 : ℚ) / 2 ^ 52 = 2 / 2 ^ 53 := by norm_num
  have du0 : |u - (1 - t0)| ≤ 5 / 2 ^ 53 := by
    rw [abs_le]
    constructor <;> linarith only [du'.1, du'.2, dt'.1, dt'.2, c]
  have du0' := abs_le.mp du0
  have small2 : (5 : ℚ) / 2 ^ 53 ≤ 1 := by norm_num
  refine ⟨dt, htabs, du0, ?_⟩
  rw [abs_le]
  constructor <;> linarith only [du0'.1, du0'.2, small2, h0, h1]

/-- One rounded product `p` of a bound `a` and a rounded factor `u` that is within `d` of the
exact factor `x`. -/
theorem lerp_error_product (ε η a M u x p d : ℚ) (hε : ε ≤ 1 / 2 ^ 53) (ha : |a| ≤ M)
    (hu : |u| ≤ 2) (hd : |u - x| ≤ d) (e3 : |p - a * u| ≤ ε * |a * u| + η) :
    |p - a * x| ≤ (1 / 2 ^ 52 + d) * M + η := by
  have hM0 : 0 ≤ M := le_trans (abs_nonneg a) ha
  have hau : |a * u| ≤ M * 2 := abs_mul_le_mul a u M 2 ha hu
  have h2 : ε * |a * u| ≤ 1 / 2 ^ 53 * (M * 2) := mul_le_mul hε hau (abs_nonneg _) (by norm_num)
  have da : |a * u - a * x| ≤ M * d := by
    rw [← mul_sub]
    exact abs_mul_le_mul a (u - x) M d ha hd
  have e : p - a * x = (p - a * u) + (a * u - a * x) := by ring
  rw [e]
  have t1 := abs_add (p - a * u) (a * u - a * x)
  have c : (1 : ℚ) / 2 ^ 53 * (M * 2) = 1 / 2 ^ 52 * M := by ring
  have c2 : (1 / 2 ^ 52 + d) * M = 1 / 2 ^ 52 * M + M * d := by ring
  linarith only [t1, h2, da, e3, c, c2]

/-- The error of the interpolation when each of its five operations (the rounding of the
parameter included) has a relative error of at most `ε` and an absolute one of at most `η`. -/
theorem lerp_error (ε η a b M t0 t u p1 p2 r : ℚ) (hε0 : 0 ≤ ε) (hε : ε ≤ 1 / 2 ^ 53)
    (hη0 : 0 ≤ η) (hη : η ≤ 1 / 2 ^ 53) (ha : |a| ≤ M) (hb : |b| ≤ M)
    (h0 : 0 ≤ t0) (h1 : t0 ≤ 1)
    (e1 : |t - t0| ≤ ε * |t0| + η) (e2 : |u - (1 - t)| ≤ ε * |1 - t| + η)
    (e3 : |p1 - a * u| ≤ ε * |a * u| + η) (e4 : |p2 - b * t| ≤ ε * |b * t| + η)
    (e5 : |r - (p1 + p2)| ≤ ε * |p1 + p2| + η) :
    |r - (a * (1 - t0) + b * t0)| ≤ 7 / 2 ^ 52 * M + 4 * η := by
  have hM0 : 0 ≤ M := le_trans (abs_nonneg a) ha
  obtain ⟨dt, htabs, du0, huabs⟩ := lerp_error_param ε η t0 t u hε0 hε hη h0 h1 e1 e2
  have dp1 := lerp_error_product ε η a M u (1 - t0) p1 (5 / 2 ^ 53) hε ha huabs du0 e3
  have dp2 := lerp_error_product ε η b M t t0 p2 (1 / 2 ^ 52) hε hb htabs dt e4
  have hX : |a * (1 - t0) + b * t0| ≤ M := by
    have t1 := abs_add (a * (1 - t0)) (b * t0)
    have t2 : |a * (1 - t0)| ≤ M * (1 - t0) :=
      abs_mul_le_mul a (1 - t0) M (1 - t0) ha (by rw [abs_of_nonneg (by linarith only [h1])])
    have t3 : |b * t0| ≤ M * t0 :=
      abs_mul_le_mul b t0 M t0 hb (by rw [abs_of_nonneg h0])
    have c : M * (1 - t0) + M * t0 = M := by ring
    linarith only [t1, t2, t3, c]
  have dS : |p1 + p2 - (a * (1 - t0) + b * t0)| ≤ 11 / 2 ^ 53 * M + 2 * η := by
    have e : p1 + p2 - (a * (1 - t0) + b * t0) = (p1 - a * (1 - t0)) + (p2 - b * t0) := by ring
    rw [e]
    have t1 := abs_add (p1 - a * (1 - t0)) (p2 - b * t0)
    have c : (1 / 2 ^ 52 + 5 / 2 ^ 53) * M + (1 / 2 ^ 52 + 1 / 2 ^ 52) * M
        = 11 / 2 ^ 53 * M := by ring
    linarith only [t1, dp1, dp2, c]
  have hS : |p1 + p2| ≤ 2 * M + 2 * η := by
    have e : p1 + p2 = (p1 + p2 - (a * (1 - t0) + b * t0)) + (a * (1 - t0) + b * t0) := by ring
    have t1 := abs_add (p1 + p2 - (a * (1 - t0) + b * t0)) (a * (1 - t0) + b * t0)
    rw [← e] at t1
    have c : (11 : ℚ) / 2 ^ 53 * M ≤ M := mul_le_of_le_one_left hM0 (by norm_num)
    linarith only [t1, dS, hX, c]
  have dr : |r - (p1 + p2)| ≤ 1 / 2 ^ 52 * M + 2 * η := by
    have h2 : ε * |p1 + p2| ≤ 1 / 2 ^ 53 * (2 * M + 2 * η) :=
      mul_le_mul hε hS (abs_nonneg _) (by norm_num)
    have h3 : (1 : ℚ) / 2 ^ 53 * (2 * η) ≤ 1 * η :=
      by
        have : (1 : ℚ) / 2 ^ 53 * (2 * η) = (2 / 2 ^ 53) * η := by ring
        rw [this]
        exact mul_le_mul_of_nonneg_right (by norm_num) hη0
    have c : (1 : ℚ) / 2 ^ 53 * (2 * M + 2 * η) = 1 / 2 ^ 52 * M + 1 / 2 ^ 53 * (2 * η) := by
      ring
    linarith only [h2, h3, c, e5]
  have e : r - (a * (1 - t0) + b * t0)
      = (r - (p1 + p2)) + (p1 + p2 - (a * (1 - t0) + b * t0)) := by ring
  rw [e]
  have t1 := abs_add (r - (p1 + p2)) (p1 + p2 - (a * (1 - t0) + b * t0))
  have c : (1 : ℚ) / 2 ^ 52 * M + 11 / 2 ^ 53 * M ≤ 7 / 2 ^ 52 * M := by
    have : (1 : ℚ) / 2 ^ 52 * M + 11 / 2 ^ 53 * M = 13 / 2 ^ 53 * M := by ring
    rw [this]
    exact mul_le_mul_of_nonneg_right (by norm_num) hM0
  linarith only [t1, dr, dS, c]

/-- The program's interpolation between finite bounds of absolute value at most `M`, at the
rounded value `t` of a parameter `t0` in `[0, 1]`: a finite value within
`7/2^52 * M + 4/2^1075` of the exact interpolation at `t0`. -/
theorem lerpDouble_close (a b M t0 t : ℚ) (ha : |a| ≤ M) (hb : |b| ≤ M) (hM : M ≤ 2 ^ 1000)
    (h0 : 0 ≤ t0) (h1 : t0 ≤ 1) (ht : roundDouble t0 = JsNum.fin t) :
    ∃ r : ℚ, lerpDouble (JsNum.fin a) (JsNum.fin b) (JsNum.fin t) = JsNum.fin r ∧
      |r - (a * (1 - t0) + b * t0)| ≤ 7 / 2 ^ 52 * M + 4 / 2 ^ 1075 := by
  have hM0 : 0 ≤ M := le_trans (abs_nonneg a) ha
  have hε0 : (0 : ℚ) ≤ 1 / 2 ^ 53 := by positivity
  have hε : (1 : ℚ) / 2 ^ 53 ≤ 1 / 2 ^ 53 := le_refl _
  have hη0 : (0 : ℚ) ≤ 1 / 2 ^ 1075 := by positivity
  have hη : (1 : ℚ) / 2 ^ 1075 ≤ 1 / 2 ^ 53 := by norm_num
  have big : (2 : ℚ) ^ 1004 ≤ 2 ^ 1023 := by norm_num
  have big0 : (3 : ℚ) ≤ 2 ^ 1023 := by norm_num
  have hM4 : 6 * M + 1 ≤ 2 ^ 1004 := by
    have : (6 : ℚ) * 2 ^ 1000 + 1 ≤ 2 ^ 1004 := by norm_num
    linarith only [this, hM]
  have ht0 : |t0| ≤ 1 := by rw [abs_le]; constructor <;> linarith only [h0, h1]
  -- the parameter
  obtain ⟨t', ht', e1⟩ := roundDouble_close t0 (le_trans ht0 (by norm_num))
  rw [ht] at ht'
  cases ht'
  have e1' : |t - t0| ≤ 1 := by
    have h2 : (1 : ℚ) / 2 ^ 53 * |t0| ≤ 1 / 2 ^ 53 := mul_le_of_le_one_right hε0 ht0
    have c : (1 : ℚ) / 2 ^ 53 + 1 / 2 ^ 53 ≤ 1 := by norm_num
    linarith only [e1, h2, hη, c]
  have h1t : |1 - t| ≤ 3 := by
    have := abs_le.mp e1'
    rw [abs_le]
    constructor <;> linarith only [this.1, this.2, h0, h1]
  -- the complement
  obtain ⟨u, hu, e2⟩ := roundDouble_close (1 - t) (le_trans h1t big0)
  obtain ⟨dt, htabs, du0, huabs⟩ :=
    lerp_error_param _ _ t0 t u hε0 hε hη h0 h1 e1 e2
  -- the products
  have hau : |a * u| ≤ M * 2 := abs_mul_le_mul a u M 2 ha huabs
  have hbt : |b * t| ≤ M * 2 := abs_mul_le_mul b t M 2 hb htabs
  obtain ⟨p1, hp1, e3⟩ := roundDouble_close (a * u)
    (le_trans hau (by linarith only [hM4, big, hM0]))
  obtain ⟨p2, hp2, e4⟩ := roundDouble_close (b * t)
    (le_trans hbt (by linarith only [hM4, big, hM0]))
  have crude : ∀ p x : ℚ, |x| ≤ M * 2 → |p - x| ≤ 1 / 2 ^ 53 * |x| + 1 / 2 ^ 1075 →
      |p| ≤ 3 * M + 1 / 2 := by
    intro p x hx hp
    have e : p = (p - x) + x := by ring
    have t1 := abs_add (p - x) x
    rw [← e] at t1
    have h2 : (1 : ℚ) / 2 ^ 53 * |x| ≤ 1 / 2 ^ 53 * (M * 2) :=
      mul_le_mul hε hx (abs_nonneg _) (by norm_num)
    have h3 : (1 : ℚ) / 2 ^ 53 * (M * 2) ≤ 1 / 4 * (M * 2) :=
      mul_le_mul_of_nonneg_right (by norm_num) (by linarith only [hM0])
    have c : (1 : ℚ) / 2 ^ 53 ≤ 1 / 2 := by norm_num
    have h4 : 1 / 4 * (M * 2) = M / 2 := by ring
    linarith only [t1, hp, h2, h3, h4, hx, hη, c, hM0]
  have hp1abs := crude p1 (a * u) hau e3
  have hp2abs := crude p2 (b * t) hbt e4
  have hsum : |p1 + p2| ≤ 2 ^ 1023 := by
    have t1 := abs_add p1 p2
    linarith only [t1, hp1abs, hp2abs, hM4, big]
  obtain ⟨r, hr, e5⟩ := roundDouble_close (p1 + p2) hsum
  refine ⟨r, ?_, ?_⟩
  · rw [lerpDouble_fin, hu, JsNum.fin_mul_fin, JsNum.toDouble_fin, hp1, hp2, JsNum.fin_add_fin,
      JsNum.toDouble_fin, hr]
  · have key := lerp_error _ _ a b M t0 t u p1 p2 r hε0 hε hη0 hη ha hb h0 h1 e1 e2 e3 e4 e5
    have c : (4 : ℚ) * (1 / 2 ^ 1075) = 4 / 2 ^ 1075 := by ring
    rw [c] at key
    exact key

/-- A finite binary32 value is `n * 2^k` with `|n| < 2^24` and `-149 <= k <= 104`, the
significand `n` being at least `2^23` in absolute value above the subnormal exponent. -/
theorem float32OfBits_fin (bits : Nat) (a : ℚ) (h : float32OfBits bits = JsNum.fin a) :
    ∃ n k : ℤ, a = (n : ℚ) * 2 ^ k ∧ |n| < 2 ^ 24 ∧ -149 ≤ k ∧ k ≤ 104 ∧
      (2 ^ 23 ≤ |n| ∨ k = -149) := by
  unfold float32OfBits at h
  dsimp only at h
  have hm : bits % 2 ^ 23 < 2 ^ 23 := Nat.mod_lt _ (by norm_num)
  have he : bits / 2 ^ 23 % 256 < 256 := Nat.mod_lt _ (by norm_num)
  generalize bits % 2 ^ 23 = m at h hm
  generalize bits / 2 ^ 23 % 256 = e at h he
  generalize bits / 2 ^ 31 % 2 = sign at h
  by_cases h255 : e = 255
  · rw [if_pos h255] at h
    split_ifs at h
  · rw [if_neg h255] at h
    injection h with h
    by_cases he0 : e = 0
    · rw [if_pos he0] at h
      by_cases hs : sign = 0
      · rw [if_pos hs] at h
        refine ⟨(m : ℤ), -149, ?_, ?_, le_refl _, by norm_num, Or.inr rfl⟩
        · rw [← h, zpow_neg, div_eq_mul_inv]
          norm_num
        · rw [abs_of_nonneg (Int.natCast_nonneg m)]
          omega
      · rw [if_neg hs] at h
        refine ⟨-(m : ℤ), -149, ?_, ?_, le_refl _, by norm_num, Or.inr rfl⟩
        · rw [← h, zpow_neg, div_eq_mul_inv]
          norm_num
        · rw [abs_neg, abs_of_nonneg (Int.natCast_nonneg m)]
          omega
    · rw [if_neg he0] at h
      have hk : ((2 ^ 23 + m : Nat) : ℚ) * 2 ^ e / 2 ^ 150
          = ((2 ^ 23 + m : Nat) : ℚ) * 2 ^ ((e : ℤ) - 150) := by
        rw [zpow_sub₀ (by norm_num), zpow_natCast]
        norm_num
        ring
      rw [hk] at h
      by_cases hs : sign = 0
      · rw [if_pos hs] at h
        refine ⟨((2 ^ 23 + m : Nat) : ℤ), (e : ℤ) - 150, ?_, ?_, by omega, by omega, Or.inl ?_⟩
        · rw [← h]
          push_cast
          ring
        · rw [abs_of_nonneg (Int.natCast_nonneg _)]
          push_cast
          omega
        · rw [abs_of_nonneg (Int.natCast_nonneg _)]
          push_cast
          omega
      · rw [if_neg hs] at h
        refine ⟨-((2 ^ 23 + m : Nat) : ℤ), (e : ℤ) - 150, ?_, ?_, by omega, by omega, Or.inl ?_⟩
        · rw [← h]
          push_cast
          ring
        · rw [abs_neg, abs_of_nonneg (Int.natCast_nonneg _)]
          push_cast
          omega
        · rw [abs_neg, abs_of_nonneg (Int.natCast_nonneg _)]
          push_cast
          omega

theorem abs_intCast_lt (n : ℤ) (B : ℕ) (h : |n| < (B : ℤ)) : |(n : ℚ)| < (B : ℚ) := by
  rw [← Int.cast_abs]
  exact_mod_cast h

theorem abs_intCast_ge (n : ℤ) (B : ℕ) (h : (B : ℤ) ≤ |n|) : (B : ℚ) ≤ |(n : ℚ)| := by
  rw [← Int.cast_abs]
  exact_mod_cast h

theorem abs_scaled (n k : ℤ) : |(n : ℚ) * 2 ^ k| = |(n : ℚ)| * 2 ^ k := by
  rw [abs_mul, abs_of_pos (by positivity : (0 : ℚ) < 2 ^ k)]

/-- A finite binary32 value is a double, is below `2^128` in absolute value, and is zero or at
least `2^-149` in absolute value. -/
theorem float32_facts (bits : Nat) (a : ℚ) (h : float32OfBits bits = JsNum.fin a) :
    roundDouble a = JsNum.fin a ∧ |a| < 2 ^ 128 ∧ (a = 0 ∨ 1 / 2 ^ 149 ≤ |a|) := by
  obtain ⟨n, k, ha, hn, hk1, hk2, _⟩ := float32OfBits_fin bits a h
  have hnq : |(n : ℚ)| < ((2 ^ 24 : ℕ) : ℚ) := abs_intCast_lt n (2 ^ 24) (by exact_mod_cast hn)
  have habs : |a| = |(n : ℚ)| * 2 ^ k := by rw [ha, abs_scaled]
  have hpow : (2 : ℚ) ^ k ≤ 2 ^ (104 : ℤ) := zpow_two_mono hk2
  have hpos : (0 : ℚ) < 2 ^ k := by positivity
  have h128 : |a| < 2 ^ 128 := by
    rw [habs]
    have h1 : |(n : ℚ)| * 2 ^ k < ((2 ^ 24 : ℕ) : ℚ) * 2 ^ k := mul_lt_mul_of_pos_right hnq hpos
    have h2 : ((2 ^ 24 : ℕ) : ℚ) * 2 ^ k ≤ ((2 ^ 24 : ℕ) : ℚ) * 2 ^ (104 : ℤ) :=
      mul_le_mul_of_nonneg_left hpow (by positivity)
    have h3 : ((2 ^ 24 : ℕ) : ℚ) * 2 ^ (104 : ℤ) = 2 ^ 128 := by norm_num
    linarith only [h1, h2, h3]
  refine ⟨?_, h128, ?_⟩
  · apply roundDouble_exact a n k ha (lt_trans hn (by norm_num)) (by omega)
    exact lt_trans h128 (by norm_num)
  · by_cases h0 : n = 0
    · left
      rw [ha, h0]
      simp
    · right
      have h1 : (1 : ℤ) ≤ |n| := Int.one_le_abs h0
      have h1q : ((1 : ℕ) : ℚ) ≤ |(n : ℚ)| := abs_intCast_ge n 1 (by exact_mod_cast h1)
      have hlow : (2 : ℚ) ^ (-149 : ℤ) ≤ 2 ^ k := zpow_two_mono hk1
      have c : (2 : ℚ) ^ (-149 : ℤ) = 1 / 2 ^ 149 := by norm_num
      rw [habs, ← c]
      calc (2 : ℚ) ^ (-149 : ℤ) ≤ 2 ^ k := hlow
        _ = 1 * 2 ^ k := (one_mul _).symm
        _ ≤ |(n : ℚ)| * 2 ^ k := mul_le_mul_of_nonneg_right (by simpa using h1q) (le_of_lt hpos)

/-- Two different binary32 values: the one that is larger in absolute value is at most `2^25`
times their distance. -/
theorem float32_gap_aux (na ka nb kb : ℤ) (a b : ℚ) (ha : a = (na : ℚ) * 2 ^ ka)
    (hb : b = (nb : ℚ) * 2 ^ kb) (hna : |na| < 2 ^ 24) (hnb : |nb| < 2 ^ 24)
    (hka : -149 ≤ ka) (hkb : -149 ≤ kb) (hA : 2 ^ 23 ≤ |na| ∨ ka = -149)
    (hB : 2 ^ 23 ≤ |nb| ∨ kb = -149) (hne : a ≠ b) (hab : |a| ≤ |b|) :
    |b| ≤ 2 ^ 25 * |b - a| := by
  have hnaq : |(na : ℚ)| < ((2 ^ 24 : ℕ) : ℚ) := abs_intCast_lt na (2 ^ 24) (by exact_mod_cast hna)
  have hnbq : |(nb : ℚ)| < ((2 ^ 24 : ℕ) : ℚ) := abs_intCast_lt nb (2 ^ 24) (by exact_mod_cast hnb)
  have absA : |a| = |(na : ℚ)| * 2 ^ ka := by rw [ha, abs_scaled]
  have absB : |b| = |(nb : ℚ)| * 2 ^ kb := by rw [hb, abs_scaled]
  have pa : (0 : ℚ) < 2 ^ ka := by positivity
  have pb : (0 : ℚ) < 2 ^ kb := by positivity
  have c24 : ((2 ^ 24 : ℕ) : ℚ) = 2 ^ 24 := by norm_num
  have c23 : ((2 ^ 23 : ℕ) : ℚ) = 2 ^ 23 := by norm_num
  rw [c24] at hnaq hnbq
  -- the exponent of the smaller value is not the larger one
  have hk : ka ≤ kb := by
    by_contra hcon
    have h1 : kb + 1 ≤ ka := by omega
    have hA' : (2 : ℤ) ^ 23 ≤ |na| := by
      rcases hA with hA | hA
      · exact hA
      · omega
    have hAq : ((2 ^ 23 : ℕ) : ℚ) ≤ |(na : ℚ)| := abs_intCast_ge na (2 ^ 23) (by exact_mod_cast hA')
    rw [c23] at hAq
    have h2 : (2 : ℚ) ^ (kb + 1) ≤ 2 ^ ka := zpow_two_mono h1
    have h3 : (2 : ℚ) ^ (kb + 1) = 2 ^ kb * 2 := by rw [zpow_add_one₀ (by norm_num)]
    have h4 : (2 : ℚ) ^ 23 * 2 ^ ka ≤ |(na : ℚ)| * 2 ^ ka :=
      mul_le_mul_of_nonneg_right hAq (le_of_lt pa)
    have h5 : |(nb : ℚ)| * 2 ^ kb < 2 ^ 24 * 2 ^ kb := mul_lt_mul_of_pos_right hnbq pb
    have h6 : (2 : ℚ) ^ 23 * (2 ^ kb * 2) ≤ 2 ^ 23 * 2 ^ ka :=
      mul_le_mul_of_nonneg_left (by rw [← h3]; exact h2) (by positivity)
    have h7 : (2 : ℚ) ^ 23 * (2 ^ kb * 2) = 2 ^ 24 * 2 ^ kb := by ring
    rw [absA, absB] at hab
    linarith only [hab, h4, h5, h6, h7]
  rcases Int.lt_or_le ka (kb - 1) with hfar | hnear
  · -- the smaller value is at most half the larger one
    have hB' : (2 : ℤ) ^ 23 ≤ |nb| := by
      rcases hB with hB | hB
      · exact hB
      · omega
    have hBq : ((2 ^ 23 : ℕ) : ℚ) ≤ |(nb : ℚ)| := abs_intCast_ge nb (2 ^ 23) (by exact_mod_cast hB')
    rw [c23] at hBq
    have h1 : ka + 2 ≤ kb := by omega
    have h2 : (2 : ℚ) ^ (ka + 2) ≤ 2 ^ kb := zpow_two_mono h1
    have h3 : (2 : ℚ) ^ (ka + 2) = 2 ^ ka * 4 := by
      rw [zpow_add₀ (by norm_num)]
      norm_num
    have h4 : (2 : ℚ) ^ 23 * 2 ^ kb ≤ |(nb : ℚ)| * 2 ^ kb :=
      mul_le_mul_of_nonneg_right hBq (le_of_lt pb)
    have h5 : |(na : ℚ)| * 2 ^ ka < 2 ^ 24 * 2 ^ ka := mul_lt_mul_of_pos_right hnaq pa
    have h6 : (2 : ℚ) ^ 22 * (2 ^ ka * 4) ≤ 2 ^ 22 * 2 ^ kb :=
      mul_le_mul_of_nonneg_left (by rw [← h3]; exact h2) (by positivity)
    have h7 : (2 : ℚ) ^ 22 * (2 ^ ka * 4) = 2 ^ 24 * 2 ^ ka := by ring
    have h8 : (2 : ℚ) ^ 23 * 2 ^ kb = 2 * (2 ^ 22 * 2 ^ kb) := by ring
    have h9 : |b| - |a| ≤ |b - a| := abs_sub_abs_le_abs_sub b a
    have h10 : (0 : ℚ) ≤ |b - a| := abs_nonneg _
    have h11 : (2 : ℚ) ^ 25 * |b - a| = 2 * |b - a| + (2 ^ 25 - 2) * |b - a| := by ring
    have h12 : (0 : ℚ) ≤ (2 ^ 25 - 2) * |b - a| := mul_nonneg (by norm_num) h10
    rw [absA, absB] at h9
    rw [absB]
    linarith only [h4, h5, h6, h7, h8, h9, h11, h12]
  · -- both values are multiples of the smaller spacing
    obtain ⟨j, hj⟩ : ∃ j : ℕ, kb = ka + j := ⟨(kb - ka).toNat, by omega⟩
    have hj1 : j ≤ 1 := by omega
    have hbq : b = ((nb * 2 ^ j : ℤ) : ℚ) * 2 ^ ka := by
      rw [hb, hj, zpow_add₀ (by norm_num), zpow_natCast]
      push_cast
      ring
    have hdiff : b - a = ((nb * 2 ^ j - na : ℤ) : ℚ) * 2 ^ ka := by
      rw [hbq, ha]
      push_cast
      ring
    have hN : nb * 2 ^ j - na ≠ 0 := by
      intro h0
      apply hne
      have : b - a = 0 := by rw [hdiff, h0]; simp
      linarith only [this]
    have hN1 : (1 : ℤ) ≤ |nb * 2 ^ j - na| := Int.one_le_abs hN
    have hN1q : ((1 : ℕ) : ℚ) ≤ |((nb * 2 ^ j - na : ℤ) : ℚ)| :=
      abs_intCast_ge _ 1 (by exact_mod_cast hN1)
    have hd : (2 : ℚ) ^ ka ≤ |b - a| := by
      rw [hdiff, abs_scaled]
      calc (2 : ℚ) ^ ka = 1 * 2 ^ ka := (one_mul _).symm
        _ ≤ |((nb * 2 ^ j - na : ℤ) : ℚ)| * 2 ^ ka :=
            mul_le_mul_of_nonneg_right (by simpa using hN1q) (le_of_lt pa)
    have h2j : (2 : ℚ) ^ (j : ℕ) ≤ 2 := by
      interval_cases j <;> norm_num
    have h5 : |(nb : ℚ)| * 2 ^ kb < 2 ^ 24 * 2 ^ kb := mul_lt_mul_of_pos_right hnbq pb
    have h6 : (2 : ℚ) ^ kb = 2 ^ ka * 2 ^ (j : ℕ) := by
      rw [hj, zpow_add₀ (by norm_num), zpow_natCast]
    have h7 : (2 : ℚ) ^ ka * 2 ^ (j : ℕ) ≤ 2 ^ ka * 2 :=
      mul_le_mul_of_nonneg_left h2j (le_of_lt pa)
    have h8 : (2 : ℚ) ^ 24 * (2 ^ ka * 2) = 2 ^ 25 * 2 ^ ka := by ring
    have h9 : (2 : ℚ) ^ 25 * 2 ^ ka ≤ 2 ^ 25 * |b - a| :=
      mul_le_mul_of_nonneg_left hd (by positivity)
    have h10 : (2 : ℚ) ^ 24 * 2 ^ kb ≤ 2 ^ 24 * (2 ^ ka * 2) := by
      rw [h6]
      exact mul_le_mul_of_nonneg_left h7 (by positivity)
    rw [absB]
    linarith only [h5, h8, h9, h10]

/-- Two different finite binary32 values are at least `2^-25` of the larger absolute value
apart. -/
theorem float32_gap (bitsA bitsB : Nat) (a b : ℚ) (ha : float32OfBits bitsA = JsNum.fin a)
    (hb : float32OfBits bitsB = JsNum.fin b) (hne : a ≠ b) :
    max |a| |b| ≤ 2 ^ 25 * |b - a| := by
  obtain ⟨na, ka, ea, hna, hka, _, hA⟩ := float32OfBits_fin bitsA a ha
  obtain ⟨nb, kb, eb, hnb, hkb, _, hB⟩ := float32OfBits_fin bitsB b hb
  rcases le_total |a| |b| with h | h
  · rw [max_eq_right h]
    exact float32_gap_aux na ka nb kb a b ea eb hna hnb hka hkb hA hB hne h
  · rw [max_eq_left h, abs_sub_comm]
    exact float32_gap_aux nb kb na ka b a eb ea hnb hna hkb hka hB hA (Ne.symm hne) h

/-! ## Buffers and batches -/

theorem mapM_option_eq_some {α β : Type} (g : α → Option β) (f : α → β) :
    ∀ l : List α, (∀ a ∈ l, g a = some (f a)) → l.mapM g = some (l.map f)
  | [], _ => rfl
  | a :: l, h => by
      have ha : g a = some (f a) := h a (List.mem_cons_self a l)
      have hl : l.mapM g = some (l.map f) :=
        mapM_option_eq_some g f l (fun b hb => h b (List.mem_cons_of_mem a hb))
      rw [List.mapM_cons, ha, hl]
      rfl

theorem length_fileRead (file : List Nat) (length position : Nat) :
    (fileRead file length position).length = length := by
  simp [fileRead]

theorem getD_fileRead (file : List Nat) (length position k : Nat) (hk : k < length) :
    (fileRead file length position).getD k 0 = file.getD (position + k) 0 := by
  simp [fileRead, List.getD_eq_getElem?_getD, List.getElem?_map, List.getElem?_range hk]

theorem readUInt32LE_fileRead (file : List Nat) (length position offset : Nat)
    (h : offset + 4 ≤ length) :
    readUInt32LE (fileRead file length position) offset = some (wordAt file (position + offset)) := by
  unfold readUInt32LE wordAt
  rw [length_fileRead, if_pos h, getD_fileRead _ _ _ _ (by omega), getD_fileRead _ _ _ _ (by omega),
    getD_fileRead _ _ _ _ (by omega), getD_fileRead _ _ _ _ (by omega)]
  simp only [Nat.add_assoc]

theorem readFloatLE_fileRead (file : List Nat) (length position offset : Nat)
    (h : offset + 4 ≤ length) :
    readFloatLE (fileRead file length position) offset = some (floatAt file (position + offset)) := by
  simp [readFloatLE, floatAt, readUInt32LE_fileRead file length position offset h]

theorem runBatches_eq (readOf : Nat → Nat × Nat) (decode : Nat → Option (List Vec3))
    (f : Nat → List Vec3) :
    ∀ bs : List Nat, (∀ b ∈ bs, decode b = some (f b)) →
      runBatches readOf decode bs = (bs.map readOf, some (bs.map f).flatten)
  | [], _ => rfl
  | b :: bs, h => by
      have hb : decode b = some (f b) := h b (List.mem_cons_self b bs)
      have ih := runBatches_eq readOf decode f bs (fun c hc => h c (List.mem_cons_of_mem b hc))
      simp [runBatches, hb, ih]

/-- Splitting `0 .. n` into consecutive batches of `batchSize`. -/
theorem join_batches_upto {β : Type} (F : Nat → β) (n : Nat) :
    ∀ k : Nat,
      ((List.range k).map (fun batch =>
          (List.range (min (batch * batchSize + batchSize) n - batch * batchSize)).map
            (fun i => F (batch * batchSize + i)))).flatten
        = (List.range (min (k * batchSize) n)).map F
  | 0 => by simp
  | k + 1 => by
      rw [List.range_succ, List.map_append, List.flatten_append, join_batches_upto F n k]
      simp only [List.map_cons, List.map_nil, List.flatten_cons, List.flatten_nil, List.append_nil]
      rcases Nat.lt_or_ge (k * batchSize) n with hlt | hge
      · have e1 : min (k * batchSize) n = k * batchSize := Nat.min_eq_left (Nat.le_of_lt hlt)
        have e2 : min ((k + 1) * batchSize) n
            = k * batchSize + (min (k * batchSize + batchSize) n - k * batchSize) := by
          rw [Nat.add_mul, Nat.one_mul]; omega
        rw [e1, e2, List.range_add, List.map_append, List.map_map]
        rfl
      · have e1 : min (k * batchSize) n = n := Nat.min_eq_right hge
        have e2 : min ((k + 1) * batchSize) n = n := by
          rw [Nat.add_mul, Nat.one_mul]; omega
        have e3 : min (k * batchSize + batchSize) n - k * batchSize = 0 := by omega
        rw [e1, e2, e3]
        simp

theorem le_totalBatches_mul (n : Nat) : n ≤ totalBatches n * batchSize := by
  unfold totalBatches batchSize
  omega

theorem join_batches {β : Type} (F : Nat → β) (n : Nat) :
    ((List.range (totalBatches n)).map (fun batch =>
        (List.range (min (batch * batchSize + batchSize) n - batch * batchSize)).map
          (fun i => F (batch * batchSize + i)))).flatten
      = (List.range n).map F := by
  rw [join_batches_upto F n (totalBatches n), Nat.min_eq_right (le_totalBatches_mul n)]


theorem arrayIndexOf_some (v : List Nat) :
    ∀ (l : List (List Nat)) (k : Nat), arrayIndexOf v l = some k → k < l.length ∧ l[k]? = some v
  | [], k, h => by simp [arrayIndexOf] at h
  | s :: rest, k, h => by
      unfold arrayIndexOf at h
      by_cases hs : s = v
      · rw [if_pos hs] at h
        cases h
        simp [hs]
      · rw [if_neg hs] at h
        cases hr : arrayIndexOf v rest with
        | none => simp [hr] at h
        | some j =>
            rw [hr] at h
            cases h
            have := arrayIndexOf_some v rest j hr
            simpa using this

theorem arrayIndexOf_eq_none (v : List Nat) :
    ∀ l : List (List Nat), arrayIndexOf v l = none ↔ v ∉ l
  | [] => by simp [arrayIndexOf]
  | s :: rest => by
      unfold arrayIndexOf
      by_cases hs : s = v
      · simp [hs]
      · have ih := arrayIndexOf_eq_none v rest
        rw [if_neg hs]
        cases hr : arrayIndexOf v rest with
        | none =>
            have hv : ¬ v = s := fun e => hs e.symm
            simpa [hr, hv] using ih.mp hr
        | some j =>
            have : ¬ (v ∉ rest) := fun hn => by simpa [hr] using ih.mpr hn
            simp [this]

/-- What a successful header check of `analyzePly` has established. -/
theorem analyzePlyHeader_ok (file : List Nat) (h : FlatHeader)
    (hh : analyzePlyHeader file = .ok h) :
    ∃ headerEnd vertexMatch,
      indexOf (headerTextOf file) (lit "end_header") = some headerEnd ∧
      matchDigitsAfter (lit "element vertex ") ((headerTextOf file).take headerEnd)
        = some vertexMatch ∧
      h.numVertices = parseInt vertexMatch ∧
      h.properties = declaredProperties ((headerTextOf file).take headerEnd) ∧
      arrayIndexOf (lit "x") h.properties = some h.xIdx ∧
      arrayIndexOf (lit "y") h.properties = some h.yIdx ∧
      arrayIndexOf (lit "z") h.properties = some h.zIdx ∧
      h.vertexSize = h.properties.length * 4 ∧
      h.headerSize = headerEnd + (lit "end_header\n").length := by
  unfold analyzePlyHeader at hh
  dsimp only at hh
  split at hh
  · cases hh
  · rename_i headerEnd hEnd
    split at hh
    · cases hh
    · rename_i vertexMatch hV
      split at hh
      · rename_i xIdx yIdx zIdx hx hy hz
        cases hh
        exact ⟨headerEnd, vertexMatch, hEnd, hV, rfl, rfl, hx, hy, hz, rfl, rfl⟩
      · cases hh

theorem decodeFlatBatch_eq (file : List Nat) (h : FlatHeader) (batch : Nat)
    (hx : h.xIdx * 4 + 4 ≤ h.vertexSize) (hy : h.yIdx * 4 + 4 ≤ h.vertexSize)
    (hz : h.zIdx * 4 + 4 ≤ h.vertexSize) :
    decodeFlatBatch file h batch
      = some ((List.range (min (batch * batchSize + batchSize) h.numVertices - batch * batchSize)).map
          (fun i => flatVertexAt file h (batch * batchSize + i))) := by
  unfold decodeFlatBatch
  apply mapM_option_eq_some
  intro i hi
  have hi' := List.mem_range.mp hi
  have hstep : i * h.vertexSize + h.vertexSize
      ≤ (min (batch * batchSize + batchSize) h.numVertices - batch * batchSize) * h.vertexSize := by
    have := Nat.mul_le_mul_right h.vertexSize (Nat.succ_le_of_lt hi')
    rwa [Nat.succ_mul] at this
  unfold decodeFlatVertex
  dsimp only
  rw [readFloatLE_fileRead _ _ _ _ (by omega), readFloatLE_fileRead _ _ _ _ (by omega),
    readFloatLE_fileRead _ _ _ _ (by omega)]
  have e : ∀ k, h.headerSize + batch * batchSize * h.vertexSize + (i * h.vertexSize + k * 4)
      = h.headerSize + (batch * batchSize + i) * h.vertexSize + 4 * k := by
    intro k
    rw [Nat.add_mul]
    omega
  simp [flatVertexAt, e]

theorem decodeFlat_eq (file : List Nat) (h : FlatHeader)
    (hx : h.xIdx * 4 + 4 ≤ h.vertexSize) (hy : h.yIdx * 4 + 4 ≤ h.vertexSize)
    (hz : h.zIdx * 4 + 4 ≤ h.vertexSize) :
    decodeFlat file h
      = ((List.range (totalBatches h.numVertices)).map (flatBatchRead h),
          some ((List.range h.numVertices).map (flatVertexAt file h))) := by
  unfold decodeFlat
  rw [runBatches_eq _ _ _ _ (fun b _ => decodeFlatBatch_eq file h b hx hy hz), join_batches]

theorem analyzePlyHeader_inRange (file : List Nat) (h : FlatHeader)
    (hh : analyzePlyHeader file = .ok h) :
    h.xIdx * 4 + 4 ≤ h.vertexSize ∧ h.yIdx * 4 + 4 ≤ h.vertexSize ∧
      h.zIdx * 4 + 4 ≤ h.vertexSize := by
  obtain ⟨_, _, _, _, _, _, hx, hy, hz, hv, _⟩ := analyzePlyHeader_ok file h hh
  have := (arrayIndexOf_some _ _ _ hx).1
  have := (arrayIndexOf_some _ _ _ hy).1
  have := (arrayIndexOf_some _ _ _ hz).1
  omega

theorem mapM_readFloatLE_chunks (file : List Nat) (h : ChunkedHeader) (d : Nat) (hd : d + 4 ≤ 72) :
    (List.range h.numChunks).mapM
        (fun i => readFloatLE (fileRead file (h.numChunks * chunkElementSize) h.chunkDataOffset)
          (i * chunkElementSize + d))
      = some ((List.range h.numChunks).map (fun k => floatAt file (h.headerSize + 72 * k + d))) := by
  apply mapM_option_eq_some
  intro i hi
  have hi' := List.mem_range.mp hi
  have e : chunkElementSize = 72 := rfl
  rw [readFloatLE_fileRead _ _ _ _ (by rw [e]; omega)]
  simp only [ChunkedHeader.chunkDataOffset, e]
  congr 2
  omega

theorem chunkArraysOf_eq (file : List Nat) (h : ChunkedHeader) :
    chunkArraysOf (fileRead file (h.numChunks * chunkElementSize) h.chunkDataOffset) h.numChunks
      = some (chunkTableAt file h) := by
  unfold chunkArraysOf
  have h0 := mapM_readFloatLE_chunks file h 0 (by omega)
  simp only [Nat.add_zero] at h0
  simp only [h0, mapM_readFloatLE_chunks file h 4 (by omega),
    mapM_readFloatLE_chunks file h 8 (by omega), mapM_readFloatLE_chunks file h 12 (by omega),
    mapM_readFloatLE_chunks file h 16 (by omega), mapM_readFloatLE_chunks file h 20 (by omega)]
  rfl

/-- When the runtime allocates the chunk buffer, the chunk table is read in one read and the
six arrays hold the table of the file. -/
theorem readChunks_eq (rt : Runtime) (file : List Nat) (h : ChunkedHeader)
    (ha : h.numChunks * chunkElementSize ≤ rt.maxAlloc) :
    readChunks rt file h
      = ([(h.chunkDataOffset, h.numChunks * chunkElementSize)], .ok (chunkTableAt file h)) := by
  unfold readChunks
  rw [if_neg (by omega), chunkArraysOf_eq]

/-- When the runtime does not allocate the chunk buffer, nothing is read. -/
theorem readChunks_alloc_fails (rt : Runtime) (file : List Nat) (h : ChunkedHeader)
    (ha : rt.maxAlloc < h.numChunks * chunkElementSize) :
    readChunks rt file h = ([], .error .allocation) := by
  unfold readChunks
  rw [if_pos ha]

/-- The arrays that `readChunks` returns are the table of the file. -/
theorem readChunks_ok (rt : Runtime) (file : List Nat) (h : ChunkedHeader)
    (reads : List (Nat × Nat)) (c : ChunkArrays) (hc : readChunks rt file h = (reads, .ok c)) :
    h.numChunks * chunkElementSize ≤ rt.maxAlloc ∧ c = chunkTableAt file h ∧
      reads = [(h.chunkDataOffset, h.numChunks * chunkElementSize)] := by
  rcases Nat.lt_or_ge rt.maxAlloc (h.numChunks * chunkElementSize) with hlt | hge
  · rw [readChunks_alloc_fails rt file h hlt] at hc
    cases hc
  · rw [readChunks_eq rt file h hge] at hc
    cases hc
    exact ⟨hge, rfl, rfl⟩

theorem decodeChunkedBatch_eq (file : List Nat) (h : ChunkedHeader) (c : ChunkArrays)
    (batch : Nat) :
    decodeChunkedBatch file h c batch
      = some ((List.range (min (batch * batchSize + batchSize) h.numVertices - batch * batchSize)).map
          (fun i => chunkedVertexAt file h c (batch * batchSize + i))) := by
  unfold decodeChunkedBatch
  apply mapM_option_eq_some
  intro i hi
  have hi' := List.mem_range.mp hi
  have e : vertexElementSize = 16 := rfl
  have e2 : chunkElementSize = 72 := rfl
  unfold decodeChunkedVertex
  dsimp only
  rw [readUInt32LE_fileRead _ _ _ _ (by rw [e]; omega)]
  have e3 : h.vertexDataOffset + batch * batchSize * vertexElementSize + i * vertexElementSize
      = h.headerSize + 72 * h.numChunks + 16 * (batch * batchSize + i) := by
    simp only [ChunkedHeader.vertexDataOffset, e, e2]
    omega
  simp [chunkedVertexAt, e3, CHUNK_SIZE]

theorem decodeChunked_eq (file : List Nat) (h : ChunkedHeader) (c : ChunkArrays) :
    decodeChunked file h c
      = ((List.range (totalBatches h.numVertices)).map (chunkedBatchRead h),
          some ((List.range h.numVertices).map (chunkedVertexAt file h c))) := by
  unfold decodeChunked
  rw [runBatches_eq _ _ _ _ (fun b _ => decodeChunkedBatch_eq file h c b), join_batches]


/-! ## Running extremes -/

namespace JsNum

theorem le_refl_of_ne_nan (a : JsNum) (ha : a ≠ nan) : a.le a = true := by
  cases a <;> simp_all [le]

theorem le_trans_js (a b c : JsNum) (hab : a.le b = true) (hbc : b.le c = true) :
    a.le c = true := by
  cases a <;> cases b <;> cases c <;> simp_all [le]
  exact le_trans hab hbc

end JsNum

theorem stepMin_fin_fin (a b : ℚ) : stepMin (JsNum.fin a) (JsNum.fin b) = JsNum.fin (min a b) := by
  unfold stepMin
  by_cases h : b < a
  · simp [JsNum.lt, h, min_eq_right h.le]
  · simp [JsNum.lt, h, min_eq_left (not_lt.mp h)]

theorem stepMax_fin_fin (a b : ℚ) : stepMax (JsNum.fin a) (JsNum.fin b) = JsNum.fin (max a b) := by
  unfold stepMax
  by_cases h : a < b
  · simp [JsNum.lt, h, max_eq_right h.le]
  · simp [JsNum.lt, h, max_eq_left (not_lt.mp h)]

theorem stepMin_nan_left (v : JsNum) : stepMin JsNum.nan v = JsNum.nan := by
  cases v <;> simp [stepMin, JsNum.lt]

theorem stepMin_nan_right (m : JsNum) : stepMin m JsNum.nan = m := by
  cases m <;> simp [stepMin, JsNum.lt]

theorem stepMin_negInf_left (v : JsNum) : stepMin JsNum.negInf v = JsNum.negInf := by
  cases v <;> simp [stepMin, JsNum.lt]

theorem stepMin_negInf_right (m : JsNum) (hm : m ≠ JsNum.nan) :
    stepMin m JsNum.negInf = JsNum.negInf := by
  cases m <;> simp_all [stepMin, JsNum.lt]

theorem stepMin_posInf_left (v : JsNum) (hv : v ≠ JsNum.nan) : stepMin JsNum.posInf v = v := by
  cases v <;> simp_all [stepMin, JsNum.lt]

theorem stepMin_posInf_right (m : JsNum) : stepMin m JsNum.posInf = m := by
  cases m <;> simp [stepMin, JsNum.lt]

theorem stepMax_nan_left (v : JsNum) : stepMax JsNum.nan v = JsNum.nan := by
  cases v <;> simp [stepMax, JsNum.lt]

theorem stepMax_nan_right (m : JsNum) : stepMax m JsNum.nan = m := by
  cases m <;> simp [stepMax, JsNum.lt]

theorem stepMax_posInf_left (v : JsNum) : stepMax JsNum.posInf v = JsNum.posInf := by
  cases v <;> simp [stepMax, JsNum.lt]

theorem stepMax_posInf_right (m : JsNum) (hm : m ≠ JsNum.nan) :
    stepMax m JsNum.posInf = JsNum.posInf := by
  cases m <;> simp_all [stepMax, JsNum.lt]

theorem stepMax_negInf_left (v : JsNum) (hv : v ≠ JsNum.nan) : stepMax JsNum.negInf v = v := by
  cases v <;> simp_all [stepMax, JsNum.lt]

theorem stepMax_negInf_right (m : JsNum) : stepMax m JsNum.negInf = m := by
  cases m <;> simp [stepMax, JsNum.lt]

theorem stepMin_posInf_fin (a : ℚ) : stepMin JsNum.posInf (JsNum.fin a) = JsNum.fin a :=
  stepMin_posInf_left _ (by simp)

theorem stepMax_negInf_fin (a : ℚ) : stepMax JsNum.negInf (JsNum.fin a) = JsNum.fin a :=
  stepMax_negInf_left _ (by simp)

theorem stepMin_assoc (m v r : JsNum) :
    stepMin (stepMin m v) r = stepMin m (stepMin (stepMin JsNum.posInf v) r) := by
  cases m <;> cases v <;> cases r <;>
    simp [stepMin_fin_fin, stepMin_nan_left, stepMin_nan_right, stepMin_negInf_left,
      stepMin_negInf_right, stepMin_posInf_left, stepMin_posInf_right, min_assoc]

theorem stepMax_assoc (m v r : JsNum) :
    stepMax (stepMax m v) r = stepMax m (stepMax (stepMax JsNum.negInf v) r) := by
  cases m <;> cases v <;> cases r <;>
    simp [stepMax_fin_fin, stepMax_nan_left, stepMax_nan_right, stepMax_posInf_left,
      stepMax_posInf_right, stepMax_negInf_left, stepMax_negInf_right, max_assoc]

theorem foldl_stepMin (vs : List JsNum) :
    ∀ m : JsNum, vs.foldl stepMin m = stepMin m (vs.foldl stepMin JsNum.posInf) := by
  induction vs with
  | nil => intro m; simp [stepMin_posInf_right]
  | cons v vs ih =>
      intro m
      rw [List.foldl_cons, List.foldl_cons, ih (stepMin m v), ih (stepMin JsNum.posInf v)]
      exact stepMin_assoc m v _

theorem foldl_stepMax (vs : List JsNum) :
    ∀ m : JsNum, vs.foldl stepMax m = stepMax m (vs.foldl stepMax JsNum.negInf) := by
  induction vs with
  | nil => intro m; simp [stepMax_negInf_right]
  | cons v vs ih =>
      intro m
      rw [List.foldl_cons, List.foldl_cons, ih (stepMax m v), ih (stepMax JsNum.negInf v)]
      exact stepMax_assoc m v _

theorem foldBox_eq (ps : List Vec3) :
    ∀ b : BoundingBox, foldBox b ps =
      { minX := (ps.map (·.x)).foldl stepMin b.minX
        maxX := (ps.map (·.x)).foldl stepMax b.maxX
        minY := (ps.map (·.y)).foldl stepMin b.minY
        maxY := (ps.map (·.y)).foldl stepMax b.maxY
        minZ := (ps.map (·.z)).foldl stepMin b.minZ
        maxZ := (ps.map (·.z)).foldl stepMax b.maxZ } := by
  induction ps with
  | nil => intro b; rfl
  | cons p ps ih =>
      intro b
      show foldBox (b.update p) ps = _
      rw [ih (b.update p)]
      rfl

theorem foldBox_combine (b : BoundingBox) (ps : List Vec3) :
    foldBox b ps = b.combine (foldBox BoundingBox.empty ps) := by
  rw [foldBox_eq ps b, foldBox_eq ps BoundingBox.empty]
  simp only [BoundingBox.combine, BoundingBox.empty]
  rw [foldl_stepMin _ b.minX, foldl_stepMax _ b.maxX, foldl_stepMin _ b.minY,
    foldl_stepMax _ b.maxY, foldl_stepMin _ b.minZ, foldl_stepMax _ b.maxZ]

theorem foldl_combine_eq (batches : List (List Vec3)) :
    ∀ b : BoundingBox,
      (batches.map (foldBox BoundingBox.empty)).foldl BoundingBox.combine b
        = foldBox b batches.flatten := by
  induction batches with
  | nil => intro b; rfl
  | cons ps rest ih =>
      intro b
      rw [List.map_cons, List.foldl_cons, ih, List.flatten_cons, ← foldBox_combine]
      simp [foldBox, List.foldl_append]

theorem stepMin_cases (m v : JsNum) (hm : m ≠ JsNum.nan) (hv : v ≠ JsNum.nan) :
    stepMin m v ≠ JsNum.nan ∧ (stepMin m v).le m = true ∧ (stepMin m v).le v = true ∧
      (stepMin m v = m ∨ stepMin m v = v) := by
  cases m <;> cases v <;> simp_all [stepMin_fin_fin, stepMin_negInf_left,
      stepMin_negInf_right, stepMin_posInf_left, stepMin_posInf_right, JsNum.le]
  exact le_total _ _

theorem stepMax_cases (m v : JsNum) (hm : m ≠ JsNum.nan) (hv : v ≠ JsNum.nan) :
    stepMax m v ≠ JsNum.nan ∧ m.le (stepMax m v) = true ∧ v.le (stepMax m v) = true ∧
      (stepMax m v = m ∨ stepMax m v = v) := by
  cases m <;> cases v <;> simp_all [stepMax_fin_fin, stepMax_posInf_left,
      stepMax_posInf_right, stepMax_negInf_left, stepMax_negInf_right, JsNum.le]
  exact le_total _ _

theorem foldl_stepMin_spec (vs : List JsNum) (hv : ∀ v ∈ vs, v ≠ JsNum.nan) :
    ∀ m : JsNum, m ≠ JsNum.nan →
      vs.foldl stepMin m ≠ JsNum.nan ∧ (vs.foldl stepMin m).le m = true ∧
        (∀ v ∈ vs, (vs.foldl stepMin m).le v = true) ∧
        (vs.foldl stepMin m = m ∨ vs.foldl stepMin m ∈ vs) := by
  induction vs with
  | nil => intro m hm; simp [hm, JsNum.le_refl_of_ne_nan]
  | cons v vs ih =>
      intro m hm
      have hv0 : v ≠ JsNum.nan := hv v (List.mem_cons_self v vs)
      obtain ⟨s1, s2, s3, s4⟩ := stepMin_cases m v hm hv0
      obtain ⟨r1, r2, r3, r4⟩ := ih (fun w hw => hv w (List.mem_cons_of_mem v hw)) _ s1
      rw [List.foldl_cons]
      refine ⟨r1, JsNum.le_trans_js _ _ _ r2 s2, ?_, ?_⟩
      · intro w hw
        rcases List.mem_cons.mp hw with rfl | hw
        · exact JsNum.le_trans_js _ _ _ r2 s3
        · exact r3 w hw
      · rcases r4 with r4 | r4
        · rcases s4 with s4 | s4
          · exact Or.inl (r4.trans s4)
          · exact Or.inr (by rw [r4, s4]; exact List.mem_cons_self v vs)
        · exact Or.inr (List.mem_cons_of_mem v r4)

theorem foldl_stepMax_spec (vs : List JsNum) (hv : ∀ v ∈ vs, v ≠ JsNum.nan) :
    ∀ m : JsNum, m ≠ JsNum.nan →
      vs.foldl stepMax m ≠ JsNum.nan ∧ m.le (vs.foldl stepMax m) = true ∧
        (∀ v ∈ vs, v.le (vs.foldl stepMax m) = true) ∧
        (vs.foldl stepMax m = m ∨ vs.foldl stepMax m ∈ vs) := by
  induction vs with
  | nil => intro m hm; simp [hm, JsNum.le_refl_of_ne_nan]
  | cons v vs ih =>
      intro m hm
      have hv0 : v ≠ JsNum.nan := hv v (List.mem_cons_self v vs)
      obtain ⟨s1, s2, s3, s4⟩ := stepMax_cases m v hm hv0
      obtain ⟨r1, r2, r3, r4⟩ := ih (fun w hw => hv w (List.mem_cons_of_mem v hw)) _ s1
      rw [List.foldl_cons]
      refine ⟨r1, JsNum.le_trans_js _ _ _ s2 r2, ?_, ?_⟩
      · intro w hw
        rcases List.mem_cons.mp hw with rfl | hw
        · exact JsNum.le_trans_js _ _ _ s3 r2
        · exact r3 w hw
      · rcases r4 with r4 | r4
        · rcases s4 with s4 | s4
          · exact Or.inl (r4.trans s4)
          · exact Or.inr (by rw [r4, s4]; exact List.mem_cons_self v vs)
        · exact Or.inr (List.mem_cons_of_mem v r4)

/-- The running minimum of a non-empty NaN-free sequence started at `+Infinity` is its least
element. -/
theorem runMin_least (vs : List JsNum) (hne : vs ≠ []) (hv : ∀ v ∈ vs, v ≠ JsNum.nan) :
    (∀ v ∈ vs, (vs.foldl stepMin JsNum.posInf).le v = true) ∧
      vs.foldl stepMin JsNum.posInf ∈ vs := by
  obtain ⟨_, _, r3, r4⟩ := foldl_stepMin_spec vs hv JsNum.posInf (by simp)
  refine ⟨r3, ?_⟩
  rcases r4 with r4 | r4
  · obtain ⟨w, hw⟩ := List.exists_mem_of_ne_nil vs hne
    have h1 := r3 w hw
    have hwn := hv w hw
    rw [r4] at h1
    have : w = JsNum.posInf := by
      cases w <;> simp_all [JsNum.le]
    rw [r4, ← this]
    exact hw
  · exact r4

theorem runMax_greatest (vs : List JsNum) (hne : vs ≠ []) (hv : ∀ v ∈ vs, v ≠ JsNum.nan) :
    (∀ v ∈ vs, v.le (vs.foldl stepMax JsNum.negInf) = true) ∧
      vs.foldl stepMax JsNum.negInf ∈ vs := by
  obtain ⟨_, _, r3, r4⟩ := foldl_stepMax_spec vs hv JsNum.negInf (by simp)
  refine ⟨r3, ?_⟩
  rcases r4 with r4 | r4
  · obtain ⟨w, hw⟩ := List.exists_mem_of_ne_nil vs hne
    have h1 := r3 w hw
    have hwn := hv w hw
    rw [r4] at h1
    have : w = JsNum.negInf := by
      cases w <;> simp_all [JsNum.le]
    rw [r4, ← this]
    exact hw
  · exact r4

/-- On a non-empty sequence without `NaN`, the folded box bounds every position and each of
its six bounds is the coordinate of some position. -/
theorem foldBox_extremes (ps : List Vec3) (hne : ps ≠ [])
    (hnan : ∀ p ∈ ps, p.x ≠ JsNum.nan ∧ p.y ≠ JsNum.nan ∧ p.z ≠ JsNum.nan) :
    (∀ p ∈ ps,
      (foldBox BoundingBox.empty ps).minX.le p.x = true ∧
      p.x.le (foldBox BoundingBox.empty ps).maxX = true ∧
      (foldBox BoundingBox.empty ps).minY.le p.y = true ∧
      p.y.le (foldBox BoundingBox.empty ps).maxY = true ∧
      (foldBox BoundingBox.empty ps).minZ.le p.z = true ∧
      p.z.le (foldBox BoundingBox.empty ps).maxZ = true) ∧
    (∃ p ∈ ps, p.x = (foldBox BoundingBox.empty ps).minX) ∧
    (∃ p ∈ ps, p.x = (foldBox BoundingBox.empty ps).maxX) ∧
    (∃ p ∈ ps, p.y = (foldBox BoundingBox.empty ps).minY) ∧
    (∃ p ∈ ps, p.y = (foldBox BoundingBox.empty ps).maxY) ∧
    (∃ p ∈ ps, p.z = (foldBox BoundingBox.empty ps).minZ) ∧
    (∃ p ∈ ps, p.z = (foldBox BoundingBox.empty ps).maxZ) := by
  have nx : (ps.map (·.x)) ≠ [] := by simpa using hne
  have ny : (ps.map (·.y)) ≠ [] := by simpa using hne
  have nz : (ps.map (·.z)) ≠ [] := by simpa using hne
  have hx : ∀ v ∈ ps.map (·.x), v ≠ JsNum.nan := by
    intro v hv
    obtain ⟨p, hp, rfl⟩ := List.mem_map.mp hv
    exact (hnan p hp).1
  have hy : ∀ v ∈ ps.map (·.y), v ≠ JsNum.nan := by
    intro v hv
    obtain ⟨p, hp, rfl⟩ := List.mem_map.mp hv
    exact (hnan p hp).2.1
  have hz : ∀ v ∈ ps.map (·.z), v ≠ JsNum.nan := by
    intro v hv
    obtain ⟨p, hp, rfl⟩ := List.mem_map.mp hv
    exact (hnan p hp).2.2
  obtain ⟨ax, bx⟩ := runMin_least _ nx hx
  obtain ⟨cx, dx⟩ := runMax_greatest _ nx hx
  obtain ⟨ay, b_y⟩ := runMin_least _ ny hy
  obtain ⟨cy, dy⟩ := runMax_greatest _ ny hy
  obtain ⟨az, bz⟩ := runMin_least _ nz hz
  obtain ⟨cz, dz⟩ := runMax_greatest _ nz hz
  rw [foldBox_eq ps BoundingBox.empty]
  simp only [BoundingBox.empty]
  exact ⟨fun p hp => ⟨ax _ (List.mem_map_of_mem _ hp), cx _ (List.mem_map_of_mem _ hp),
      ay _ (List.mem_map_of_mem _ hp), cy _ (List.mem_map_of_mem _ hp),
      az _ (List.mem_map_of_mem _ hp), cz _ (List.mem_map_of_mem _ hp)⟩,
    List.mem_map.mp bx, List.mem_map.mp dx, List.mem_map.mp b_y, List.mem_map.mp dy,
    List.mem_map.mp bz, List.mem_map.mp dz⟩

theorem analyzePly_zero (file : List Nat) (h : FlatHeader)
    (hh : analyzePlyHeader file = .ok h) (h0 : h.numVertices = 0) :
    analyzePly file = ⟨[], .ok (mkReport BoundingBox.empty)⟩ := by
  unfold analyzePly
  rw [hh]
  simp only [decodeFlat, h0]
  rfl

theorem analyzeCompressedPly_zero (rt : Runtime) (file : List Nat) (h : ChunkedHeader)
    (hh : analyzeCompressedPlyHeader file = .ok h)
    (ha : h.numChunks * chunkElementSize ≤ rt.maxAlloc) (h0 : h.numVertices = 0) :
    analyzeCompressedPly rt file
      = ⟨[(h.headerSize, h.numChunks * 72)], .ok (mkReport BoundingBox.empty)⟩ := by
  unfold analyzeCompressedPly
  rw [hh]
  simp only [readChunks_eq rt file h ha, decodeChunked, h0]
  rfl


/-! ## Header text -/

theorem utf8DecodeFrom_ascii (rest : List Nat) :
    ∀ pre : List Nat, (∀ b ∈ pre, b < 128) →
      utf8DecodeFrom none (pre ++ rest) = pre ++ utf8DecodeFrom none rest
  | [], _ => rfl
  | b :: bs, h => by
      have hb : b < 128 := h b (List.mem_cons_self b bs)
      have hs : utf8Start b = ([b], none) := by
        unfold utf8Start
        rw [if_pos (by omega)]
      have ih := utf8DecodeFrom_ascii rest bs (fun c hc => h c (List.mem_cons_of_mem b hc))
      show (utf8Start b).1 ++ utf8DecodeFrom (utf8Start b).2 (bs ++ rest) = _
      rw [hs]
      simp [ih]

theorem isPrefixOf_append_of_length_le (R : List Nat) :
    ∀ tok A : List Nat, tok.length ≤ A.length → tok.isPrefixOf (A ++ R) = tok.isPrefixOf A
  | [], _, _ => by simp [List.isPrefixOf]
  | t :: ts, [], h => by simp at h
  | t :: ts, a :: as, h => by
      have ih := isPrefixOf_append_of_length_le R ts as (by simpa using h)
      simp [List.isPrefixOf, ih]

theorem length_le_of_isPrefixOf :
    ∀ tok xs : List Nat, tok.isPrefixOf xs = true → tok.length ≤ xs.length
  | [], _, _ => by simp
  | t :: ts, [], h => by simp [List.isPrefixOf] at h
  | t :: ts, a :: as, h => by
      simp only [List.isPrefixOf, Bool.and_eq_true] at h
      have := length_le_of_isPrefixOf ts as h.2
      simp
      omega

theorem indexOfFrom_ge (tok : List Nat) :
    ∀ (xs : List Nat) (base j : Nat), indexOfFrom tok xs base = some j →
      base ≤ j ∧ j + tok.length ≤ base + xs.length
  | [], base, j, h => by
      unfold indexOfFrom at h
      split at h
      · rename_i hp
        cases h
        have := length_le_of_isPrefixOf tok [] hp
        simp at this
        simp [this]
      · cases h
  | c :: cs, base, j, h => by
      unfold indexOfFrom at h
      split at h
      · rename_i hp
        cases h
        have := length_le_of_isPrefixOf tok (c :: cs) hp
        omega
      · have := indexOfFrom_ge tok cs (base + 1) j h
        simp only [List.length_cons]
        omega

theorem indexOfFrom_append (tok R R1 : List Nat) :
    ∀ (A : List Nat) (base i : Nat), indexOfFrom tok (A ++ R) base = some (base + i) →
      i + tok.length ≤ A.length → indexOfFrom tok (A ++ R1) base = some (base + i)
  | [], base, i, h, hl => by
      have ht : tok = [] := by
        cases tok with
        | nil => rfl
        | cons t ts => simp at hl
      have hi : i = 0 := by simp at hl; exact hl.1
      subst ht hi
      cases R1 <;> simp [indexOfFrom, List.isPrefixOf]
  | c :: cs, base, i, h, hl => by
      simp only [List.cons_append] at h ⊢
      unfold indexOfFrom at h ⊢
      have hlen : tok.length ≤ (c :: cs).length := by omega
      have e1 := isPrefixOf_append_of_length_le R tok (c :: cs) hlen
      have e2 := isPrefixOf_append_of_length_le R1 tok (c :: cs) hlen
      simp only [List.cons_append] at e1 e2
      rw [e1] at h
      rw [e2]
      split at h
      · rename_i hp
        rw [if_pos hp]
        exact h
      · rename_i hp
        rw [if_neg hp]
        have hge := (indexOfFrom_ge tok _ _ _ h).1
        obtain ⟨k, rfl⟩ : ∃ k, i = k + 1 := ⟨i - 1, by omega⟩
        have h1 : indexOfFrom tok (cs ++ R) (base + 1) = some (base + 1 + k) := by
          rw [h]; congr 1; omega
        have := indexOfFrom_append tok R R1 cs (base + 1) k h1 (by simp at hl; omega)
        rw [this]; congr 1; omega

/-- If the bytes read are ASCII up to the end of the first `end_header`, the decoded text has
the token at the same index. -/
theorem indexOf_headerText_ascii (file : List Nat) (i : Nat)
    (hi : indexOf (file.take (128 * 1024)) (lit "end_header") = some i)
    (hascii : ∀ b ∈ file.take (i + 10), b < 128) :
    indexOf (headerTextOf file) (lit "end_header") = some i := by
  have hlen : (lit "end_header").length = 10 := rfl
  have hb := (indexOfFrom_ge _ _ _ _ hi).2
  rw [hlen, Nat.zero_add] at hb
  have hN : i + 10 ≤ 128 * 1024 := le_trans hb (by simp)
  have hA : (file.take (128 * 1024)).take (i + 10) = file.take (i + 10) := by
    rw [List.take_take, Nat.min_eq_left hN]
  have hsplit : file.take (128 * 1024)
      = file.take (i + 10) ++ (file.take (128 * 1024)).drop (i + 10) := by
    rw [← hA, List.take_append_drop]
  have hAl : i + (lit "end_header").length ≤ (file.take (i + 10)).length := by
    rw [← hA, List.length_take, hlen]
    omega
  unfold headerTextOf toStringUtf8
  rw [hsplit, utf8DecodeFrom_ascii _ _ hascii]
  unfold indexOf at hi ⊢
  rw [hsplit] at hi
  have := indexOfFrom_append _ _ (utf8DecodeFrom none ((file.take (128 * 1024)).drop (i + 10)))
    _ 0 i (by simpa using hi) hAl
  simpa using this

/-- What a successful header check of `analyzeCompressedPly` has established. -/
theorem analyzeCompressedPlyHeader_ok (file : List Nat) (h : ChunkedHeader)
    (hh : analyzeCompressedPlyHeader file = .ok h) :
    ∃ headerEnd vertexMatch chunkMatch,
      indexOf (headerTextOf file) (lit "end_header") = some headerEnd ∧
      matchDigitsAfter (lit "element vertex ") ((headerTextOf file).take headerEnd)
        = some vertexMatch ∧
      matchDigitsAfter (lit "element chunk ") ((headerTextOf file).take headerEnd)
        = some chunkMatch ∧
      h.numVertices = parseInt vertexMatch ∧
      h.numChunks = parseInt chunkMatch ∧
      h.headerSize = headerEnd + (lit "end_header\n").length := by
  unfold analyzeCompressedPlyHeader at hh
  dsimp only at hh
  split at hh
  · cases hh
  · rename_i headerEnd hEnd
    split at hh
    · cases hh
    · rename_i vertexMatch hV
      split at hh
      · cases hh
      · rename_i chunkMatch hC
        cases hh
        exact ⟨headerEnd, vertexMatch, chunkMatch, hEnd, hV, hC, rfl, rfl, rfl⟩

/-- The four ways the header checks of `analyzePly` can end. -/
theorem analyzePlyHeader_cases (file : List Nat) :
    (indexOf (headerTextOf file) (lit "end_header") = none ∧
        analyzePlyHeader file = .error .noEndHeader) ∨
    (∃ headerEnd, indexOf (headerTextOf file) (lit "end_header") = some headerEnd ∧
        matchDigitsAfter (lit "element vertex ") ((headerTextOf file).take headerEnd) = none ∧
        analyzePlyHeader file = .error .notValidPly) ∨
    (∃ headerEnd vertexMatch,
        indexOf (headerTextOf file) (lit "end_header") = some headerEnd ∧
        matchDigitsAfter (lit "element vertex ") ((headerTextOf file).take headerEnd)
          = some vertexMatch ∧
        (lit "x" ∉ declaredProperties ((headerTextOf file).take headerEnd) ∨
          lit "y" ∉ declaredProperties ((headerTextOf file).take headerEnd) ∨
          lit "z" ∉ declaredProperties ((headerTextOf file).take headerEnd)) ∧
        analyzePlyHeader file = .error .noXYZ) ∨
    (∃ headerEnd vertexMatch h,
        indexOf (headerTextOf file) (lit "end_header") = some headerEnd ∧
        matchDigitsAfter (lit "element vertex ") ((headerTextOf file).take headerEnd)
          = some vertexMatch ∧
        lit "x" ∈ declaredProperties ((headerTextOf file).take headerEnd) ∧
        lit "y" ∈ declaredProperties ((headerTextOf file).take headerEnd) ∧
        lit "z" ∈ declaredProperties ((headerTextOf file).take headerEnd) ∧
        analyzePlyHeader file = .ok h) := by
  cases hE : indexOf (headerTextOf file) (lit "end_header") with
  | none => exact Or.inl ⟨rfl, by unfold analyzePlyHeader; simp [hE]⟩
  | some headerEnd =>
    cases hV : matchDigitsAfter (lit "element vertex ") ((headerTextOf file).take headerEnd) with
    | none => exact Or.inr (Or.inl ⟨headerEnd, rfl, hV, by unfold analyzePlyHeader; simp [hE, hV]⟩)
    | some vertexMatch =>
      cases hx : arrayIndexOf (lit "x") (declaredProperties ((headerTextOf file).take headerEnd)) with
      | none =>
        exact Or.inr (Or.inr (Or.inl ⟨headerEnd, vertexMatch, rfl, hV,
          Or.inl ((arrayIndexOf_eq_none _ _).mp hx),
          by unfold analyzePlyHeader; simp [hE, hV, hx]⟩))
      | some xIdx =>
        cases hy : arrayIndexOf (lit "y")
            (declaredProperties ((headerTextOf file).take headerEnd)) with
        | none =>
          exact Or.inr (Or.inr (Or.inl ⟨headerEnd, vertexMatch, rfl, hV,
            Or.inr (Or.inl ((arrayIndexOf_eq_none _ _).mp hy)),
            by unfold analyzePlyHeader; simp [hE, hV, hx, hy]⟩))
        | some yIdx =>
          cases hz : arrayIndexOf (lit "z")
              (declaredProperties ((headerTextOf file).take headerEnd)) with
          | none =>
            exact Or.inr (Or.inr (Or.inl ⟨headerEnd, vertexMatch, rfl, hV,
              Or.inr (Or.inr ((arrayIndexOf_eq_none _ _).mp hz)),
              by unfold analyzePlyHeader; simp [hE, hV, hx, hy, hz]⟩))
          | some zIdx =>
            refine Or.inr (Or.inr (Or.inr ⟨headerEnd, vertexMatch, _, rfl, hV, ?_, ?_, ?_,
              by unfold analyzePlyHeader; simp only [hE, hV, hx, hy, hz]; rfl⟩))
            · exact by_contra fun hn => by
                rw [(arrayIndexOf_eq_none _ _).mpr hn] at hx; cases hx
            · exact by_contra fun hn => by
                rw [(arrayIndexOf_eq_none _ _).mpr hn] at hy; cases hy
            · exact by_contra fun hn => by
                rw [(arrayIndexOf_eq_none _ _).mpr hn] at hz; cases hz

/-- A successful header check of `analyzePly` always ends in a report. -/
theorem analyzePly_ok (file : List Nat) (h : FlatHeader) (hh : analyzePlyHeader file = .ok h) :
    analyzePly file
      = ⟨(List.range (totalBatches h.numVertices)).map (flatBatchRead h),
          .ok (mkReport (foldBox BoundingBox.empty
            ((List.range h.numVertices).map (flatVertexAt file h))))⟩ := by
  obtain ⟨rx, ry, rz⟩ := analyzePlyHeader_inRange file h hh
  unfold analyzePly
  rw [hh]
  simp only [decodeFlat_eq file h rx ry rz]

/-- A successful header check of `analyzeCompressedPly` ends in a report when the runtime
allocates the chunk buffer. -/
theorem analyzeCompressedPly_ok (rt : Runtime) (file : List Nat) (h : ChunkedHeader)
    (hh : analyzeCompressedPlyHeader file = .ok h)
    (ha : h.numChunks * chunkElementSize ≤ rt.maxAlloc) :
    analyzeCompressedPly rt file
      = ⟨(h.chunkDataOffset, h.numChunks * chunkElementSize) ::
            (List.range (totalBatches h.numVertices)).map (chunkedBatchRead h),
          .ok (mkReport (foldBox BoundingBox.empty
            ((List.range h.numVertices).map (chunkedVertexAt file h (chunkTableAt file h)))))⟩ := by
  unfold analyzeCompressedPly
  rw [hh]
  simp only [readChunks_eq rt file h ha, decodeChunked_eq]
  rfl

/-- A successful header check of `analyzeCompressedPly` ends in `RangeError`, before any
payload read, when the runtime does not allocate the chunk buffer. -/
theorem analyzeCompressedPly_alloc_fails (rt : Runtime) (file : List Nat) (h : ChunkedHeader)
    (hh : analyzeCompressedPlyHeader file = .ok h)
    (ha : rt.maxAlloc < h.numChunks * chunkElementSize) :
    analyzeCompressedPly rt file = ⟨[], .error .allocation⟩ := by
  unfold analyzeCompressedPly
  rw [hh]
  simp only [readChunks_alloc_fails rt file h ha]

/-- Every runtime allocates a buffer of at most `2^30 - 1` bytes. -/
theorem Runtime.allocates_small (rt : Runtime) (size : Nat) (h : size ≤ 2 ^ 30 - 1) :
    size ≤ rt.maxAlloc := le_trans h rt.lower

/-- No runtime allocates a buffer of `2^53` bytes or more. -/
theorem Runtime.refuses_large (rt : Runtime) (size : Nat) (h : 2 ^ 53 ≤ size) :
    rt.maxAlloc < size := by
  have := rt.upper
  omega

/-! ## The claims -/

/-- The three fields of a packed 32-bit word, by division and remainder. -/
theorem unpack111011_eq (v : Nat) (hv : v < 2 ^ 32) :
    unpack111011 v =
      { x := JsNum.fin ((((v / 2 ^ 21) % 2 ^ 11 : Nat) : ℚ) / 2047)
        y := JsNum.fin ((((v / 2 ^ 11) % 2 ^ 10 : Nat) : ℚ) / 1023)
        z := JsNum.fin (((v % 2 ^ 11 : Nat) : ℚ) / 2047) } := by
  have h11 : (1 <<< 11) - 1 = 2 ^ 11 - 1 := by decide
  have h10 : (1 <<< 10) - 1 = 2 ^ 10 - 1 := by decide
  simp only [unpack111011, unpackUnorm, ushr, h11, h10, Nat.and_pow_two_sub_one_eq_mod,
    Nat.shiftRight_eq_div_pow, Nat.mod_eq_of_lt hv]
  rw [JsNum.fin_div_fin _ _ (by norm_num), JsNum.fin_div_fin _ _ (by norm_num),
    JsNum.fin_div_fin _ _ (by norm_num)]
  norm_num

/-- C1: for every 32-bit word `w`, `unpack111011 w` has `x = ((w / 2^21) mod 2^11) / 2047`,
`y = ((w / 2^11) mod 2^10) / 1023` and `z = (w mod 2^11) / 2047`; and the word `0xFFE007FF`
dequantized with the chunk range `0 .. 10` on every axis is the position `(10, 0, 10)`. -/
theorem unpack111011_fields (w : Nat) (hw : w < 2 ^ 32) :
    unpack111011 w =
      { x := JsNum.fin ((((w / 2 ^ 21) % 2 ^ 11 : Nat) : ℚ) / 2047)
        y := JsNum.fin ((((w / 2 ^ 11) % 2 ^ 10 : Nat) : ℚ) / 1023)
        z := JsNum.fin (((w % 2 ^ 11 : Nat) : ℚ) / 2047) } ∧
    dequantize
        { min_x := [JsNum.fin 0], max_x := [JsNum.fin 10], min_y := [JsNum.fin 0],
          max_y := [JsNum.fin 10], min_z := [JsNum.fin 0], max_z := [JsNum.fin 10] }
        0 0xFFE007FF
      = ⟨JsNum.fin 10, JsNum.fin 0, JsNum.fin 10⟩ := by
  refine ⟨unpack111011_eq w hw, ?_⟩
  simp only [dequantize, unpack111011_eq 0xFFE007FF (by decide), arrayAt, List.getD_cons_zero,
    lerp, JsNum.ofNat_eq_fin, JsNum.fin_sub_fin, JsNum.fin_mul_fin, JsNum.fin_add_fin]
  norm_num

/-- Witness of C1 at the word `0xFFE007FF`. -/
theorem unpack111011_fields_witness :
    0xFFE007FF < 2 ^ 32 ∧
      unpack111011 0xFFE007FF =
        { x := JsNum.fin ((((0xFFE007FF / 2 ^ 21) % 2 ^ 11 : Nat) : ℚ) / 2047)
          y := JsNum.fin ((((0xFFE007FF / 2 ^ 11) % 2 ^ 10 : Nat) : ℚ) / 1023)
          z := JsNum.fin (((0xFFE007FF % 2 ^ 11 : Nat) : ℚ) / 2047) } :=
  ⟨by decide, (unpack111011_fields 0xFFE007FF (by decide)).1⟩

/-- C2: on finite values, `lerp(chunkMin, chunkMax, t) = chunkMin * (1 - t) + chunkMax * t`
equals `chunkMin + (chunkMax - chunkMin) * t` in exact arithmetic. -/
theorem lerp_eq_affine (chunkMin chunkMax t : ℚ) :
    lerp (JsNum.fin chunkMin) (JsNum.fin chunkMax) (JsNum.fin t)
      = JsNum.fin (chunkMin + (chunkMax - chunkMin) * t) := by
  simp only [lerp, JsNum.ofNat_eq_fin, JsNum.fin_sub_fin, JsNum.fin_mul_fin, JsNum.fin_add_fin]
  congr 1
  push_cast
  ring

/-- C3, as the claim states it, fails: the header of `hugeChunkFile` is a chunked header with
chunk count `10^15` and vertex count 1, and in every runtime `Buffer.alloc(72 * 10^15)` throws
before any payload read, so that no chunk bound is read and no vertex is decoded. -/
theorem huge_chunk_count_throws :
    analyzeCompressedPlyHeader hugeChunkFile = .ok ⟨1, 1000000000000000, 95⟩ ∧
    ∀ rt : Runtime,
      readChunks rt hugeChunkFile ⟨1, 1000000000000000, 95⟩ = ([], .error .allocation) ∧
      analyzeCompressedPly rt hugeChunkFile = ⟨[], .error .allocation⟩ := by
  have hh : analyzeCompressedPlyHeader hugeChunkFile = .ok ⟨1, 1000000000000000, 95⟩ := rfl
  refine ⟨hh, fun rt => ?_⟩
  have ha : rt.maxAlloc < (⟨1, 1000000000000000, 95⟩ : ChunkedHeader).numChunks
      * chunkElementSize := rt.refuses_large _ (by decide)
  exact ⟨readChunks_alloc_fails rt _ _ ha, analyzeCompressedPly_alloc_fails rt _ _ hh ha⟩

/-- C3, amended: for every chunked header whose chunk buffer of `72 * m` bytes the runtime
allocates, the chunk table is read from the 72-byte records at `headerSize + 72 * c` (first
six floats: `min_x, min_y, min_z, max_x, max_y, max_z`); the batches decode the vertex indices
`0 .. n-1` once each and in increasing order; vertex `g` takes its packed word from
`headerSize + 72 * m + 16 * g` and the bounds of chunk `g / 256`.  For a header whose chunk
buffer the runtime does not allocate, `Buffer.alloc` throws before any payload read and no
vertex is decoded. -/
theorem chunked_decoder_layout (rt : Runtime) (file : List Nat) (h : ChunkedHeader) :
    (h.numChunks * chunkElementSize ≤ rt.maxAlloc →
      ∃ c, readChunks rt file h = ([(h.headerSize, 72 * h.numChunks)], .ok c) ∧
        c.min_x = (List.range h.numChunks).map (fun k => floatAt file (h.headerSize + 72 * k)) ∧
        c.min_y = (List.range h.numChunks).map
          (fun k => floatAt file (h.headerSize + 72 * k + 4)) ∧
        c.min_z = (List.range h.numChunks).map
          (fun k => floatAt file (h.headerSize + 72 * k + 8)) ∧
        c.max_x = (List.range h.numChunks).map
          (fun k => floatAt file (h.headerSize + 72 * k + 12)) ∧
        c.max_y = (List.range h.numChunks).map
          (fun k => floatAt file (h.headerSize + 72 * k + 16)) ∧
        c.max_z = (List.range h.numChunks).map
          (fun k => floatAt file (h.headerSize + 72 * k + 20)) ∧
        (∀ batch, decodeChunkedBatch file h c batch
          = some ((List.range' (batch * batchSize)
                (min (batch * batchSize + batchSize) h.numVertices - batch * batchSize)).map
              (fun g => dequantizeDouble c (g / 256)
                (wordAt file (h.headerSize + 72 * h.numChunks + 16 * g))))) ∧
        decodeChunked file h c
          = ((List.range (totalBatches h.numVertices)).map (chunkedBatchRead h),
              some ((List.range h.numVertices).map
                (fun g => dequantizeDouble c (g / 256)
                  (wordAt file (h.headerSize + 72 * h.numChunks + 16 * g)))))) ∧
    (rt.maxAlloc < h.numChunks * chunkElementSize →
      readChunks rt file h = ([], .error .allocation) ∧
      (analyzeCompressedPlyHeader file = .ok h →
        analyzeCompressedPly rt file = ⟨[], .error .allocation⟩)) := by
  refine ⟨fun ha => ?_, fun ha => ?_⟩
  · refine ⟨chunkTableAt file h, ?_, rfl, rfl, rfl, rfl, rfl, rfl, fun batch => ?_, ?_⟩
    · rw [readChunks_eq rt file h ha, Nat.mul_comm 72]
      rfl
    · rw [decodeChunkedBatch_eq, List.range'_eq_map_range, List.map_map]
      rfl
    · rw [decodeChunked_eq]
      rfl
  · exact ⟨readChunks_alloc_fails rt file h ha,
      fun hh => analyzeCompressedPly_alloc_fails rt file h hh ha⟩

/-- Witness of C3 (amended): the header of the chunked scenario, one chunk and one vertex, in
the runtime with the largest limit; the chunk table is read in one read of 72 bytes at
offset 80. -/
theorem chunked_decoder_layout_witness :
    (⟨1, 1, 80⟩ : ChunkedHeader).numChunks * chunkElementSize ≤ largestRuntime.maxAlloc ∧
      ∃ c, readChunks largestRuntime exampleChunkedFile ⟨1, 1, 80⟩
        = ([(80, 72)], .ok c) :=
  ⟨by decide,
    let ⟨c, hc, _⟩ := (chunked_decoder_layout largestRuntime exampleChunkedFile ⟨1, 1, 80⟩).1
      (by decide)
    ⟨c, hc⟩⟩

/-- C4: after a successful flat header check the record stride is `4 * propertyCount`, the
indices used for `x`, `y`, `z` are their positions in the declared property order, every batch
decodes at most 10,000 consecutive vertices, the batches together decode the vertex indices
`0 .. n-1` once each and in increasing order, and the coordinates of vertex `g` are the floats
at `headerSize + g * stride + 4 * k`. -/
theorem flat_decoder_layout (file : List Nat) (h : FlatHeader)
    (hh : analyzePlyHeader file = .ok h) :
    h.vertexSize = 4 * h.properties.length ∧
    arrayIndexOf (lit "x") h.properties = some h.xIdx ∧
    arrayIndexOf (lit "y") h.properties = some h.yIdx ∧
    arrayIndexOf (lit "z") h.properties = some h.zIdx ∧
    (∀ batch,
      min (batch * batchSize + batchSize) h.numVertices - batch * batchSize ≤ 10000 ∧
      decodeFlatBatch file h batch
        = some ((List.range' (batch * batchSize)
              (min (batch * batchSize + batchSize) h.numVertices - batch * batchSize)).map
            (flatVertexAt file h))) ∧
    decodeFlat file h
      = ((List.range (totalBatches h.numVertices)).map (flatBatchRead h),
          some ((List.range h.numVertices).map (flatVertexAt file h))) ∧
    (∀ g, flatVertexAt file h g =
      { x := floatAt file (h.headerSize + g * h.vertexSize + 4 * h.xIdx)
        y := floatAt file (h.headerSize + g * h.vertexSize + 4 * h.yIdx)
        z := floatAt file (h.headerSize + g * h.vertexSize + 4 * h.zIdx) }) := by
  obtain ⟨_, _, _, _, _, _, hx, hy, hz, hv, _⟩ := analyzePlyHeader_ok file h hh
  obtain ⟨rx, ry, rz⟩ := analyzePlyHeader_inRange file h hh
  refine ⟨by omega, hx, hy, hz, fun batch => ⟨?_, ?_⟩, ?_, fun _ => rfl⟩
  · unfold batchSize; omega
  · rw [decodeFlatBatch_eq file h batch rx ry rz, List.range'_eq_map_range, List.map_map]
    rfl
  · rw [decodeFlat_eq file h rx ry rz]

/-- Witness of C4 on the flat scenario file. -/
theorem flat_decoder_layout_witness :
    analyzePlyHeader exampleFlatFile
        = .ok ⟨2, [lit "x", lit "y", lit "z"], 0, 1, 2, 12, 115⟩ ∧
      decodeFlat exampleFlatFile ⟨2, [lit "x", lit "y", lit "z"], 0, 1, 2, 12, 115⟩
        = ((List.range (totalBatches 2)).map
              (flatBatchRead ⟨2, [lit "x", lit "y", lit "z"], 0, 1, 2, 12, 115⟩),
            some ((List.range 2).map
              (flatVertexAt exampleFlatFile
                ⟨2, [lit "x", lit "y", lit "z"], 0, 1, 2, 12, 115⟩))) :=
  ⟨rfl, (flat_decoder_layout exampleFlatFile _ rfl).2.2.2.2.2.1⟩

/-- C5: for a non-empty sequence of positions without `NaN`, the folded box has on every axis
the least coordinate as minimum and the greatest as maximum (every position is inside, every
bound is attained); for `(1, 2, 3)` and `(-1, 0, 5)` the box is `x:[-1,1], y:[0,2], z:[3,5]`
and its centre is `(0, 1, 4)`. -/
theorem boundingBox_min_max (ps : List Vec3) (hne : ps ≠ [])
    (hnan : ∀ p ∈ ps, p.x ≠ JsNum.nan ∧ p.y ≠ JsNum.nan ∧ p.z ≠ JsNum.nan) :
    ((∀ p ∈ ps,
        (foldBox BoundingBox.empty ps).minX.le p.x = true ∧
        p.x.le (foldBox BoundingBox.empty ps).maxX = true ∧
        (foldBox BoundingBox.empty ps).minY.le p.y = true ∧
        p.y.le (foldBox BoundingBox.empty ps).maxY = true ∧
        (foldBox BoundingBox.empty ps).minZ.le p.z = true ∧
        p.z.le (foldBox BoundingBox.empty ps).maxZ = true) ∧
      (∃ p ∈ ps, p.x = (foldBox BoundingBox.empty ps).minX) ∧
      (∃ p ∈ ps, p.x = (foldBox BoundingBox.empty ps).maxX) ∧
      (∃ p ∈ ps, p.y = (foldBox BoundingBox.empty ps).minY) ∧
      (∃ p ∈ ps, p.y = (foldBox BoundingBox.empty ps).maxY) ∧
      (∃ p ∈ ps, p.z = (foldBox BoundingBox.empty ps).minZ) ∧
      (∃ p ∈ ps, p.z = (foldBox BoundingBox.empty ps).maxZ)) ∧
    foldBox BoundingBox.empty
        [⟨JsNum.fin 1, JsNum.fin 2, JsNum.fin 3⟩, ⟨JsNum.fin (-1), JsNum.fin 0, JsNum.fin 5⟩]
      = ⟨JsNum.fin (-1), JsNum.fin 1, JsNum.fin 0, JsNum.fin 2, JsNum.fin 3, JsNum.fin 5⟩ ∧
    (mkReport ⟨JsNum.fin (-1), JsNum.fin 1, JsNum.fin 0, JsNum.fin 2, JsNum.fin 3,
        JsNum.fin 5⟩).centerX = JsNum.fin 0 ∧
    (mkReport ⟨JsNum.fin (-1), JsNum.fin 1, JsNum.fin 0, JsNum.fin 2, JsNum.fin 3,
        JsNum.fin 5⟩).centerY = JsNum.fin 1 ∧
    (mkReport ⟨JsNum.fin (-1), JsNum.fin 1, JsNum.fin 0, JsNum.fin 2, JsNum.fin 3,
        JsNum.fin 5⟩).centerZ = JsNum.fin 4 := by
  refine ⟨foldBox_extremes ps hne hnan, ?_, ?_, ?_, ?_⟩
  · norm_num [foldBox, BoundingBox.update, BoundingBox.empty, stepMin_fin_fin, stepMax_fin_fin,
      stepMin_posInf_fin, stepMax_negInf_fin]
  · norm_num [mkReport, JsNum.fin_div_two]
  · norm_num [mkReport, JsNum.fin_div_two]
  · norm_num [mkReport, JsNum.fin_div_two]

/-- Witness of C5 on the two positions of the flat scenario. -/
theorem boundingBox_min_max_witness :
    ([⟨JsNum.fin 1, JsNum.fin 2, JsNum.fin 3⟩, ⟨JsNum.fin (-1), JsNum.fin 0, JsNum.fin 5⟩] :
        List Vec3) ≠ [] ∧
      ∃ p ∈ ([⟨JsNum.fin 1, JsNum.fin 2, JsNum.fin 3⟩,
          ⟨JsNum.fin (-1), JsNum.fin 0, JsNum.fin 5⟩] : List Vec3),
        p.x = (foldBox BoundingBox.empty
          [⟨JsNum.fin 1, JsNum.fin 2, JsNum.fin 3⟩,
            ⟨JsNum.fin (-1), JsNum.fin 0, JsNum.fin 5⟩]).minX :=
  ⟨by simp, (boundingBox_min_max _ (by simp) (by simp)).1.2.1⟩

/-- C6: for every split of a sequence of positions into contiguous batches, folding each batch
from the `(+Infinity, -Infinity)` state and combining the batch boxes by per-axis minimum and
maximum gives the box of the one-pass fold over the whole sequence; so does the program's own
scheme of carrying the running box from batch to batch. -/
theorem batch_partition_invariant (batches : List (List Vec3)) :
    (batches.map (foldBox BoundingBox.empty)).foldl BoundingBox.combine BoundingBox.empty
        = foldBox BoundingBox.empty batches.flatten ∧
      batches.foldl foldBox BoundingBox.empty = foldBox BoundingBox.empty batches.flatten := by
  refine ⟨foldl_combine_eq batches _, ?_⟩
  show _ = List.foldl BoundingBox.update _ _
  rw [List.foldl_flatten]
  rfl

/-- C7, as the claim states it, fails: a flat file with one vertex whose coordinates are `NaN`
is a non-empty input, and its report is the one of the empty box. -/
theorem nan_vertex_gives_empty_box :
    (∃ h, analyzePlyHeader nanFlatFile = .ok h ∧ h.numVertices = 1) ∧
      (analyzePly nanFlatFile).result = .ok (mkReport BoundingBox.empty) :=
  ⟨⟨_, rfl, rfl⟩, rfl⟩

/-- C7, amended: a header with vertex count 0 makes the flat analyzer, and the chunked
analyzer when the runtime allocates the chunk buffer of `72 * numChunks` bytes, report the box
with `min = +Infinity` and `max = -Infinity` on every axis (`max < min`); the report carries
it unchanged, with centre `NaN` and size `-Infinity` on every axis, and does not call it
centred at the origin; and no non-empty sequence of positions without `NaN` folds to this box,
since such a sequence ends with `min <= max` on every axis.  When the runtime does not
allocate the chunk buffer the chunked analyzer throws before any payload read and reports
nothing. -/
theorem empty_box_report :
    (∀ file h, analyzePlyHeader file = .ok h → h.numVertices = 0 →
      analyzePly file = ⟨[], .ok (mkReport BoundingBox.empty)⟩) ∧
    (∀ (rt : Runtime) file h, analyzeCompressedPlyHeader file = .ok h → h.numVertices = 0 →
      (h.numChunks * chunkElementSize ≤ rt.maxAlloc →
        analyzeCompressedPly rt file
          = ⟨[(h.headerSize, h.numChunks * 72)], .ok (mkReport BoundingBox.empty)⟩) ∧
      (rt.maxAlloc < h.numChunks * chunkElementSize →
        analyzeCompressedPly rt file = ⟨[], .error .allocation⟩)) ∧
    (mkReport BoundingBox.empty).box
      = ⟨JsNum.posInf, JsNum.negInf, JsNum.posInf, JsNum.negInf, JsNum.posInf, JsNum.negInf⟩ ∧
    JsNum.lt JsNum.negInf JsNum.posInf = true ∧
    (mkReport BoundingBox.empty).centerX = JsNum.nan ∧
    (mkReport BoundingBox.empty).centerY = JsNum.nan ∧
    (mkReport BoundingBox.empty).centerZ = JsNum.nan ∧
    (mkReport BoundingBox.empty).sizeX = JsNum.negInf ∧
    (mkReport BoundingBox.empty).sizeY = JsNum.negInf ∧
    (mkReport BoundingBox.empty).sizeZ = JsNum.negInf ∧
    (mkReport BoundingBox.empty).isCenteredAtOrigin = false ∧
    (∀ ps : List Vec3, ps ≠ [] →
      (∀ p ∈ ps, p.x ≠ JsNum.nan ∧ p.y ≠ JsNum.nan ∧ p.z ≠ JsNum.nan) →
      (foldBox BoundingBox.empty ps).minX.le (foldBox BoundingBox.empty ps).maxX = true ∧
      (foldBox BoundingBox.empty ps).minY.le (foldBox BoundingBox.empty ps).maxY = true ∧
      (foldBox BoundingBox.empty ps).minZ.le (foldBox BoundingBox.empty ps).maxZ = true ∧
      foldBox BoundingBox.empty ps ≠ BoundingBox.empty) := by
  refine ⟨analyzePly_zero,
    fun rt file h hh h0 => ⟨fun ha => analyzeCompressedPly_zero rt file h hh ha h0,
      fun ha => analyzeCompressedPly_alloc_fails rt file h hh ha⟩,
    rfl, rfl, rfl, rfl, rfl, rfl, rfl, rfl, rfl, ?_⟩
  intro ps hne hnan
  obtain ⟨w, hw⟩ := List.exists_mem_of_ne_nil ps hne
  obtain ⟨hall, -⟩ := foldBox_extremes ps hne hnan
  obtain ⟨a1, a2, a3, a4, a5, a6⟩ := hall w hw
  have hX := JsNum.le_trans_js _ _ _ a1 a2
  refine ⟨hX, JsNum.le_trans_js _ _ _ a3 a4, JsNum.le_trans_js _ _ _ a5 a6, ?_⟩
  intro he
  rw [he] at hX
  simp [BoundingBox.empty, JsNum.le] at hX

/-- Witness of C7 (amended) on a flat file declaring no vertex and on a one-vertex sequence. -/
theorem empty_box_report_witness :
    analyzePly emptyFlatFile = ⟨[], .ok (mkReport BoundingBox.empty)⟩ ∧
      foldBox BoundingBox.empty [⟨JsNum.fin 1, JsNum.fin 2, JsNum.fin 3⟩] ≠ BoundingBox.empty :=
  ⟨empty_box_report.1 emptyFlatFile _ rfl rfl,
    (empty_box_report.2.2.2.2.2.2.2.2.2.2.2 _ (by simp) (by simp)).2.2.2⟩

/-- C8, as the claim states it, fails: in the flat scenario written with `\r\n` line ends the
token starts at byte 110 and its line break is two bytes long, so the payload begins at byte
122, while `headerSize` is 121, the offset of the line feed that ends the terminator line. -/
theorem headerSize_crlf :
    indexOf (crlfFlatFile.take (128 * 1024)) (lit "end_header") = some 110 ∧
      payloadOffsetSpec crlfFlatFile = some 122 ∧
      (∃ h, analyzePlyHeader crlfFlatFile = .ok h ∧ h.headerSize = 121) ∧
      crlfFlatFile.getD 121 0 = 10 :=
  ⟨rfl, rfl, ⟨_, rfl, rfl⟩, rfl⟩

/-- C8, amended: when the bytes read are ASCII up to the end of the first `end_header`, which
starts at byte `i`, both analyzers compute `headerSize = i + 10 + 1`, the token length plus one
byte for the line break; when the line break after the token is one byte long this is the
offset the specification describes, the first byte after the terminator line. -/
theorem headerSize_ascii (file : List Nat) (i : Nat)
    (hi : indexOf (file.take (128 * 1024)) (lit "end_header") = some i)
    (hascii : ∀ b ∈ file.take (i + 10), b < 128) :
    (∀ h, analyzePlyHeader file = .ok h → h.headerSize = i + 10 + 1) ∧
    (∀ h, analyzeCompressedPlyHeader file = .ok h → h.headerSize = i + 10 + 1) ∧
    (lineBreakLength (file.drop (i + 10)) = 1 → payloadOffsetSpec file = some (i + 10 + 1)) := by
  have hT := indexOf_headerText_ascii file i hi hascii
  refine ⟨fun h hh => ?_, fun h hh => ?_, fun hb => ?_⟩
  · obtain ⟨headerEnd, _, hE, _, _, _, _, _, _, _, hs⟩ := analyzePlyHeader_ok file h hh
    rw [hT] at hE
    cases hE
    exact hs
  · obtain ⟨headerEnd, _, _, hE, _, _, _, _, hs⟩ := analyzeCompressedPlyHeader_ok file h hh
    rw [hT] at hE
    cases hE
    exact hs
  · have hlen : (lit "end_header").length = 10 := rfl
    simp [payloadOffsetSpec, hi, hlen, hb]

/-- Witness of C8 (amended) on the flat scenario file, whose token starts at byte 104. -/
theorem headerSize_ascii_witness :
    indexOf (exampleFlatFile.take (128 * 1024)) (lit "end_header") = some 104 ∧
      (∀ h, analyzePlyHeader exampleFlatFile = .ok h → h.headerSize = 104 + 10 + 1) ∧
      payloadOffsetSpec exampleFlatFile = some (104 + 10 + 1) :=
  ⟨rfl, (headerSize_ascii exampleFlatFile 104 rfl (by decide)).1,
    (headerSize_ascii exampleFlatFile 104 rfl (by decide)).2.2 rfl⟩

/-- C9: `analyzePly` ends without a report exactly when the header text has no `end_header`,
or the text before it has no `element vertex <digits>`, or one of `x`, `y`, `z` is not among
the declared float properties; it has then issued no payload read.  In every other case it
decodes all vertices and returns the report of their bounding box. -/
theorem analyzePly_fails_iff (file : List Nat) :
    ((∃ e, (analyzePly file).result = .error e) ↔
      (indexOf (headerTextOf file) (lit "end_header") = none ∨
        ∃ headerEnd, indexOf (headerTextOf file) (lit "end_header") = some headerEnd ∧
          (matchDigitsAfter (lit "element vertex ") ((headerTextOf file).take headerEnd) = none ∨
            lit "x" ∉ declaredProperties ((headerTextOf file).take headerEnd) ∨
            lit "y" ∉ declaredProperties ((headerTextOf file).take headerEnd) ∨
            lit "z" ∉ declaredProperties ((headerTextOf file).take headerEnd)))) ∧
    ((∃ e, (analyzePly file).result = .error e) → (analyzePly file).payloadReads = []) ∧
    ((¬ ∃ e, (analyzePly file).result = .error e) →
      ∃ h, analyzePlyHeader file = .ok h ∧
        analyzePly file
          = ⟨(List.range (totalBatches h.numVertices)).map (flatBatchRead h),
              .ok (mkReport (foldBox BoundingBox.empty
                ((List.range h.numVertices).map (flatVertexAt file h))))⟩) := by
  have herr : ∀ e, analyzePlyHeader file = .error e → analyzePly file = ⟨[], .error e⟩ := by
    intro e he
    unfold analyzePly
    rw [he]
  rcases analyzePlyHeader_cases file with ⟨hE, hr⟩ | ⟨headerEnd, hE, hV, hr⟩ |
    ⟨headerEnd, vm, hE, hV, hP, hr⟩ | ⟨headerEnd, vm, h, hE, hV, hx, hy, hz, hr⟩
  · have := herr _ hr
    refine ⟨⟨fun _ => Or.inl hE, fun _ => ⟨_, by rw [this]⟩⟩, fun _ => by rw [this], ?_⟩
    intro hn
    exact absurd ⟨_, by rw [this]⟩ hn
  · have := herr _ hr
    refine ⟨⟨fun _ => Or.inr ⟨headerEnd, hE, Or.inl hV⟩, fun _ => ⟨_, by rw [this]⟩⟩,
      fun _ => by rw [this], ?_⟩
    intro hn
    exact absurd ⟨_, by rw [this]⟩ hn
  · have := herr _ hr
    refine ⟨⟨fun _ => Or.inr ⟨headerEnd, hE, Or.inr hP⟩, fun _ => ⟨_, by rw [this]⟩⟩,
      fun _ => by rw [this], ?_⟩
    intro hn
    exact absurd ⟨_, by rw [this]⟩ hn
  · have hok := analyzePly_ok file h hr
    have hne : ¬ ∃ e, (analyzePly file).result = .error e := by
      rintro ⟨e, he⟩
      rw [hok] at he
      cases he
    refine ⟨⟨fun hex => absurd hex hne, ?_⟩, fun hex => absurd hex hne, fun _ => ⟨h, hr, hok⟩⟩
    rintro (hnone | ⟨headerEnd2, hE2, hbad⟩)
    · rw [hnone] at hE
      cases hE
    · rw [hE] at hE2
      cases hE2
      rcases hbad with hbad | hbad | hbad | hbad
      · rw [hV] at hbad
        cases hbad
      · exact absurd hx hbad
      · exact absurd hy hbad
      · exact absurd hz hbad

/-- Witness of C9: a file without `end_header` fails and reads no payload; the flat scenario
file is analysed to a report. -/
theorem analyzePly_fails_iff_witness :
    (analyzePly (lit "ply\nelement vertex 2\n")).payloadReads = [] ∧
      ∃ h, analyzePlyHeader exampleFlatFile = .ok h ∧
        analyzePly exampleFlatFile
          = ⟨(List.range (totalBatches h.numVertices)).map (flatBatchRead h),
              .ok (mkReport (foldBox BoundingBox.empty
                ((List.range h.numVertices).map (flatVertexAt exampleFlatFile h))))⟩ :=
  ⟨(analyzePly_fails_iff (lit "ply\nelement vertex 2\n")).2.1 ⟨_, rfl⟩,
    (analyzePly_fails_iff exampleFlatFile).2.2 (by
      rintro ⟨e, he⟩
      rw [analyzePly_ok exampleFlatFile _ rfl] at he
      cases he)⟩

/-- C10, as the claim states it, fails: the flat scenario header has a terminator and a vertex
element and no chunk element, and `analyzeCompressedPly` rejects it for lacking one; and a
header with a chunk element that also declares `x y z` is decoded by `analyzePly`. -/
theorem no_path_selection :
    (indexOf (headerTextOf exampleFlatFile) (lit "end_header") = some 104 ∧
      matchDigitsAfter (lit "element vertex ") ((headerTextOf exampleFlatFile).take 104)
        = some (lit "2") ∧
      matchDigitsAfter (lit "element chunk ") ((headerTextOf exampleFlatFile).take 104) = none ∧
      ∀ rt : Runtime, (analyzeCompressedPly rt exampleFlatFile).result = .error .notCompressed) ∧
    (indexOf (headerTextOf mixedFile) (lit "end_header") = some 150 ∧
      matchDigitsAfter (lit "element chunk ") ((headerTextOf mixedFile).take 150)
        = some (lit "1") ∧
      ∃ h, analyzePlyHeader mixedFile = .ok h ∧
        (analyzePly mixedFile).result
          = .ok (mkReport (foldBox BoundingBox.empty
              ((List.range h.numVertices).map (flatVertexAt mixedFile h))))) :=
  ⟨⟨rfl, rfl, rfl, fun _ => rfl⟩, rfl, rfl, _, rfl, by rw [analyzePly_ok mixedFile _ rfl]⟩

/-- C10, amended: the path is fixed by the analyzer that is run, not chosen from the header.
For a header with a terminator and a vertex element, `analyzeCompressedPly` records
`numChunks = M` from `element chunk <M>` and takes the chunked path when the header has such a
declaration (it ends with a report when the runtime allocates the chunk buffer of `72 * M`
bytes, and with `RangeError` before any payload read when it does not), and stops with
`notCompressed` when the header has none; `analyzePly` never looks for a chunk element: it
extracts the ordered `property float` list and decodes by the flat path when `x`, `y`, `z` are
among the names, and stops with `noXYZ` otherwise. -/
theorem analyzers_fixed_paths (rt : Runtime) (file : List Nat) (headerEnd : Nat)
    (vertexMatch : List Nat)
    (hE : indexOf (headerTextOf file) (lit "end_header") = some headerEnd)
    (hV : matchDigitsAfter (lit "element vertex ") ((headerTextOf file).take headerEnd)
      = some vertexMatch) :
    (∀ chunkMatch,
      matchDigitsAfter (lit "element chunk ") ((headerTextOf file).take headerEnd)
        = some chunkMatch →
      analyzeCompressedPlyHeader file
          = .ok ⟨parseInt vertexMatch, parseInt chunkMatch, headerEnd + 11⟩ ∧
        (parseInt chunkMatch * chunkElementSize ≤ rt.maxAlloc →
          ∃ r, (analyzeCompressedPly rt file).result = .ok r) ∧
        (rt.maxAlloc < parseInt chunkMatch * chunkElementSize →
          analyzeCompressedPly rt file = ⟨[], .error .allocation⟩)) ∧
    (matchDigitsAfter (lit "element chunk ") ((headerTextOf file).take headerEnd) = none →
      analyzeCompressedPly rt file = ⟨[], .error .notCompressed⟩) ∧
    (lit "x" ∈ declaredProperties ((headerTextOf file).take headerEnd) ∧
        lit "y" ∈ declaredProperties ((headerTextOf file).take headerEnd) ∧
        lit "z" ∈ declaredProperties ((headerTextOf file).take headerEnd) →
      ∃ h r, analyzePlyHeader file = .ok h ∧
        h.properties = declaredProperties ((headerTextOf file).take headerEnd) ∧
        (analyzePly file).result = .ok r) ∧
    (¬ (lit "x" ∈ declaredProperties ((headerTextOf file).take headerEnd) ∧
        lit "y" ∈ declaredProperties ((headerTextOf file).take headerEnd) ∧
        lit "z" ∈ declaredProperties ((headerTextOf file).take headerEnd)) →
      analyzePly file = ⟨[], .error .noXYZ⟩) := by
  refine ⟨fun chunkMatch hC => ?_, fun hC => ?_, fun hxyz => ?_, fun hxyz => ?_⟩
  · have hh : analyzeCompressedPlyHeader file
        = .ok ⟨parseInt vertexMatch, parseInt chunkMatch, headerEnd + 11⟩ := by
      unfold analyzeCompressedPlyHeader
      simp only [hE, hV, hC]
      rfl
    exact ⟨hh, fun ha => ⟨_, by rw [analyzeCompressedPly_ok rt file _ hh ha]⟩,
      fun ha => analyzeCompressedPly_alloc_fails rt file _ hh ha⟩
  · unfold analyzeCompressedPly analyzeCompressedPlyHeader
    simp only [hE, hV, hC]
  · rcases analyzePlyHeader_cases file with ⟨hE2, _⟩ | ⟨e2, hE2, hV2, _⟩ |
      ⟨e2, vm, hE2, hV2, hP, _⟩ | ⟨e2, vm, h, hE2, hV2, hx, hy, hz, hr⟩
    · rw [hE] at hE2; cases hE2
    · rw [hE] at hE2; cases hE2
      rw [hV] at hV2; cases hV2
    · rw [hE] at hE2; cases hE2
      rcases hP with hP | hP | hP
      · exact absurd hxyz.1 hP
      · exact absurd hxyz.2.1 hP
      · exact absurd hxyz.2.2 hP
    · rw [hE] at hE2; cases hE2
      obtain ⟨_, _, hE3, _, _, hprops, _⟩ := analyzePlyHeader_ok file h hr
      rw [hE] at hE3; cases hE3
      exact ⟨h, _, hr, hprops, by rw [analyzePly_ok file h hr]⟩
  · rcases analyzePlyHeader_cases file with ⟨hE2, _⟩ | ⟨e2, hE2, hV2, _⟩ |
      ⟨e2, vm, hE2, hV2, hP, hr⟩ | ⟨e2, vm, h, hE2, hV2, hx, hy, hz, hr⟩
    · rw [hE] at hE2; cases hE2
    · rw [hE] at hE2; cases hE2
      rw [hV] at hV2; cases hV2
    · unfold analyzePly
      rw [hr]
    · rw [hE] at hE2; cases hE2
      exact absurd ⟨hx, hy, hz⟩ hxyz

/-- Witness of C10 (amended) on the chunked scenario file. -/
theorem analyzers_fixed_paths_witness :
    indexOf (headerTextOf exampleChunkedFile) (lit "end_header") = some 69 ∧
      analyzeCompressedPlyHeader exampleChunkedFile
        = .ok ⟨parseInt (lit "1"), parseInt (lit "1"), 69 + 11⟩ ∧
      analyzePly exampleChunkedFile = ⟨[], .error .noXYZ⟩ :=
  ⟨rfl,
    ((analyzers_fixed_paths largestRuntime exampleChunkedFile 69 (lit "1") rfl rfl).1
      (lit "1") rfl).1,
    (analyzers_fixed_paths largestRuntime exampleChunkedFile 69 (lit "1") rfl rfl).2.2.2
      (by decide)⟩

/-! ## The two decoding scenarios, end to end -/

/-- The flat scenario end to end: the file with the vertices `(1, 2, 3)` and `(-1, 0, 5)` is
read in one batch of 24 bytes at offset 115 and reported with the box `x:[-1,1], y:[0,2],
z:[3,5]`. -/
theorem exampleFlatFile_analysis :
    analyzePly exampleFlatFile
      = ⟨[(115, 24)],
          .ok (mkReport ⟨JsNum.fin (-1), JsNum.fin 1, JsNum.fin 0, JsNum.fin 2, JsNum.fin 3,
            JsNum.fin 5⟩)⟩ := by
  have w0 : wordAt exampleFlatFile 115 = 0x3F800000 := by decide
  have w1 : wordAt exampleFlatFile 119 = 0x40000000 := by decide
  have w2 : wordAt exampleFlatFile 123 = 0x40400000 := by decide
  have w3 : wordAt exampleFlatFile 127 = 0xBF800000 := by decide
  have w4 : wordAt exampleFlatFile 131 = 0x00000000 := by decide
  have w5 : wordAt exampleFlatFile 135 = 0x40A00000 := by decide
  have f0 : float32OfBits 0x3F800000 = JsNum.fin 1 := by norm_num [float32OfBits]
  have f1 : float32OfBits 0x40000000 = JsNum.fin 2 := by norm_num [float32OfBits]
  have f2 : float32OfBits 0x40400000 = JsNum.fin 3 := by norm_num [float32OfBits]
  have f3 : float32OfBits 0xBF800000 = JsNum.fin (-1) := by norm_num [float32OfBits]
  have f4 : float32OfBits 0x00000000 = JsNum.fin 0 := by norm_num [float32OfBits]
  have f5 : float32OfBits 0x40A00000 = JsNum.fin 5 := by norm_num [float32OfBits]
  have hh : analyzePlyHeader exampleFlatFile
      = .ok ⟨2, [lit "x", lit "y", lit "z"], 0, 1, 2, 12, 115⟩ := rfl
  rw [analyzePly_ok exampleFlatFile _ hh]
  have hr : (List.range (totalBatches 2)).map
      (flatBatchRead ⟨2, [lit "x", lit "y", lit "z"], 0, 1, 2, 12, 115⟩) = [(115, 24)] := by
    decide
  have hp : (List.range 2).map
      (flatVertexAt exampleFlatFile ⟨2, [lit "x", lit "y", lit "z"], 0, 1, 2, 12, 115⟩)
      = [⟨JsNum.fin 1, JsNum.fin 2, JsNum.fin 3⟩, ⟨JsNum.fin (-1), JsNum.fin 0, JsNum.fin 5⟩] := by
    simp [List.range_succ, flatVertexAt, floatAt, w0, w1, w2, w3, w4, w5, f0, f1, f2, f3, f4, f5]
  simp only [hr, hp]
  norm_num [foldBox, BoundingBox.update, BoundingBox.empty, stepMin_fin_fin, stepMax_fin_fin,
    stepMin_posInf_fin, stepMax_negInf_fin]

/-- The chunk table of the chunked scenario file. -/
theorem exampleChunkedFile_table :
    chunkTableAt exampleChunkedFile ⟨1, 1, 80⟩ = exampleChunkArrays := by
  have w0 : wordAt exampleChunkedFile 80 = 0 := by decide
  have w1 : wordAt exampleChunkedFile 84 = 0 := by decide
  have w2 : wordAt exampleChunkedFile 88 = 0 := by decide
  have w3 : wordAt exampleChunkedFile 92 = 0x41200000 := by decide
  have w4 : wordAt exampleChunkedFile 96 = 0x41200000 := by decide
  have w5 : wordAt exampleChunkedFile 100 = 0x41200000 := by decide
  have f0 : float32OfBits 0 = JsNum.fin 0 := by norm_num [float32OfBits]
  have f1 : float32OfBits 0x41200000 = JsNum.fin 10 := by norm_num [float32OfBits]
  simp only [chunkTableAt, List.range_succ, List.range_zero, List.nil_append, List.map_cons,
    List.map_nil, floatAt, Nat.mul_zero, Nat.add_zero, w0, w1, w2, w3, w4, w5, f0, f1,
    exampleChunkArrays]

theorem roundDouble_ten : roundDouble 10 = JsNum.fin 10 := by
  have := roundDouble_natCast 10 (by norm_num)
  simpa using this

/-- The word `0xFFE007FF` has the fields 1, 0, 1 in the program's arithmetic. -/
theorem unpack111011Double_example :
    unpack111011Double 0xFFE007FF = ⟨JsNum.fin 1, JsNum.fin 0, JsNum.fin 1⟩ := by
  unfold unpack111011Double
  rw [unpackUnormDouble_ones _ 11 (Or.inr rfl) (by decide),
    unpackUnormDouble_zeros _ 10 (Or.inl rfl) (by decide),
    unpackUnormDouble_ones _ 11 (Or.inr rfl) (by decide)]

/-- The vertex of the chunked scenario in the program's arithmetic: `(10, 0, 10)`. -/
theorem dequantizeDouble_example :
    dequantizeDouble exampleChunkArrays 0 0xFFE007FF
      = ⟨JsNum.fin 10, JsNum.fin 0, JsNum.fin 10⟩ := by
  unfold dequantizeDouble
  rw [unpack111011Double_example]
  simp only [exampleChunkArrays, arrayAt, List.getD_cons_zero]
  rw [lerpDouble_one 0 10 roundDouble_ten, lerpDouble_zero 0 10 roundDouble_zero]

/-- The chunked scenario end to end, in every runtime: one chunk with range `0 .. 10`, one
vertex with packed word `0xFFE007FF`; the decoded position is `(10, 0, 10)`. -/
theorem exampleChunkedFile_analysis (rt : Runtime) :
    analyzeCompressedPly rt exampleChunkedFile
      = ⟨[(80, 72), (152, 16)],
          .ok (mkReport ⟨JsNum.fin 10, JsNum.fin 10, JsNum.fin 0, JsNum.fin 0, JsNum.fin 10,
            JsNum.fin 10⟩)⟩ := by
  have hh : analyzeCompressedPlyHeader exampleChunkedFile = .ok ⟨1, 1, 80⟩ := rfl
  have ha : (⟨1, 1, 80⟩ : ChunkedHeader).numChunks * chunkElementSize ≤ rt.maxAlloc :=
    rt.allocates_small _ (by decide)
  have wp : wordAt exampleChunkedFile 152 = 0xFFE007FF := by decide
  have hreads : (List.range (totalBatches 1)).map (chunkedBatchRead ⟨1, 1, 80⟩) = [(152, 16)] := by
    decide
  have hp : (List.range 1).map (chunkedVertexAt exampleChunkedFile ⟨1, 1, 80⟩ exampleChunkArrays)
      = [⟨JsNum.fin 10, JsNum.fin 0, JsNum.fin 10⟩] := by
    simp only [List.range_succ, List.range_zero, List.nil_append, List.map_cons, List.map_nil,
      chunkedVertexAt, Nat.mul_zero, Nat.add_zero, Nat.mul_one, wp, Nat.zero_div,
      dequantizeDouble_example]
  rw [analyzeCompressedPly_ok rt _ _ hh ha, exampleChunkedFile_table]
  simp only [ChunkedHeader.chunkDataOffset, chunkElementSize, hreads, hp]
  norm_num [foldBox, BoundingBox.update, BoundingBox.empty, stepMin_fin_fin, stepMax_fin_fin,
    stepMin_posInf_fin, stepMax_negInf_fin]

/-! ## Remarks on the limits of two claims -/

/-- Outside exact arithmetic the two forms of the interpolation differ: with both bounds
`+Infinity` the program's form gives `+Infinity` and the affine form gives `NaN`. -/
theorem lerp_infinite_bounds :
    lerp JsNum.posInf JsNum.posInf (JsNum.fin (1 / 2)) = JsNum.posInf ∧
      JsNum.posInf + (JsNum.posInf - JsNum.posInf) * JsNum.fin (1 / 2) = JsNum.nan := by
  constructor
  · show JsNum.add (JsNum.mul JsNum.posInf (JsNum.add (JsNum.fin ((1 : Nat) : ℚ))
      (JsNum.neg (JsNum.fin (1 / 2))))) (JsNum.mul JsNum.posInf (JsNum.fin (1 / 2))) = _
    norm_num [JsNum.add, JsNum.mul, JsNum.neg, JsNum.infTimes]
  · rfl

/-- A header with a character outside ASCII: `indexOf` counts UTF-16 code units, so
`headerSize` (128) is one less than the byte offset at which the payload begins (129). -/
theorem headerSize_non_ascii :
    indexOf (accentFlatFile.take (128 * 1024)) (lit "end_header") = some 118 ∧
      payloadOffsetSpec accentFlatFile = some 129 ∧
      ∃ h, analyzePlyHeader accentFlatFile = .ok h ∧ h.headerSize = 128 :=
  ⟨rfl, rfl, _, rfl, rfl⟩

/-! ## The orbit angles -/

/-- Unary minus on a finite value. -/
theorem JsNum.neg_fin (a : ℚ) : -(JsNum.fin a) = JsNum.fin (-a) := rfl

/-- The arc from `-s/2` to `s/2` spans `s`, also when `s` is infinite or `NaN`. -/
theorem swing_span (s : JsNum) : s / 2 - -(s / 2) = s := by
  cases s with
  | nan => rfl
  | negInf => rfl
  | posInf => rfl
  | fin q =>
      rw [JsNum.fin_div_two, JsNum.neg_fin, JsNum.fin_sub_fin]
      congr 1
      ring

/-- The loop runs `n` times when `options.frames` is the natural number `n`. -/
theorem loopCount_natCast (n : Nat) : loopCount (some (n : Int)) = n := by
  simp [loopCount]

/-- The frame of index `i` as the loop computes it, for a frame count `n >= 2`. -/
theorem orbitFrame_eq (m : JsMath) (options : Options) (n : Nat)
    (hf : options.frames = some (n : Int)) (i : Nat) :
    orbitFrame m options i =
      { index := i
        angleDeg := -(options.swingAngle / 2)
          + (JsNum.fin (i : ℚ) / JsNum.fin ((n : ℚ) - 1)) * options.swingAngle
        position :=
          ⟨options.radius * m.sin
              ((-(options.swingAngle / 2)
                + (JsNum.fin (i : ℚ) / JsNum.fin ((n : ℚ) - 1)) * options.swingAngle)
                * Math_PI / 180),
            0,
            options.radius * m.cos
              ((-(options.swingAngle / 2)
                + (JsNum.fin (i : ℚ) / JsNum.fin ((n : ℚ) - 1)) * options.swingAngle)
                * Math_PI / 180) - options.radius⟩
        rotation :=
          ⟨180,
            -(options.swingAngle / 2)
              + (JsNum.fin (i : ℚ) / JsNum.fin ((n : ℚ) - 1)) * options.swingAngle,
            180⟩ } := by
  have hnum : framesNumber options.frames - 1 = JsNum.fin ((n : ℚ) - 1) := by
    rw [hf]
    simp [framesNumber]
  simp only [orbitFrame, hnum, swing_span]

/-- The angle of frame `i` for a finite swing angle `s` and a frame count `n >= 2`. -/
theorem orbitFrame_angleDeg (m : JsMath) (options : Options) (n : Nat) (hn : 2 ≤ n)
    (hf : options.frames = some (n : Int)) (s : ℚ) (hs : options.swingAngle = JsNum.fin s)
    (i : Nat) :
    (orbitFrame m options i).angleDeg
      = JsNum.fin (-(s / 2) + ((i : ℚ) / ((n : ℚ) - 1)) * s) := by
  have hne : (n : ℚ) - 1 ≠ 0 := by
    have : (2 : ℚ) ≤ (n : ℚ) := by exact_mod_cast hn
    linarith
  rw [orbitFrame_eq m options n hf i, hs]
  simp only [JsNum.fin_div_two, JsNum.neg_fin, JsNum.fin_div_fin _ _ hne, JsNum.fin_mul_fin,
    JsNum.fin_add_fin]

/-- The frames of the loop for a frame count `n`. -/
theorem orbitFrames_eq (m : JsMath) (options : Options) (n : Nat)
    (hf : options.frames = some (n : Int)) :
    orbitFrames m options = (List.range n).map (orbitFrame m options) := by
  unfold orbitFrames
  rw [hf, loopCount_natCast]

/-- The angles of the frames for a finite swing angle `s` and a frame count `n >= 2`. -/
theorem orbitFrames_angles (m : JsMath) (options : Options) (n : Nat) (hn : 2 ≤ n)
    (hf : options.frames = some (n : Int)) (s : ℚ) (hs : options.swingAngle = JsNum.fin s) :
    (orbitFrames m options).map (·.angleDeg)
      = (List.range n).map
          (fun i : Nat => JsNum.fin (-(s / 2) + ((i : ℚ) / ((n : ℚ) - 1)) * s)) := by
  rw [orbitFrames_eq m options n hf, List.map_map]
  apply List.map_congr_left
  intro i _
  exact orbitFrame_angleDeg m options n hn hf s hs i

/-- With a frame count of 1 the only frame has the angle `NaN`: the loop divides 0 by 0. -/
theorem orbitFrame_one_frame (m : JsMath) (options : Options)
    (hf : options.frames = some 1) : (orbitFrame m options 0).angleDeg = JsNum.nan := by
  have hnum : framesNumber options.frames - 1 = JsNum.fin 0 := by
    rw [hf]
    simp [framesNumber]
  have hdiv : JsNum.fin ((0 : Nat) : ℚ) / JsNum.fin 0 = JsNum.nan := by
    show JsNum.div (JsNum.fin _) (JsNum.fin 0) = JsNum.nan
    simp [JsNum.div]
  have hmul : ∀ y : JsNum, JsNum.nan * y = JsNum.nan := fun y => by cases y <;> rfl
  have hadd : ∀ x : JsNum, x + JsNum.nan = JsNum.nan := fun x => by cases x <;> rfl
  simp only [orbitFrame, hnum, hdiv, hmul, hadd]

/-- The render loop never reads `options.startAngle`. -/
theorem orbitFrames_startAngle (m : JsMath) (options : Options) (a : JsNum) :
    orbitFrames m { options with startAngle := a } = orbitFrames m options := rfl

/-- The stand-in cosine is 1 at 0. -/
theorem smallAngleMath_cos_zero : smallAngleMath.cos (JsNum.fin 0) = JsNum.fin 1 := by
  show (1 : JsNum) - JsNum.fin 0 * JsNum.fin 0 / 2 = JsNum.fin 1
  rw [JsNum.fin_mul_fin, JsNum.fin_div_two, JsNum.ofNat_eq_fin, JsNum.fin_sub_fin]
  norm_num

/-! ## Option parsing -/

/-- `parseFloat` through the scanned literal. -/
theorem parseFloat_of_scan (value : List Nat) (l : NumLit) (h : scanFloat value = l) :
    parseFloat value = l.toJsNum := by
  rw [parseFloat, h]

/-- A non-negative integer literal. -/
theorem toJsNum_dec_nat (k : Nat) : (NumLit.dec false k 0).toJsNum = JsNum.fin (k : ℚ) := by
  simp [NumLit.toJsNum]

/-- A negative integer literal. -/
theorem toJsNum_dec_neg (k : Nat) : (NumLit.dec true k 0).toJsNum = JsNum.fin (-(k : ℚ)) := by
  simp [NumLit.toJsNum]

/-- `parseNumber` returns what `parseFloat` reads unless that is `NaN`. -/
theorem parseNumber_ok (value name : List Nat) (x : JsNum) (hx : parseFloat value = x)
    (hn : x ≠ JsNum.nan) : parseNumber value name = .ok x := by
  unfold parseNumber
  simp only [hx]
  rw [if_neg hn]

/-- `parseNumber` fails exactly on `NaN`. -/
theorem parseNumber_error_iff (value name : List Nat) :
    (∃ e, parseNumber value name = .error e) ↔ parseFloat value = JsNum.nan := by
  unfold parseNumber
  by_cases h : parseFloat value = JsNum.nan
  · simp [h]
  · simp [h]

/-- The default target parses to the origin. -/
theorem parseVec3_default : parseVec3 defaultTarget = .ok [JsNum.fin 0, JsNum.fin 0, JsNum.fin 0] := by
  have hsplit : splitAtSep 44 defaultTarget = [lit "0", lit "0", lit "0"] := by decide
  have htrim : trim (lit "0") = lit "0" := by decide
  have hp : parseFloat (lit "0") = JsNum.fin 0 := by
    rw [parseFloat_of_scan _ _ (show scanFloat (lit "0") = NumLit.dec false 0 0 by decide),
      toJsNum_dec_nat]
    simp
  unfold parseVec3
  simp [hsplit, htrim, hp]

/-- When no check fails, `parseOptions` returns the parsed values. -/
theorem parseOptions_ok (args : CliArgs) (hh : args.help = false) (hp : args.positionals ≠ [])
    (radius fov startAngle swingAngle : JsNum) (target : List JsNum)
    (hr : parseNumber (args.radius.getD defaultRadius) (lit "radius") = .ok radius)
    (hfov : parseNumber (args.fov.getD defaultFov) (lit "fov") = .ok fov)
    (ht : parseVec3 (args.target.getD defaultTarget) = .ok target)
    (hsa : parseNumber (args.startAngle.getD defaultStartAngle) (lit "start-angle")
      = .ok startAngle)
    (hsw : parseNumber (args.swingAngle.getD defaultSwingAngle) (lit "swing-angle")
      = .ok swingAngle) :
    parseOptions args = .ok
      { inputFile := args.positionals.headD []
        outputDir := args.output.getD defaultOutput
        frames := parseInt10 (args.frames.getD defaultFrames)
        radius := radius
        width := parseInt10 (args.width.getD defaultWidth)
        height := parseInt10 (args.imgHeight.getD defaultImgHeight)
        fov := fov
        target := target
        startAngle := startAngle
        swingAngle := swingAngle
        cleanup := args.cleanup
        quiet := args.quiet } := by
  have hlen : ¬ args.positionals.length = 0 := by
    intro h
    exact hp (List.length_eq_zero.mp h)
  unfold parseOptions
  simp only [hh, hlen, hr, hfov, ht, hsa, hsw]
  rfl

/-- `parseOptions` stops exactly for `--help`, a missing input file, a radius, field of view,
start angle or swing angle that `parseFloat` reads as `NaN`, or a target that is not three
numbers.  Neither the sign of the radius nor the frame count is looked at. -/
theorem parseOptions_error_iff (args : CliArgs) :
    (∃ e, parseOptions args = .error e) ↔
      (args.help = true ∨ args.positionals = [] ∨
        parseFloat (args.radius.getD defaultRadius) = JsNum.nan ∨
        parseFloat (args.fov.getD defaultFov) = JsNum.nan ∨
        (∃ e, parseVec3 (args.target.getD defaultTarget) = .error e) ∨
        parseFloat (args.startAngle.getD defaultStartAngle) = JsNum.nan ∨
        parseFloat (args.swingAngle.getD defaultSwingAngle) = JsNum.nan) := by
  by_cases hh : args.help = true
  · simp [parseOptions, hh]
  by_cases hp : args.positionals = []
  · simp [parseOptions, hp]
  have hh' : args.help = false := by simpa using hh
  cases hr : parseNumber (args.radius.getD defaultRadius) (lit "radius") with
  | error e =>
      have := (parseNumber_error_iff _ _).mp ⟨e, hr⟩
      have hlen : ¬ args.positionals.length = 0 := fun h => hp (List.length_eq_zero.mp h)
      constructor
      · intro _; exact Or.inr (Or.inr (Or.inl this))
      · intro _
        refine ⟨e, ?_⟩
        unfold parseOptions
        simp only [hh', hlen, hr]
        rfl
  | ok radius =>
    have nr : ¬ parseFloat (args.radius.getD defaultRadius) = JsNum.nan := fun h => by
      obtain ⟨e, he⟩ := (parseNumber_error_iff _ (lit "radius")).mpr h
      rw [hr] at he; cases he
    cases hfov : parseNumber (args.fov.getD defaultFov) (lit "fov") with
    | error e =>
        have := (parseNumber_error_iff _ _).mp ⟨e, hfov⟩
        have hlen : ¬ args.positionals.length = 0 := fun h => hp (List.length_eq_zero.mp h)
        constructor
        · intro _; exact Or.inr (Or.inr (Or.inr (Or.inl this)))
        · intro _
          refine ⟨e, ?_⟩
          unfold parseOptions
          simp only [hh', hlen, hr, hfov]
          rfl
    | ok fov =>
      have nf : ¬ parseFloat (args.fov.getD defaultFov) = JsNum.nan := fun h => by
        obtain ⟨e, he⟩ := (parseNumber_error_iff _ (lit "fov")).mpr h
        rw [hfov] at he; cases he
      cases ht : parseVec3 (args.target.getD defaultTarget) with
      | error e =>
          have hlen : ¬ args.positionals.length = 0 := fun h => hp (List.length_eq_zero.mp h)
          constructor
          · intro _; exact Or.inr (Or.inr (Or.inr (Or.inr (Or.inl ⟨e, rfl⟩))))
          · intro _
            refine ⟨e, ?_⟩
            unfold parseOptions
            simp only [hh', hlen, hr, hfov, ht]
            rfl
      | ok target =>
        cases hsa : parseNumber (args.startAngle.getD defaultStartAngle) (lit "start-angle") with
        | error e =>
            have := (parseNumber_error_iff _ _).mp ⟨e, hsa⟩
            have hlen : ¬ args.positionals.length = 0 := fun h => hp (List.length_eq_zero.mp h)
            constructor
            · intro _; exact Or.inr (Or.inr (Or.inr (Or.inr (Or.inr (Or.inl this)))))
            · intro _
              refine ⟨e, ?_⟩
              unfold parseOptions
              simp only [hh', hlen, hr, hfov, ht, hsa]
              rfl
        | ok startAngle =>
          have ns : ¬ parseFloat (args.startAngle.getD defaultStartAngle) = JsNum.nan :=
            fun h => by
              obtain ⟨e, he⟩ := (parseNumber_error_iff _ (lit "start-angle")).mpr h
              rw [hsa] at he; cases he
          cases hsw : parseNumber (args.swingAngle.getD defaultSwingAngle)
              (lit "swing-angle") with
          | error e =>
              have := (parseNumber_error_iff _ _).mp ⟨e, hsw⟩
              have hlen : ¬ args.positionals.length = 0 :=
                fun h => hp (List.length_eq_zero.mp h)
              constructor
              · intro _; exact Or.inr (Or.inr (Or.inr (Or.inr (Or.inr (Or.inr this)))))
              · intro _
                refine ⟨e, ?_⟩
                unfold parseOptions
                simp only [hh', hlen, hr, hfov, ht, hsa, hsw]
                rfl
          | ok swingAngle =>
              have nw : ¬ parseFloat (args.swingAngle.getD defaultSwingAngle) = JsNum.nan :=
                fun h => by
                  obtain ⟨e, he⟩ := (parseNumber_error_iff _ (lit "swing-angle")).mpr h
                  rw [hsw] at he; cases he
              have hok := parseOptions_ok args hh' hp radius fov startAngle swingAngle target
                hr hfov ht hsa hsw
              constructor
              · rintro ⟨e, he⟩
                rw [hok] at he; cases he
              · rintro (h | h | h | h | ⟨e, h⟩ | h | h)
                · exact absurd h hh
                · exact absurd h hp
                · exact absurd h nr
                · exact absurd h nf
                · cases h
                · exact absurd h ns
                · exact absurd h nw

/-- C11: for every frame count `n >= 2`, radius and swing angle, the render loop produces `n`
poses with the indices `0 .. n-1` in order, and pose `i` is the one of the specification:
`angleDeg = -s/2 + (i / (n - 1)) * s`, position `(r sin a, 0, r cos a - r)` with
`a = angleDeg * pi / 180`, rotation `(180, angleDeg, 180)`; for 3 frames, radius 5 and swing 30
the angles are `-15, 0, 15`, and the frame at angle 0 is at `(0, 0, 0)` since `sin 0 = 0` and
`cos 0 = 1`. -/
theorem orbit_poses (m : JsMath) (options : Options) (n : Nat) (hn : 2 ≤ n)
    (hf : options.frames = some (n : Int)) :
    (orbitFrames m options).length = n ∧
    (orbitFrames m options).map (·.index) = List.range n ∧
    orbitFrames m options
      = (List.range n).map (specFrame m options.radius options.swingAngle n) ∧
    (∀ s : ℚ, options.swingAngle = JsNum.fin s →
      (orbitFrames m options).map (·.angleDeg)
        = (List.range n).map
            (fun i : Nat => JsNum.fin (-(s / 2) + ((i : ℚ) / ((n : ℚ) - 1)) * s))) ∧
    (n = 3 → options.radius = JsNum.fin 5 → options.swingAngle = JsNum.fin 30 →
      m.sin (JsNum.fin 0) = JsNum.fin 0 → m.cos (JsNum.fin 0) = JsNum.fin 1 →
      (orbitFrames m options).map (·.angleDeg) = [JsNum.fin (-15), JsNum.fin 0, JsNum.fin 15] ∧
        (orbitFrames m options).map (·.position)
          = [⟨JsNum.fin 5 * m.sin (JsNum.fin (-15) * Math_PI / 180), JsNum.fin 0,
                JsNum.fin 5 * m.cos (JsNum.fin (-15) * Math_PI / 180) - JsNum.fin 5⟩,
              ⟨JsNum.fin 0, JsNum.fin 0, JsNum.fin 0⟩,
              ⟨JsNum.fin 5 * m.sin (JsNum.fin 15 * Math_PI / 180), JsNum.fin 0,
                JsNum.fin 5 * m.cos (JsNum.fin 15 * Math_PI / 180) - JsNum.fin 5⟩]) := by
  have hall : orbitFrames m options
      = (List.range n).map (specFrame m options.radius options.swingAngle n) := by
    rw [orbitFrames_eq m options n hf]
    apply List.map_congr_left
    intro i _
    rw [orbitFrame_eq m options n hf i]
    rfl
  have hang := orbitFrames_angles m options n hn hf
  refine ⟨by rw [hall]; simp, by rw [hall, List.map_map]; simp [Function.comp_def, specFrame],
    hall, hang, ?_⟩
  intro h3 hr hs hsin hcos
  subst h3
  have ha := hang 30 hs
  have hang3 : (orbitFrames m options).map (·.angleDeg)
      = [JsNum.fin (-15), JsNum.fin 0, JsNum.fin 15] := by
    rw [ha]
    norm_num [List.range_succ]
  refine ⟨hang3, ?_⟩
  have hz : JsNum.fin 0 * Math_PI / 180 = JsNum.fin 0 := by
    simp only [Math_PI, JsNum.fin_mul_fin, JsNum.ofNat_eq_fin]
    rw [JsNum.fin_div_fin _ _ (by norm_num)]
    norm_num
  have e0 : -(JsNum.fin 30 / 2) + JsNum.fin ((0 : Nat) : ℚ) / JsNum.fin (((3 : Nat) : ℚ) - 1) * JsNum.fin 30
      = JsNum.fin (-15) := by
    rw [JsNum.fin_div_two, JsNum.neg_fin, JsNum.fin_div_fin _ _ (by norm_num)]
    norm_num
  have e1 : -(JsNum.fin 30 / 2) + JsNum.fin ((1 : Nat) : ℚ) / JsNum.fin (((3 : Nat) : ℚ) - 1) * JsNum.fin 30
      = JsNum.fin 0 := by
    rw [JsNum.fin_div_two, JsNum.neg_fin, JsNum.fin_div_fin _ _ (by norm_num)]
    norm_num
  have e2 : -(JsNum.fin 30 / 2) + JsNum.fin ((2 : Nat) : ℚ) / JsNum.fin (((3 : Nat) : ℚ) - 1) * JsNum.fin 30
      = JsNum.fin 15 := by
    rw [JsNum.fin_div_two, JsNum.neg_fin, JsNum.fin_div_fin _ _ (by norm_num)]
    norm_num
  rw [hall, hr, hs]
  simp only [List.range_succ, List.range_zero, List.nil_append, List.cons_append, List.map_cons,
    List.map_nil, specFrame, e0, e1, e2, hz, hsin, hcos]
  simp only [JsNum.ofNat_eq_fin, JsNum.fin_mul_fin, JsNum.fin_sub_fin]
  norm_num

/-- Witness of C11 on `node index.mjs input.ply -f 3 -r 5` with the small-angle stand-in for
sine and cosine. -/
theorem orbit_poses_witness :
    (2 : Nat) ≤ 3 ∧ threeFrameOptions.frames = some ((3 : Nat) : Int) ∧
      (orbitFrames smallAngleMath threeFrameOptions).map (·.angleDeg)
        = [JsNum.fin (-15), JsNum.fin 0, JsNum.fin 15] :=
  ⟨by decide, rfl,
    ((orbit_poses smallAngleMath threeFrameOptions 3 (by decide) rfl).2.2.2.2 rfl rfl rfl rfl
      smallAngleMath_cos_zero).1⟩

/-- The parsed default numbers: `'2'`, `'50'`, `'0'`, `'30'`. -/
theorem parseFloat_defaults :
    parseFloat defaultRadius = JsNum.fin 2 ∧ parseFloat defaultFov = JsNum.fin 50 ∧
      parseFloat defaultStartAngle = JsNum.fin 0 ∧ parseFloat defaultSwingAngle = JsNum.fin 30 := by
  refine ⟨?_, ?_, ?_, ?_⟩
  · rw [parseFloat_of_scan _ _ (show scanFloat defaultRadius = NumLit.dec false 2 0 by decide),
      toJsNum_dec_nat]
    norm_num
  · rw [parseFloat_of_scan _ _ (show scanFloat defaultFov = NumLit.dec false 50 0 by decide),
      toJsNum_dec_nat]
    norm_num
  · rw [parseFloat_of_scan _ _ (show scanFloat defaultStartAngle = NumLit.dec false 0 0 by decide),
      toJsNum_dec_nat]
    norm_num
  · rw [parseFloat_of_scan _ _ (show scanFloat defaultSwingAngle = NumLit.dec false 30 0 by decide),
      toJsNum_dec_nat]
    norm_num

/-- `parseOptions` on a command line that gives at most `-f` and leaves the other numbers to
their defaults. -/
theorem parseOptions_frames_only (frames : Option (List Nat)) :
    parseOptions { bareArgs with frames := frames } = .ok
      { inputFile := lit "input.ply"
        outputDir := lit "./frames"
        frames := parseInt10 (frames.getD defaultFrames)
        radius := JsNum.fin 2
        width := some 1920
        height := some 1080
        fov := JsNum.fin 50
        target := [JsNum.fin 0, JsNum.fin 0, JsNum.fin 0]
        startAngle := JsNum.fin 0
        swingAngle := JsNum.fin 30
        cleanup := false
        quiet := false } := by
  obtain ⟨h2, h50, h0, h30⟩ := parseFloat_defaults
  rw [parseOptions_ok { bareArgs with frames := frames } rfl (by simp [bareArgs])
    (JsNum.fin 2) (JsNum.fin 50) (JsNum.fin 0) (JsNum.fin 30)
    [JsNum.fin 0, JsNum.fin 0, JsNum.fin 0]
    (parseNumber_ok _ _ _ h2 (by simp)) (parseNumber_ok _ _ _ h50 (by simp)) parseVec3_default
    (parseNumber_ok _ _ _ h0 (by simp)) (parseNumber_ok _ _ _ h30 (by simp))]
  rfl

/-- C12: for every frame count `n >= 2` and every finite swing angle `s`, the first frame has
`angleDeg = -s/2` and the last frame, of index `n - 1`, has `angleDeg = s/2`, exactly. -/
theorem orbit_endpoints (m : JsMath) (options : Options) (n : Nat) (hn : 2 ≤ n)
    (hf : options.frames = some (n : Int)) (s : ℚ) (hs : options.swingAngle = JsNum.fin s) :
    ((orbitFrames m options)[0]?).map (·.angleDeg) = some (JsNum.fin (-(s / 2))) ∧
    ((orbitFrames m options)[n - 1]?).map (·.angleDeg) = some (JsNum.fin (s / 2)) ∧
    ((orbitFrames m options).getLast?).map (·.angleDeg) = some (JsNum.fin (s / 2)) := by
  have hne : (n : ℚ) - 1 ≠ 0 := by
    have : (2 : ℚ) ≤ (n : ℚ) := by exact_mod_cast hn
    linarith
  have hlen : (orbitFrames m options).length = n := by
    rw [orbitFrames_eq m options n hf]
    simp
  have hfirst : ((orbitFrames m options)[0]?).map (·.angleDeg) = some (JsNum.fin (-(s / 2))) := by
    rw [orbitFrames_eq m options n hf, List.getElem?_map, List.getElem?_range (by omega)]
    simp only [Option.map_some']
    rw [orbitFrame_angleDeg m options n hn hf s hs 0]
    congr 2
    simp
  have hlast : ((orbitFrames m options)[n - 1]?).map (·.angleDeg) = some (JsNum.fin (s / 2)) := by
    rw [orbitFrames_eq m options n hf, List.getElem?_map, List.getElem?_range (by omega)]
    simp only [Option.map_some']
    rw [orbitFrame_angleDeg m options n hn hf s hs (n - 1)]
    congr 2
    have hc : ((n - 1 : Nat) : ℚ) = (n : ℚ) - 1 := by
      rw [Nat.cast_sub (by omega)]
      simp
    rw [hc, div_self hne]
    ring
  refine ⟨hfirst, hlast, ?_⟩
  rw [List.getLast?_eq_getElem?, hlen]
  exact hlast

/-- Witness of C12 on three frames with the default swing angle 30. -/
theorem orbit_endpoints_witness :
    (2 : Nat) ≤ 3 ∧ threeFrameOptions.frames = some ((3 : Nat) : Int) ∧
      threeFrameOptions.swingAngle = JsNum.fin 30 ∧
      ((orbitFrames smallAngleMath threeFrameOptions)[0]?).map (·.angleDeg)
        = some (JsNum.fin (-(30 / 2))) :=
  ⟨by decide, rfl, rfl, (orbit_endpoints smallAngleMath threeFrameOptions 3 (by decide) rfl 30 rfl).1⟩

/-- Numbers read from the option strings of the example command lines. -/
theorem parseFloat_examples :
    parseFloat (lit "-30") = JsNum.fin (-30) ∧ parseFloat (lit "45") = JsNum.fin 45 ∧
      parseFloat (lit "-1") = JsNum.fin (-1) ∧ parseFloat (lit "0") = JsNum.fin 0 ∧
      parseFloat (lit "5") = JsNum.fin 5 := by
  refine ⟨?_, ?_, ?_, ?_, ?_⟩
  · rw [parseFloat_of_scan _ _ (show scanFloat (lit "-30") = NumLit.dec true 30 0 by decide),
      toJsNum_dec_neg]
    norm_num
  · rw [parseFloat_of_scan _ _ (show scanFloat (lit "45") = NumLit.dec false 45 0 by decide),
      toJsNum_dec_nat]
    norm_num
  · rw [parseFloat_of_scan _ _ (show scanFloat (lit "-1") = NumLit.dec true 1 0 by decide),
      toJsNum_dec_neg]
    norm_num
  · rw [parseFloat_of_scan _ _ (show scanFloat (lit "0") = NumLit.dec false 0 0 by decide),
      toJsNum_dec_nat]
    norm_num
  · rw [parseFloat_of_scan _ _ (show scanFloat (lit "5") = NumLit.dec false 5 0 by decide),
      toJsNum_dec_nat]
    norm_num

/-- `parseOptions` on a command line that gives `-f`, `-r`, `--start-angle` and
`--swing-angle` as numbers and leaves the rest to the defaults. -/
theorem parseOptions_numbers (frames radius startAngle swingAngle : Option (List Nat))
    (r a s : JsNum) (hr : parseFloat (radius.getD defaultRadius) = r) (hrn : r ≠ JsNum.nan)
    (ha : parseFloat (startAngle.getD defaultStartAngle) = a) (han : a ≠ JsNum.nan)
    (hs : parseFloat (swingAngle.getD defaultSwingAngle) = s) (hsn : s ≠ JsNum.nan) :
    parseOptions
        { bareArgs with
          frames := frames, radius := radius, startAngle := startAngle, swingAngle := swingAngle }
      = .ok
      { inputFile := lit "input.ply"
        outputDir := lit "./frames"
        frames := parseInt10 (frames.getD defaultFrames)
        radius := r
        width := some 1920
        height := some 1080
        fov := JsNum.fin 50
        target := [JsNum.fin 0, JsNum.fin 0, JsNum.fin 0]
        startAngle := a
        swingAngle := s
        cleanup := false
        quiet := false } := by
  obtain ⟨_, h50, _, _⟩ := parseFloat_defaults
  rw [parseOptions_ok
    { bareArgs with
      frames := frames, radius := radius, startAngle := startAngle, swingAngle := swingAngle }
    rfl (by simp [bareArgs]) r (JsNum.fin 50) a s
    [JsNum.fin 0, JsNum.fin 0, JsNum.fin 0]
    (parseNumber_ok _ _ _ hr hrn) (parseNumber_ok _ _ _ h50 (by simp)) parseVec3_default
    (parseNumber_ok _ _ _ ha han) (parseNumber_ok _ _ _ hs hsn)]
  rfl

/-- C13, as the claim states it, fails: the program accepts `--swing-angle=-30`, and with two
frames the angles are then `15, -15`; it accepts `-f 1`, and the angle of the only frame is
then `NaN`, which is not `<=` itself. -/
theorem swing_not_monotone :
    (∃ options, parseOptions negativeSwingArgs = .ok options ∧
      ∀ m, (orbitFrames m options).map (·.angleDeg) = [JsNum.fin 15, JsNum.fin (-15)]) ∧
    JsNum.le (JsNum.fin 15) (JsNum.fin (-15)) = false ∧
    (∃ options, parseOptions oneFrameArgs = .ok options ∧
      ∀ m, (orbitFrames m options).map (·.angleDeg) = [JsNum.nan]) ∧
    JsNum.le JsNum.nan JsNum.nan = false := by
  obtain ⟨h2, _, h0, h30⟩ := parseFloat_defaults
  obtain ⟨hm30, _, _, _, _⟩ := parseFloat_examples
  refine ⟨⟨_, parseOptions_numbers (some (lit "2")) none none (some (lit "-30")) _ _ _ h2
      (by simp) h0 (by simp) hm30 (by simp), fun m => ?_⟩, by simp [JsNum.le],
    ⟨_, parseOptions_numbers (some (lit "1")) none none none _ _ _ h2 (by simp) h0 (by simp) h30
      (by simp), fun m => ?_⟩, rfl⟩
  · rw [orbitFrames_angles m _ 2 (by decide) rfl (-30) rfl]
    norm_num [List.range_succ]
  · have hone : orbitFrames m
        { inputFile := lit "input.ply", outputDir := lit "./frames",
          frames := parseInt10 ((some (lit "1")).getD defaultFrames), radius := JsNum.fin 2,
          width := some 1920, height := some 1080, fov := JsNum.fin 50,
          target := [JsNum.fin 0, JsNum.fin 0, JsNum.fin 0], startAngle := JsNum.fin 0,
          swingAngle := JsNum.fin 30, cleanup := false, quiet := false }
        = [orbitFrame m _ 0] := rfl
    rw [hone, List.map_cons, List.map_nil, orbitFrame_one_frame m _ rfl]

/-- C13, amended: for every finite swing angle `s >= 0` and every frame count other than 1,
`angleDeg` is non-decreasing in the frame index. -/
theorem angle_monotone (m : JsMath) (options : Options) (s : ℚ)
    (hs : options.swingAngle = JsNum.fin s) (h0 : 0 ≤ s) (hf : options.frames ≠ some 1)
    (i j : Nat) (hij : i ≤ j) (fi fj : OrbitFrame)
    (hi : (orbitFrames m options)[i]? = some fi) (hj : (orbitFrames m options)[j]? = some fj) :
    fi.angleDeg.le fj.angleDeg = true := by
  have hjlt : j < loopCount options.frames := by
    have := List.getElem?_eq_some_iff.mp hj
    obtain ⟨h, _⟩ := this
    simpa [orbitFrames] using h
  cases hfr : options.frames with
  | none => rw [hfr] at hjlt; simp [loopCount] at hjlt
  | some k =>
    rw [hfr] at hjlt hf
    have hk1 : k ≠ 1 := fun h => hf (by rw [h])
    have hjk : j < k.toNat := hjlt
    have hk2 : 2 ≤ k.toNat := by omega
    have hkn : k = ((k.toNat : Nat) : Int) := by omega
    rw [hkn] at hfr
    have hfi : fi = orbitFrame m options i := by
      rw [orbitFrames_eq m options _ hfr, List.getElem?_map,
        List.getElem?_range (by omega)] at hi
      simpa using hi.symm
    have hfj : fj = orbitFrame m options j := by
      rw [orbitFrames_eq m options _ hfr, List.getElem?_map, List.getElem?_range hjk] at hj
      simpa using hj.symm
    rw [hfi, hfj, orbitFrame_angleDeg m options _ hk2 hfr s hs i,
      orbitFrame_angleDeg m options _ hk2 hfr s hs j]
    have hpos : (0 : ℚ) < (k.toNat : ℚ) - 1 := by
      have : (2 : ℚ) ≤ (k.toNat : ℚ) := by exact_mod_cast hk2
      linarith
    have hijq : (i : ℚ) ≤ (j : ℚ) := by exact_mod_cast hij
    have hdiv : (i : ℚ) / ((k.toNat : ℚ) - 1) ≤ (j : ℚ) / ((k.toNat : ℚ) - 1) :=
      div_le_div_of_nonneg_right hijq hpos.le
    have := mul_le_mul_of_nonneg_right hdiv h0
    simp only [JsNum.le, decide_eq_true_eq]
    linarith

/-- Witness of C13 (amended) on three frames with swing angle 30, frames 0 and 2. -/
theorem angle_monotone_witness :
    threeFrameOptions.swingAngle = JsNum.fin 30 ∧ (0 : ℚ) ≤ 30 ∧
      threeFrameOptions.frames ≠ some 1 ∧
      (orbitFrame smallAngleMath threeFrameOptions 0).angleDeg.le
        (orbitFrame smallAngleMath threeFrameOptions 2).angleDeg = true :=
  ⟨rfl, by norm_num, by decide,
    angle_monotone smallAngleMath threeFrameOptions 30 rfl (by norm_num) (by decide) 0 2
      (by decide) _ _ rfl rfl⟩

/-- The loop produces as many frames as it runs. -/
theorem length_orbitFrames (m : JsMath) (options : Options) :
    (orbitFrames m options).length = loopCount options.frames := by
  simp [orbitFrames]

/-- C16, as the claim states it, fails: `-f 0 --radius=-1` is accepted with radius `-1` and frame
count 0 and yields the empty pose sequence without an error, and `-f 3 -r 0` is accepted and
yields three poses. -/
theorem range_not_validated :
    (∃ options, parseOptions badRangeArgs = .ok options ∧ options.radius = JsNum.fin (-1) ∧
      options.frames = some 0 ∧ ∀ m, orbitFrames m options = []) ∧
    (∃ options, parseOptions zeroRadiusArgs = .ok options ∧ options.radius = JsNum.fin 0 ∧
      ∀ m, (orbitFrames m options).length = 3) := by
  obtain ⟨h2, _, h0, h30⟩ := parseFloat_defaults
  obtain ⟨_, _, hm1, hz, _⟩ := parseFloat_examples
  refine ⟨⟨_, parseOptions_numbers (some (lit "0")) (some (lit "-1")) none none _ _ _ hm1
      (by simp) h0 (by simp) h30 (by simp), rfl, rfl, fun m => rfl⟩,
    ⟨_, parseOptions_numbers (some (lit "3")) (some (lit "0")) none none _ _ _ hz
      (by simp) h0 (by simp) h30 (by simp), rfl, fun m => rfl⟩⟩

/-- C16, amended: no range is checked.  `parseOptions` stops only for `--help`, a missing input
file, a radius, field of view, start angle or swing angle that does not parse as a number, or
a target that is not three numbers; the render loop raises no error: it produces as many poses
as the loop runs, none for a frame count below 1 or `NaN`, and for a frame count `n` the `n`
poses of the formula whatever the radius. -/
theorem no_range_check (args : CliArgs) :
    ((∃ e, parseOptions args = .error e) ↔
      (args.help = true ∨ args.positionals = [] ∨
        parseFloat (args.radius.getD defaultRadius) = JsNum.nan ∨
        parseFloat (args.fov.getD defaultFov) = JsNum.nan ∨
        (∃ e, parseVec3 (args.target.getD defaultTarget) = .error e) ∨
        parseFloat (args.startAngle.getD defaultStartAngle) = JsNum.nan ∨
        parseFloat (args.swingAngle.getD defaultSwingAngle) = JsNum.nan)) ∧
    (∀ options, parseOptions args = .ok options →
      options.radius = parseFloat (args.radius.getD defaultRadius) ∧
      options.frames = parseInt10 (args.frames.getD defaultFrames)) ∧
    (∀ (m : JsMath) (options : Options),
      (orbitFrames m options).length = loopCount options.frames) ∧
    (∀ (m : JsMath) (options : Options), options.frames = none → orbitFrames m options = []) ∧
    (∀ (m : JsMath) (options : Options) (k : Int), options.frames = some k → k < 1 →
      orbitFrames m options = []) ∧
    (∀ (m : JsMath) (options : Options) (n : Nat), options.frames = some (n : Int) →
      orbitFrames m options
        = (List.range n).map (specFrame m options.radius options.swingAngle n)) := by
  refine ⟨parseOptions_error_iff args, ?_, length_orbitFrames, ?_, ?_, ?_⟩
  · intro options hok
    by_cases hh : args.help = true
    · have := (parseOptions_error_iff args).mpr (Or.inl hh)
      obtain ⟨e, he⟩ := this
      rw [hok] at he; cases he
    by_cases hp : args.positionals = []
    · obtain ⟨e, he⟩ := (parseOptions_error_iff args).mpr (Or.inr (Or.inl hp))
      rw [hok] at he; cases he
    have hlen : ¬ args.positionals.length = 0 := fun h => hp (List.length_eq_zero.mp h)
    have hh' : args.help = false := by simpa using hh
    unfold parseOptions at hok
    simp only [hh', hlen] at hok
    unfold parseNumber at hok
    by_cases hr : parseFloat (args.radius.getD defaultRadius) = JsNum.nan
    · simp [hr] at hok
      cases hok
    · cases h1 : parseNumber (args.fov.getD defaultFov) (lit "fov") with
      | error e => unfold parseNumber at h1; simp [hr, h1] at hok; cases hok
      | ok fov =>
        cases h2 : parseVec3 (args.target.getD defaultTarget) with
        | error e => unfold parseNumber at h1; simp [hr, h1, h2] at hok; cases hok
        | ok target =>
          cases h3 : parseNumber (args.startAngle.getD defaultStartAngle) (lit "start-angle") with
          | error e =>
              unfold parseNumber at h1 h3; simp [hr, h1, h2, h3] at hok; cases hok
          | ok startAngle =>
            cases h4 : parseNumber (args.swingAngle.getD defaultSwingAngle)
                (lit "swing-angle") with
            | error e =>
                unfold parseNumber at h1 h3 h4; simp [hr, h1, h2, h3, h4] at hok; cases hok
            | ok swingAngle =>
                have hr' := parseNumber_ok (args.radius.getD defaultRadius) (lit "radius") _
                  rfl hr
                have hok2 := parseOptions_ok args hh' hp _ fov startAngle swingAngle target
                  hr' h1 h2 h3 h4
                have hok3 : parseOptions args = .ok options := by
                  unfold parseOptions
                  simp only [hh', hlen]
                  unfold parseNumber
                  exact hok
                rw [hok2] at hok3
                cases hok3
                exact ⟨rfl, rfl⟩
  · intro m options hf
    simp [orbitFrames, hf, loopCount]
  · intro m options k hf hk
    have : k.toNat = 0 := by omega
    simp [orbitFrames, hf, loopCount, this]
  · intro m options n hf
    rw [orbitFrames_eq m options n hf]
    apply List.map_congr_left
    intro i _
    rw [orbitFrame_eq m options n hf i]
    rfl

/-- Witness of C16 (amended) on `node index.mjs input.ply -f 0 --radius=-1`. -/
theorem no_range_check_witness :
    (¬ ∃ e, parseOptions badRangeArgs = .error e) ∧
      ∀ (m : JsMath) (options : Options) (k : Int), options.frames = some k → k < 1 →
        orbitFrames m options = [] := by
  obtain ⟨h2, h50, h0, h30⟩ := parseFloat_defaults
  obtain ⟨_, _, hm1, _, _⟩ := parseFloat_examples
  refine ⟨fun h => ?_, (no_range_check badRangeArgs).2.2.2.2.1⟩
  rcases (no_range_check badRangeArgs).1.mp h with h | h | h | h | ⟨e, h⟩ | h | h
  · cases h
  · cases h
  · rw [show badRangeArgs.radius.getD defaultRadius = lit "-1" from rfl, hm1] at h
    cases h
  · rw [show badRangeArgs.fov.getD defaultFov = defaultFov from rfl, h50] at h
    cases h
  · rw [show badRangeArgs.target.getD defaultTarget = defaultTarget from rfl,
      parseVec3_default] at h
    cases h
  · rw [show badRangeArgs.startAngle.getD defaultStartAngle = defaultStartAngle from rfl, h0] at h
    cases h
  · rw [show badRangeArgs.swingAngle.getD defaultSwingAngle = defaultSwingAngle from rfl,
      h30] at h
    cases h

/-- C18 fails on the code: `--start-angle 45` is parsed into `options.startAngle`, and the
render loop never reads it: with three frames and swing angle 30 the angles are `-15, 0, 15`
and not `30, 45, 60`. -/
theorem start_angle_ignored :
    (∃ options, parseOptions startAngleArgs = .ok options ∧
      options.startAngle = JsNum.fin 45 ∧ options.swingAngle = JsNum.fin 30 ∧
      ∀ m, (orbitFrames m options).map (·.angleDeg)
        = [JsNum.fin (-15), JsNum.fin 0, JsNum.fin 15]) ∧
    JsNum.fin (-15) ≠ JsNum.fin (45 - 30 / 2) ∧
    ∀ (m : JsMath) (options : Options) (a : JsNum),
      orbitFrames m { options with startAngle := a } = orbitFrames m options := by
  obtain ⟨h2, _, _, h30⟩ := parseFloat_defaults
  obtain ⟨_, h45, _, _, _⟩ := parseFloat_examples
  refine ⟨⟨_, parseOptions_numbers (some (lit "3")) none (some (lit "45")) none _ _ _ h2
      (by simp) h45 (by simp) h30 (by simp), rfl, rfl, fun m => ?_⟩, ?_,
    fun m options a => rfl⟩
  · rw [orbitFrames_angles m _ 3 (by decide) rfl 30 rfl]
    norm_num [List.range_succ]
  · intro h
    have := JsNum.fin.inj h
    norm_num at this

/-- C19 fails on the code: on `node index.mjs input.ply`, `parseOptions` returns radius 2,
while the usage text documents the default 5; the other documented defaults (frames 36, width
1920, image height 1080, fov 50, target `0,0,0`, start angle 0, swing angle 30) are the ones
returned. -/
theorem default_radius_is_two :
    parseOptions bareArgs = .ok
      { inputFile := lit "input.ply"
        outputDir := usageDefaults.output
        frames := some (usageDefaults.frames : Int)
        radius := JsNum.fin 2
        width := some (usageDefaults.width : Int)
        height := some (usageDefaults.imgHeight : Int)
        fov := JsNum.fin (usageDefaults.fov : ℚ)
        target := usageDefaults.target.map (fun t => JsNum.fin (t : ℚ))
        startAngle := JsNum.fin (usageDefaults.startAngle : ℚ)
        swingAngle := JsNum.fin (usageDefaults.swingAngle : ℚ)
        cleanup := false
        quiet := false } ∧
    usageDefaults.radius = 5 ∧
    JsNum.fin 2 ≠ JsNum.fin (usageDefaults.radius : ℚ) := by
  refine ⟨?_, rfl, ?_⟩
  · have := parseOptions_frames_only none
    rw [show ({ bareArgs with frames := none } : CliArgs) = bareArgs from rfl] at this
    rw [this]
    simp [usageDefaults]
    rfl
  · intro h
    have := JsNum.fin.inj h
    norm_num [usageDefaults] at this

/-! ## Short reads, advice, preset command -/

/-- A word read at or past the end of the file is zero. -/
theorem wordAt_beyond (file : List Nat) (offset : Nat) (h : file.length ≤ offset) :
    wordAt file offset = 0 := by
  unfold wordAt
  rw [List.getD_eq_default _ _ h, List.getD_eq_default _ _ (by omega),
    List.getD_eq_default _ _ (by omega), List.getD_eq_default _ _ (by omega)]
  norm_num

/-- The float with all bits zero is 0. -/
theorem float32OfBits_zero : float32OfBits 0 = JsNum.fin 0 := by
  norm_num [float32OfBits]

/-- Halving a finite value, the divisor written as a finite value. -/
theorem fin_div_fin_two (a : ℚ) : JsNum.fin a / JsNum.fin 2 = JsNum.fin (a / 2) :=
  JsNum.fin_div_fin a 2 (by norm_num)

/-- A float read at or past the end of the file is 0. -/
theorem floatAt_beyond (file : List Nat) (offset : Nat) (h : file.length ≤ offset) :
    floatAt file offset = JsNum.fin 0 := by
  rw [floatAt, wordAt_beyond file offset h, float32OfBits_zero]

/-- The cut file has 127 bytes. -/
theorem truncatedFlatFile_length : truncatedFlatFile.length = 127 := rfl

/-- C15, as the claim states it, fails: the flat scenario file cut after its first vertex is 127
bytes long, 12 short of the 139 its header declares; the read of 24 bytes at offset 115 is
issued, the analysis ends with a report, and the missing vertex enters the box as `(0, 0, 0)`:
the box is `x:[0,1], y:[0,2], z:[0,3]`. -/
theorem truncated_file_reports_box :
    truncatedFlatFile.length = 127 ∧
    (∃ h, analyzePlyHeader truncatedFlatFile = .ok h ∧
      h.headerSize + h.numVertices * h.vertexSize = 139) ∧
    analyzePly truncatedFlatFile
      = ⟨[(115, 24)],
          .ok (mkReport ⟨JsNum.fin 0, JsNum.fin 1, JsNum.fin 0, JsNum.fin 2, JsNum.fin 0,
            JsNum.fin 3⟩)⟩ := by
  have hh : analyzePlyHeader truncatedFlatFile
      = .ok ⟨2, [lit "x", lit "y", lit "z"], 0, 1, 2, 12, 115⟩ := rfl
  refine ⟨rfl, ⟨_, hh, rfl⟩, ?_⟩
  have w0 : wordAt truncatedFlatFile 115 = 0x3F800000 := by decide
  have w1 : wordAt truncatedFlatFile 119 = 0x40000000 := by decide
  have w2 : wordAt truncatedFlatFile 123 = 0x40400000 := by decide
  have w3 : wordAt truncatedFlatFile 127 = 0 := by decide
  have w4 : wordAt truncatedFlatFile 131 = 0 := by decide
  have w5 : wordAt truncatedFlatFile 135 = 0 := by decide
  have f0 : float32OfBits 0x3F800000 = JsNum.fin 1 := by norm_num [float32OfBits]
  have f1 : float32OfBits 0x40000000 = JsNum.fin 2 := by norm_num [float32OfBits]
  have f2 : float32OfBits 0x40400000 = JsNum.fin 3 := by norm_num [float32OfBits]
  have f3 := float32OfBits_zero
  rw [analyzePly_ok truncatedFlatFile _ hh]
  have hr : (List.range (totalBatches 2)).map
      (flatBatchRead ⟨2, [lit "x", lit "y", lit "z"], 0, 1, 2, 12, 115⟩) = [(115, 24)] := by
    decide
  have hp : (List.range 2).map
      (flatVertexAt truncatedFlatFile ⟨2, [lit "x", lit "y", lit "z"], 0, 1, 2, 12, 115⟩)
      = [⟨JsNum.fin 1, JsNum.fin 2, JsNum.fin 3⟩, ⟨JsNum.fin 0, JsNum.fin 0, JsNum.fin 0⟩] := by
    simp [List.range_succ, flatVertexAt, floatAt, w0, w1, w2, w3, w4, w5, f0, f1, f2, f3]
  simp only [hr, hp]
  norm_num [foldBox, BoundingBox.update, BoundingBox.empty, stepMin_fin_fin, stepMax_fin_fin,
    stepMin_posInf_fin, stepMax_negInf_fin]

/-- C15, amended: a short payload read is not detected.  Whenever the header checks pass and,
in the chunked format, the runtime allocates the chunk buffer of `72 * numChunks` bytes, the
analyzer ends with a report, whatever the length of the file; the bytes the file lacks are
read as zero, so in the flat format a vertex whose record begins at or past the end of the
file is decoded as `(0, 0, 0)`, and in the chunked format such a vertex has the packed word 0
and such a chunk record the bounds 0; all of them are folded into the reported box.  When the
runtime does not allocate the chunk buffer, the chunked analyzer throws before any payload
read, whatever the length of the file. -/
theorem short_reads_zero_filled (rt : Runtime) (file : List Nat) :
    (∀ h, analyzePlyHeader file = .ok h →
      analyzePly file
        = ⟨(List.range (totalBatches h.numVertices)).map (flatBatchRead h),
            .ok (mkReport (foldBox BoundingBox.empty
              ((List.range h.numVertices).map (flatVertexAt file h))))⟩ ∧
      ∀ g, file.length ≤ h.headerSize + g * h.vertexSize →
        flatVertexAt file h g = ⟨JsNum.fin 0, JsNum.fin 0, JsNum.fin 0⟩) ∧
    (∀ h, analyzeCompressedPlyHeader file = .ok h →
      h.numChunks * chunkElementSize ≤ rt.maxAlloc →
      ∃ c, readChunks rt file h
          = ([(h.chunkDataOffset, h.numChunks * chunkElementSize)], .ok c) ∧
        analyzeCompressedPly rt file
          = ⟨(h.chunkDataOffset, h.numChunks * chunkElementSize) ::
                (List.range (totalBatches h.numVertices)).map (chunkedBatchRead h),
              .ok (mkReport (foldBox BoundingBox.empty
                ((List.range h.numVertices).map (chunkedVertexAt file h c))))⟩ ∧
        (∀ g, file.length ≤ h.headerSize + 72 * h.numChunks + 16 * g →
          chunkedVertexAt file h c g = dequantizeDouble c (g / 256) 0) ∧
        (∀ k, k < h.numChunks → file.length ≤ h.headerSize + 72 * k →
          arrayAt c.min_x k = JsNum.fin 0 ∧ arrayAt c.max_x k = JsNum.fin 0 ∧
          arrayAt c.min_y k = JsNum.fin 0 ∧ arrayAt c.max_y k = JsNum.fin 0 ∧
          arrayAt c.min_z k = JsNum.fin 0 ∧ arrayAt c.max_z k = JsNum.fin 0)) ∧
    (∀ h, analyzeCompressedPlyHeader file = .ok h →
      rt.maxAlloc < h.numChunks * chunkElementSize →
      analyzeCompressedPly rt file = ⟨[], .error .allocation⟩) := by
  refine ⟨fun h hh => ⟨analyzePly_ok file h hh, fun g hg => ?_⟩, fun h hh ha => ?_,
    fun h hh ha => analyzeCompressedPly_alloc_fails rt file h hh ha⟩
  · simp only [flatVertexAt]
    rw [floatAt_beyond file _ (by omega), floatAt_beyond file _ (by omega),
      floatAt_beyond file _ (by omega)]
  · refine ⟨chunkTableAt file h, readChunks_eq rt file h ha,
      analyzeCompressedPly_ok rt file h hh ha, fun g hg => ?_, fun k hk hlen => ?_⟩
    · simp only [chunkedVertexAt]
      rw [wordAt_beyond file _ hg]
    · simp only [chunkTableAt, arrayAt, List.getD_eq_getElem?_getD, List.getElem?_map,
        List.getElem?_range hk, Option.map_some', Option.getD_some]
      rw [floatAt_beyond file _ (by omega), floatAt_beyond file _ (by omega),
        floatAt_beyond file _ (by omega), floatAt_beyond file _ (by omega),
        floatAt_beyond file _ (by omega), floatAt_beyond file _ (by omega)]
      exact ⟨rfl, rfl, rfl, rfl, rfl, rfl⟩

/-- Witness of C15 (amended) on the flat scenario file cut after its first vertex: vertex 1
begins at byte 127, the length of the file. -/
theorem short_reads_zero_filled_witness :
    analyzePlyHeader truncatedFlatFile
        = .ok ⟨2, [lit "x", lit "y", lit "z"], 0, 1, 2, 12, 115⟩ ∧
      flatVertexAt truncatedFlatFile ⟨2, [lit "x", lit "y", lit "z"], 0, 1, 2, 12, 115⟩ 1
        = ⟨JsNum.fin 0, JsNum.fin 0, JsNum.fin 0⟩ :=
  ⟨rfl, ((short_reads_zero_filled largestRuntime truncatedFlatFile).1 _ rfl).2 1
    (Nat.le_of_eq truncatedFlatFile_length)⟩

/-- C17, as the claim states it, fails: for the box `x:[-1,1], y:[0,2], z:[3,5]` with centre
`(0, 1, 4)` the six placements are at distance 1 from the centre, not at an orbit radius of 2,
and the flat analyzer gives no target. -/
theorem advice_has_radius_one :
    (flatAdvice (mkReport scenarioBox)).placements
      = [⟨JsNum.fin 1, JsNum.fin 1, JsNum.fin 4⟩, ⟨JsNum.fin (-1), JsNum.fin 1, JsNum.fin 4⟩,
          ⟨JsNum.fin 0, JsNum.fin 2, JsNum.fin 4⟩, ⟨JsNum.fin 0, JsNum.fin 0, JsNum.fin 4⟩,
          ⟨JsNum.fin 0, JsNum.fin 1, JsNum.fin 5⟩, ⟨JsNum.fin 0, JsNum.fin 1, JsNum.fin 3⟩] ∧
    advisedPlacements ⟨JsNum.fin 0, JsNum.fin 1, JsNum.fin 4⟩ (JsNum.fin 2)
      = [⟨JsNum.fin 2, JsNum.fin 1, JsNum.fin 4⟩, ⟨JsNum.fin (-2), JsNum.fin 1, JsNum.fin 4⟩,
          ⟨JsNum.fin 0, JsNum.fin 3, JsNum.fin 4⟩, ⟨JsNum.fin 0, JsNum.fin (-1), JsNum.fin 4⟩,
          ⟨JsNum.fin 0, JsNum.fin 1, JsNum.fin 6⟩, ⟨JsNum.fin 0, JsNum.fin 1, JsNum.fin 2⟩] ∧
    (flatAdvice (mkReport scenarioBox)).placements
      ≠ advisedPlacements ⟨JsNum.fin 0, JsNum.fin 1, JsNum.fin 4⟩ (JsNum.fin 2) ∧
    (flatAdvice (mkReport scenarioBox)).target = none := by
  have h1 : (flatAdvice (mkReport scenarioBox)).placements
      = [⟨JsNum.fin 1, JsNum.fin 1, JsNum.fin 4⟩, ⟨JsNum.fin (-1), JsNum.fin 1, JsNum.fin 4⟩,
          ⟨JsNum.fin 0, JsNum.fin 2, JsNum.fin 4⟩, ⟨JsNum.fin 0, JsNum.fin 0, JsNum.fin 4⟩,
          ⟨JsNum.fin 0, JsNum.fin 1, JsNum.fin 5⟩, ⟨JsNum.fin 0, JsNum.fin 1, JsNum.fin 3⟩] := by
    simp only [flatAdvice, cameraRecommendations, mkReport, scenarioBox, JsNum.fin_add_fin,
      JsNum.ofNat_eq_fin, JsNum.fin_sub_fin]
    norm_num [fin_div_fin_two]
  have h2 : advisedPlacements ⟨JsNum.fin 0, JsNum.fin 1, JsNum.fin 4⟩ (JsNum.fin 2)
      = [⟨JsNum.fin 2, JsNum.fin 1, JsNum.fin 4⟩, ⟨JsNum.fin (-2), JsNum.fin 1, JsNum.fin 4⟩,
          ⟨JsNum.fin 0, JsNum.fin 3, JsNum.fin 4⟩, ⟨JsNum.fin 0, JsNum.fin (-1), JsNum.fin 4⟩,
          ⟨JsNum.fin 0, JsNum.fin 1, JsNum.fin 6⟩, ⟨JsNum.fin 0, JsNum.fin 1, JsNum.fin 2⟩] := by
    simp only [advisedPlacements, JsNum.fin_add_fin, JsNum.fin_sub_fin]
    norm_num
  refine ⟨h1, h2, ?_, rfl⟩
  rw [h1, h2]
  intro h
  have hx := congrArg (fun l => (l.headD ⟨JsNum.nan, JsNum.nan, JsNum.nan⟩).x) h
  simp only [List.headD_cons] at hx
  have := JsNum.fin.inj hx
  norm_num at this

/-- C17, amended: for every bounding box with centre `c`, both analyzers print six camera
placements at `c + 1` and `c - 1` along X, Y and Z (the orbit radius is fixed to 1), the other
two coordinates being those of `c`; the chunked analyzer prints the target `c`, the flat
analyzer prints none. -/
theorem advice_fixed_radius (b : BoundingBox) :
    (flatAdvice (mkReport b)).placements
      = advisedPlacements
          ⟨(b.minX + b.maxX) / 2, (b.minY + b.maxY) / 2, (b.minZ + b.maxZ) / 2⟩ 1 ∧
    (compressedAdvice (mkReport b)).placements
      = advisedPlacements
          ⟨(b.minX + b.maxX) / 2, (b.minY + b.maxY) / 2, (b.minZ + b.maxZ) / 2⟩ 1 ∧
    (compressedAdvice (mkReport b)).target
      = some ⟨(b.minX + b.maxX) / 2, (b.minY + b.maxY) / 2, (b.minZ + b.maxZ) / 2⟩ ∧
    (flatAdvice (mkReport b)).target = none := by
  refine ⟨?_, ?_, ?_, ?_⟩
  · simp only [flatAdvice, cameraRecommendations, advisedPlacements, mkReport]
  · simp only [compressedAdvice, cameraRecommendations, advisedPlacements, mkReport]
  · simp only [compressedAdvice, mkReport]
  · simp only [flatAdvice]

/-- The additional options of an invocation whose arguments hold neither `--cleanup` nor
`--quiet` and for which `startAngleOf` is `undefined` add ` --start-angle undefined`. -/
theorem foldl_addOption_undefined (command : List Nat) :
    [(lit "cleanup", JsValue.bool false), (lit "quiet", JsValue.bool false),
        (lit "startAngle", JsValue.undefined)].foldl addOption command
      = command ++ lit " --start-angle undefined" := by
  have h1 : lit "quiet" ≠ lit "cleanup" := by decide
  have h2 : lit "startAngle" ≠ lit "cleanup" := by decide
  have h3 : lit "startAngle" ≠ lit "quiet" := by decide
  have h4 : lit "quiet" ≠ lit "startAngle" := by decide
  have h5 : lit "cleanup" ≠ lit "startAngle" := by decide
  have h6 : lit " --start-angle " ++ lit "undefined" = lit " --start-angle undefined" := by
    decide
  simp [addOption, JsValue.truthy, JsValue.toText, h1, h2, h3, h4, h5, h6]

/-- The first entry of the table is found under its name. -/
theorem lookupPreset_head (name : List Nat) (p : Preset) (rest : List (List Nat × Preset)) :
    lookupPreset ((name, p) :: rest) name = some p := by
  simp [lookupPreset]

/-- C20 fails on the code: the documented invocation
`node use-preset.mjs model.ply high_quality ./output --start-angle 45` yields a command that
ends in ` --start-angle undefined`, and so does the invocation without a start angle, whatever
the `high_quality` preset holds; with the stand-in preset the command of the documented
invocation does not contain `--start-angle 45`, and the command of the invocation without a
start angle contains `--start-angle`. -/
theorem start_angle_undefined (p : Preset) (rest : List (List Nat × Preset)) :
    usePresetMain ((lit "high_quality", p) :: rest) documentedPresetArgs
      = .ok (baseCommand p (lit "model.ply") (some (lit "./output"))
          ++ lit " --start-angle undefined") ∧
    usePresetMain ((lit "high_quality", p) :: rest) plainPresetArgs
      = .ok (baseCommand p (lit "model.ply") (some (lit "./output"))
          ++ lit " --start-angle undefined") ∧
    usePresetMain [(lit "high_quality", highQualityPreset)] documentedPresetArgs
      = .ok (lit "node index.mjs \"model.ply\" -o \"./output\" -f 72 -w 1920 -H 1080 -r 8 --start-angle undefined") ∧
    indexOf (lit "node index.mjs \"model.ply\" -o \"./output\" -f 72 -w 1920 -H 1080 -r 8 --start-angle undefined")
      (lit "--start-angle 45") = none ∧
    indexOf (lit "node index.mjs \"model.ply\" -o \"./output\" -f 72 -w 1920 -H 1080 -r 8 --start-angle undefined")
      (lit "--start-angle") = some 68 := by
  have hdoc : ∀ presets, usePresetMain presets documentedPresetArgs
      = match generateCommand presets (lit "model.ply") (lit "high_quality")
          (some (lit "./output"))
          [(lit "cleanup", JsValue.bool false), (lit "quiet", JsValue.bool false),
            (lit "startAngle", JsValue.undefined)] with
        | none => .error 1
        | some command => .ok command := fun _ => rfl
  have hplain : ∀ presets, usePresetMain presets plainPresetArgs
      = match generateCommand presets (lit "model.ply") (lit "high_quality")
          (some (lit "./output"))
          [(lit "cleanup", JsValue.bool false), (lit "quiet", JsValue.bool false),
            (lit "startAngle", JsValue.undefined)] with
        | none => .error 1
        | some command => .ok command := fun _ => rfl
  have hgen : generateCommand ((lit "high_quality", p) :: rest) (lit "model.ply")
      (lit "high_quality") (some (lit "./output"))
      [(lit "cleanup", JsValue.bool false), (lit "quiet", JsValue.bool false),
        (lit "startAngle", JsValue.undefined)]
      = some (baseCommand p (lit "model.ply") (some (lit "./output"))
          ++ lit " --start-angle undefined") := by
    unfold generateCommand
    rw [lookupPreset_head]
    simp only [foldl_addOption_undefined]
  refine ⟨by rw [hdoc, hgen], by rw [hplain, hgen], rfl, rfl, rfl⟩

/-! ## Remark on the limit of the endpoint property -/

/-- Outside the finite swing angles the endpoint property is not there: `parseFloat` reads
`Infinity` as a number, and with an infinite swing angle the first frame has the angle `NaN`
(`-Infinity + 0 * Infinity`). -/
theorem infinite_swing_angle (m : JsMath) (options : Options) (n : Nat) (hn : 2 ≤ n)
    (hf : options.frames = some (n : Int)) (hs : options.swingAngle = JsNum.posInf) :
    parseFloat (lit "Infinity") = JsNum.posInf ∧
      (orbitFrame m options 0).angleDeg = JsNum.nan := by
  have hne : (n : ℚ) - 1 ≠ 0 := by
    have : (2 : ℚ) ≤ (n : ℚ) := by exact_mod_cast hn
    linarith
  refine ⟨?_, ?_⟩
  · rw [parseFloat_of_scan _ _ (show scanFloat (lit "Infinity") = NumLit.inf false by decide)]
    rfl
  · rw [orbitFrame_eq m options n hf 0, hs]
    simp only [JsNum.fin_div_fin _ _ hne]
    show JsNum.add (JsNum.neg (JsNum.div JsNum.posInf _))
      (JsNum.mul (JsNum.fin _) JsNum.posInf) = JsNum.nan
    simp [JsNum.div, JsNum.neg, JsNum.mul, JsNum.infTimes, JsNum.add]

/-! ## Running extremes between bounds, and lookups in the chunk table -/

theorem lerp_fin_fin (a b t : ℚ) :
    lerp (JsNum.fin a) (JsNum.fin b) (JsNum.fin t) = JsNum.fin (a * (1 - t) + b * t) := by
  unfold lerp
  rw [one_sub_fin, JsNum.fin_mul_fin, JsNum.fin_mul_fin, JsNum.fin_add_fin]

/-- An infinity times a non-negative finite value: `NaN` at zero, the infinity otherwise. -/
theorem posInf_mul_fin (r : ℚ) (hr : 0 ≤ r) :
    JsNum.posInf * JsNum.fin r = if r = 0 then JsNum.nan else JsNum.posInf := by
  show JsNum.infTimes true r = _
  unfold JsNum.infTimes
  by_cases h : r = 0
  · simp [h]
  · have : 0 < r := lt_of_le_of_ne hr (Ne.symm h)
    simp [h, this]

/-- Between finite bounds with `a <= b`, the interpolation at a parameter in `[0, 1]` lies
between the bounds, at `a` for the parameter 0 and at `b` for the parameter 1. -/
theorem lerp_unit (a b q : ℚ) (hab : a ≤ b) (h0 : 0 ≤ q) (h1 : q ≤ 1) :
    ∃ v : ℚ, lerp (JsNum.fin a) (JsNum.fin b) (JsNum.fin q) = JsNum.fin v ∧ a ≤ v ∧ v ≤ b ∧
      (q = 0 → v = a) ∧ (q = 1 → v = b) := by
  refine ⟨a * (1 - q) + b * q, lerp_fin_fin a b q, by nlinarith, by nlinarith, ?_, ?_⟩
  · intro e
    rw [e]
    ring
  · intro e
    rw [e]
    ring

/-- A normalized field `k / t` with `k <= t`: in `[0, 1]`, 0 for `k = 0` and 1 for `k = t`. -/
theorem field_unit (k t : Nat) (ht : 0 < t) (hk : k ≤ t) :
    (0 : ℚ) ≤ (k : ℚ) / (t : ℚ) ∧ (k : ℚ) / (t : ℚ) ≤ 1 ∧
      (k = 0 → (k : ℚ) / (t : ℚ) = 0) ∧ (k = t → (k : ℚ) / (t : ℚ) = 1) := by
  have hpos : (0 : ℚ) < (t : ℚ) := by exact_mod_cast ht
  refine ⟨div_nonneg (Nat.cast_nonneg _) (le_of_lt hpos), ?_, ?_, ?_⟩
  · rw [div_le_one hpos]
    exact_mod_cast hk
  · intro e
    rw [e]
    simp
  · intro e
    rw [e]
    exact div_self (ne_of_gt hpos)

theorem stepMin_lower (L m v : JsNum) (hm : L.le m = true)
    (hv : v = JsNum.nan ∨ L.le v = true) : L.le (stepMin m v) = true := by
  unfold stepMin
  split
  · rename_i hlt
    rcases hv with rfl | hv
    · cases m <;> simp [JsNum.lt] at hlt
    · exact hv
  · exact hm

theorem stepMax_upper (U m v : JsNum) (hm : m.le U = true)
    (hv : v = JsNum.nan ∨ v.le U = true) : (stepMax m v).le U = true := by
  unfold stepMax
  split
  · rename_i hlt
    rcases hv with rfl | hv
    · cases m <;> simp [JsNum.lt] at hlt
    · exact hv
  · exact hm

theorem foldl_stepMin_lower (L : JsNum) (vs : List JsNum)
    (hv : ∀ v ∈ vs, v = JsNum.nan ∨ L.le v = true) :
    ∀ m : JsNum, L.le m = true → L.le (vs.foldl stepMin m) = true := by
  induction vs with
  | nil => intro m hm; exact hm
  | cons v vs ih =>
      intro m hm
      rw [List.foldl_cons]
      exact ih (fun w hw => hv w (List.mem_cons_of_mem v hw)) _
        (stepMin_lower L m v hm (hv v (List.mem_cons_self v vs)))

theorem foldl_stepMax_upper (U : JsNum) (vs : List JsNum)
    (hv : ∀ v ∈ vs, v = JsNum.nan ∨ v.le U = true) :
    ∀ m : JsNum, m.le U = true → (vs.foldl stepMax m).le U = true := by
  induction vs with
  | nil => intro m hm; exact hm
  | cons v vs ih =>
      intro m hm
      rw [List.foldl_cons]
      exact ih (fun w hw => hv w (List.mem_cons_of_mem v hw)) _
        (stepMax_upper U m v hm (hv v (List.mem_cons_self v vs)))

theorem arrayAt_mem (a : List JsNum) (k : Nat) (hk : k < a.length) : arrayAt a k ∈ a := by
  unfold arrayAt
  rw [List.getD_eq_getElem _ _ hk]
  exact List.getElem_mem hk

theorem arrayAt_beyond (a : List JsNum) (k : Nat) (hk : a.length ≤ k) :
    arrayAt a k = JsNum.nan := by
  unfold arrayAt
  rw [List.getD_eq_default _ _ hk]

/-- The six arrays of the chunk table of a file have `numChunks` entries each. -/
theorem chunkTableAt_length (file : List Nat) (h : ChunkedHeader) :
    (chunkTableAt file h).min_x.length = h.numChunks ∧
    (chunkTableAt file h).max_x.length = h.numChunks ∧
    (chunkTableAt file h).min_y.length = h.numChunks ∧
    (chunkTableAt file h).max_y.length = h.numChunks ∧
    (chunkTableAt file h).min_z.length = h.numChunks ∧
    (chunkTableAt file h).max_z.length = h.numChunks := by
  simp [chunkTableAt]

/-- A chunk index outside the table gives `NaN` on every axis. -/
theorem dequantizeDouble_outside (c : ChunkArrays) (n ci w : Nat)
    (hl : c.min_x.length = n ∧ c.max_x.length = n ∧ c.min_y.length = n ∧ c.max_y.length = n ∧
      c.min_z.length = n ∧ c.max_z.length = n) (hci : n ≤ ci) :
    dequantizeDouble c ci w = ⟨JsNum.nan, JsNum.nan, JsNum.nan⟩ := by
  obtain ⟨l1, _, l3, _, l5, _⟩ := hl
  unfold dequantizeDouble
  dsimp only
  rw [arrayAt_beyond c.min_x ci (by omega), arrayAt_beyond c.min_y ci (by omega),
    arrayAt_beyond c.min_z ci (by omega), lerpDouble_nan_left, lerpDouble_nan_left,
    lerpDouble_nan_left]

/-- The inner loop body computes the chunk index and uses it without a check. -/
theorem decodeChunkedVertex_eq (buf : List Nat) (c : ChunkArrays) (startVertex i : Nat) :
    decodeChunkedVertex buf c startVertex i
      = (readUInt32LE buf (i * vertexElementSize)).map
          (dequantizeDouble c ((startVertex + i) / CHUNK_SIZE)) := by
  unfold decodeChunkedVertex
  dsimp only
  cases readUInt32LE buf (i * vertexElementSize) <;> rfl

/-! ## One dequantization, rounding by rounding -/

/-- The five roundings of `lerp(a, a, t)` for `a` the float nearest to `0.1` and `t` the
double nearest to `1/2047`: the result is one unit in the last place above `a`. -/
theorem lerpDouble_tenth_steps :
    roundDouble (1 / 2047) = JsNum.fin (4505799724892416 / 2 ^ 63) ∧
    roundDouble (1 - 4505799724892416 / 2 ^ 63) = JsNum.fin (9002799059697152 / 2 ^ 53) ∧
    roundDouble (tenthFloat * (9002799059697152 / 2 ^ 53))
      = JsNum.fin (7202239355079450 / 2 ^ 56) ∧
    roundDouble (tenthFloat * (4505799724892416 / 2 ^ 63))
      = JsNum.fin (7209279667254502 / 2 ^ 67) ∧
    roundDouble (7202239355079450 / 2 ^ 56 + 7209279667254502 / 2 ^ 67)
      = JsNum.fin (tenthFloat + 1 / 2 ^ 56) := by
  refine ⟨?_, ?_, ?_, ?_, ?_⟩
  · rw [roundDouble_eval (1 / 2047) (-11) 4505799724892416 (by norm_num [abs_of_pos])
      (by norm_num [abs_of_pos]) (by norm_num) (by norm_num) (by norm_num)
      (by norm_num [abs_of_pos])]
    congr 1
    norm_num
  · rw [roundDouble_eval _ (-1) 9002799059697152 (by norm_num [abs_of_pos])
      (by norm_num [abs_of_pos]) (by norm_num) (by norm_num) (by norm_num)
      (by norm_num [abs_of_pos])]
    congr 1
    norm_num
  · rw [roundDouble_eval _ (-4) 7202239355079450 (by norm_num [abs_of_pos, tenthFloat])
      (by norm_num [abs_of_pos, tenthFloat]) (by norm_num) (by norm_num [tenthFloat])
      (by norm_num [tenthFloat]) (by norm_num [abs_of_pos])]
    congr 1
    norm_num
  · rw [roundDouble_eval _ (-15) 7209279667254502 (by norm_num [abs_of_pos, tenthFloat])
      (by norm_num [abs_of_pos, tenthFloat]) (by norm_num) (by norm_num [tenthFloat])
      (by norm_num [tenthFloat]) (by norm_num [abs_of_pos])]
    congr 1
    norm_num
  · rw [roundDouble_eval _ (-4) 7205759511166977 (by norm_num [abs_of_pos])
      (by norm_num [abs_of_pos]) (by norm_num) (by norm_num) (by norm_num)
      (by norm_num [abs_of_pos])]
    congr 1
    norm_num [tenthFloat]

/-- The float `0x3DCCCCCD` is a double. -/
theorem roundDouble_tenthFloat : roundDouble tenthFloat = JsNum.fin tenthFloat := by
  apply roundDouble_exact tenthFloat 13421773 (-27) (by norm_num [tenthFloat]) (by norm_num)
    (by norm_num) (by norm_num [tenthFloat, abs_of_pos])

/-- The program's interpolation between equal bounds `0.1f` at the field value 1 of 2047. -/
theorem lerpDouble_tenth :
    lerpDouble (JsNum.fin tenthFloat) (JsNum.fin tenthFloat) (unpackUnormDouble 1 11)
      = JsNum.fin (tenthFloat + 1 / 2 ^ 56) := by
  obtain ⟨s1, s2, s3, s4, s5⟩ := lerpDouble_tenth_steps
  have e1 : unpackUnormDouble 1 11 = JsNum.fin (4505799724892416 / 2 ^ 63) := by
    rw [unpackUnormDouble_eq 1 11 (Or.inr rfl), ← s1]
    norm_num
  rw [e1, lerpDouble_fin, s2, JsNum.fin_mul_fin, JsNum.toDouble_fin, s3, s4, JsNum.fin_add_fin,
    JsNum.toDouble_fin, s5]

/-- The chunk table of `tenthChunkedFile`. -/
theorem tenthChunkedFile_table :
    chunkTableAt tenthChunkedFile ⟨1, 1, 80⟩ = tenthChunkArrays := by
  have w0 : wordAt tenthChunkedFile 80 = 0x3DCCCCCD := by decide
  have w1 : wordAt tenthChunkedFile 84 = 0x3DCCCCCD := by decide
  have w2 : wordAt tenthChunkedFile 88 = 0x3DCCCCCD := by decide
  have w3 : wordAt tenthChunkedFile 92 = 0x3DCCCCCD := by decide
  have w4 : wordAt tenthChunkedFile 96 = 0x3DCCCCCD := by decide
  have w5 : wordAt tenthChunkedFile 100 = 0x3DCCCCCD := by decide
  have f0 : float32OfBits 0x3DCCCCCD = JsNum.fin tenthFloat := by
    norm_num [float32OfBits, tenthFloat]
  simp only [chunkTableAt, List.range_succ, List.range_zero, List.nil_append, List.map_cons,
    List.map_nil, floatAt, Nat.mul_zero, Nat.add_zero, w0, w1, w2, w3, w4, w5, f0,
    tenthChunkArrays]

/-- The vertex of `tenthChunkedFile` in the program's arithmetic. -/
theorem dequantizeDouble_tenth :
    dequantizeDouble tenthChunkArrays 0 0x00200000
      = ⟨JsNum.fin (tenthFloat + 1 / 2 ^ 56), JsNum.fin tenthFloat, JsNum.fin tenthFloat⟩ := by
  have ex : unpackUnormDouble (ushr 0x00200000 21) 11 = unpackUnormDouble 1 11 := by
    have : ushr 0x00200000 21 = 1 := by decide
    rw [this]
  unfold dequantizeDouble unpack111011Double
  simp only [tenthChunkArrays, arrayAt, List.getD_cons_zero]
  rw [ex, lerpDouble_tenth, unpackUnormDouble_zeros _ 10 (Or.inl rfl) (by decide),
    unpackUnormDouble_zeros _ 11 (Or.inr rfl) (by decide),
    lerpDouble_zero _ _ roundDouble_tenthFloat]

/-- The slack covers the error of the five roundings when the larger bound is at least the
least positive float. -/
theorem slack_covers (M : ℚ) (hM : 1 / 2 ^ 149 ≤ M) :
    7 / 2 ^ 52 * M + 4 / 2 ^ 1075 ≤ dequantizeSlack * M := by
  unfold dequantizeSlack
  have h1 : (4 : ℚ) / 2 ^ 1075 ≤ 9 / 2 ^ 52 * (1 / 2 ^ 149) := by norm_num
  have h2 : (9 : ℚ) / 2 ^ 52 * (1 / 2 ^ 149) ≤ 9 / 2 ^ 52 * M :=
    mul_le_mul_of_nonneg_left hM (by positivity)
  have h3 : (1 : ℚ) / 2 ^ 48 * M = 7 / 2 ^ 52 * M + 9 / 2 ^ 52 * M := by ring
  linarith only [h1, h2, h3]

/-- The program's interpolation between two finite floats at the rounded value of a parameter
`t0` in `[0, 1]`: a finite value within the slack of the exact interpolation at `t0`, the
lower bound at `t0 = 0` and the upper bound at `t0 = 1`. -/
theorem lerpDouble_float32 (bitsA bitsB : Nat) (a b t0 : ℚ)
    (ha : float32OfBits bitsA = JsNum.fin a) (hb : float32OfBits bitsB = JsNum.fin b)
    (h0 : 0 ≤ t0) (h1 : t0 ≤ 1) :
    ∃ v : ℚ, lerpDouble (JsNum.fin a) (JsNum.fin b) (roundDouble t0) = JsNum.fin v ∧
      |v - (a * (1 - t0) + b * t0)| ≤ dequantizeSlack * max |a| |b| ∧
      (t0 = 0 → v = a) ∧ (t0 = 1 → v = b) := by
  obtain ⟨da, la, za⟩ := float32_facts bitsA a ha
  obtain ⟨db, lb, zb⟩ := float32_facts bitsB b hb
  have ht0 : |t0| ≤ 1 := by rw [abs_le]; constructor <;> linarith only [h0, h1]
  obtain ⟨t, ht, et⟩ := roundDouble_close t0 (le_trans ht0 (by norm_num))
  have main : ∃ v : ℚ, lerpDouble (JsNum.fin a) (JsNum.fin b) (JsNum.fin t) = JsNum.fin v ∧
      |v - (a * (1 - t0) + b * t0)| ≤ dequantizeSlack * max |a| |b| := by
    by_cases hz : a = 0 ∧ b = 0
    · obtain ⟨rfl, rfl⟩ := hz
      have hts : |1 - t| ≤ 2 ^ 1023 := by
        have h2 : |t - t0| ≤ 1 := by
          have c1 : (1 : ℚ) / 2 ^ 53 * |t0| ≤ 1 / 2 ^ 53 * 1 :=
            mul_le_mul_of_nonneg_left ht0 (by positivity)
          have c2 : (1 : ℚ) / 2 ^ 53 * 1 + 1 / 2 ^ 1075 ≤ 1 := by norm_num
          linarith only [c1, c2, et]
        have h3 : (3 : ℚ) ≤ 2 ^ 1023 := by norm_num
        rw [abs_le] at h2 ⊢
        constructor <;> linarith only [h2.1, h2.2, h0, h1, h3]
      obtain ⟨u, hu, _⟩ := roundDouble_close (1 - t) hts
      refine ⟨0, ?_, ?_⟩
      · rw [lerpDouble_fin, hu, JsNum.fin_mul_fin, zero_mul, zero_mul, JsNum.toDouble_fin,
          roundDouble_zero, JsNum.fin_add_fin, add_zero, JsNum.toDouble_fin, roundDouble_zero]
      · simp [dequantizeSlack]
    · have hM : 1 / 2 ^ 149 ≤ max |a| |b| := by
        rcases za with rfl | za
        · rcases zb with rfl | zb
          · exact absurd ⟨rfl, rfl⟩ hz
          · exact le_trans zb (le_max_right _ _)
        · exact le_trans za (le_max_left _ _)
      have hM2 : max |a| |b| ≤ 2 ^ 1000 := by
        have c : (2 : ℚ) ^ 128 ≤ 2 ^ 1000 := by norm_num
        exact max_le (le_trans la.le c) (le_trans lb.le c)
      obtain ⟨r, hr, er⟩ := lerpDouble_close a b (max |a| |b|) t0 t (le_max_left _ _)
        (le_max_right _ _) hM2 h0 h1 ht
      exact ⟨r, hr, le_trans er (slack_covers _ hM)⟩
  obtain ⟨v, hv, ev⟩ := main
  refine ⟨v, by rw [ht, hv], ev, ?_, ?_⟩
  · intro e
    subst e
    rw [roundDouble_zero] at ht
    cases ht
    rw [lerpDouble_zero a b da] at hv
    cases hv
    rfl
  · intro e
    subst e
    rw [roundDouble_one] at ht
    cases ht
    rw [lerpDouble_one a b db] at hv
    cases hv
    rfl

/-- The field that `unpackUnorm` extracts, as a rounded quotient in `[0, 1]`. -/
theorem unpackUnormDouble_unit (v bits : Nat) (hb : bits = 10 ∨ bits = 11) :
    ∃ t0 : ℚ, 0 ≤ t0 ∧ t0 ≤ 1 ∧ unpackUnormDouble v bits = roundDouble t0 := by
  have hk : v % 2 ^ bits ≤ 2 ^ bits - 1 := by
    have : v % 2 ^ bits < 2 ^ bits := Nat.mod_lt _ (by positivity)
    omega
  have hT : 0 < 2 ^ bits - 1 := by rcases hb with rfl | rfl <;> decide
  obtain ⟨u0, u1, _, _⟩ := field_unit (v % 2 ^ bits) (2 ^ bits - 1) hT hk
  exact ⟨_, u0, u1, unpackUnormDouble_eq v bits hb⟩

/-- The program's interpolation between two finite floats `a <= b` at a field `k` of `T`:
within the slack of the exact interpolation, which lies in `[a, b]`; both are `a` for the
field 0 and `b` for the field `T`. -/
theorem lerpDouble_field (bitsA bitsB : Nat) (a b : ℚ)
    (ha : float32OfBits bitsA = JsNum.fin a) (hb : float32OfBits bitsB = JsNum.fin b)
    (hab : a ≤ b) (k T : Nat) (hT : 0 < T) (hk : k ≤ T) :
    ∃ v e : ℚ,
      lerpDouble (JsNum.fin a) (JsNum.fin b) (roundDouble ((k : ℚ) / (T : ℚ))) = JsNum.fin v ∧
      lerp (JsNum.fin a) (JsNum.fin b) (JsNum.fin ((k : ℚ) / (T : ℚ))) = JsNum.fin e ∧
      a ≤ e ∧ e ≤ b ∧ |v - e| ≤ dequantizeSlack * max |a| |b| ∧
      (k = 0 → v = a ∧ e = a) ∧ (k = T → v = b ∧ e = b) := by
  obtain ⟨u0, u1, u2, u3⟩ := field_unit k T hT hk
  obtain ⟨v, hv, ev, v0, v1⟩ := lerpDouble_float32 bitsA bitsB a b _ ha hb u0 u1
  obtain ⟨e, he, e1, e2, e3, e4⟩ := lerp_unit a b _ hab u0 u1
  have ee : e = a * (1 - (k : ℚ) / (T : ℚ)) + b * ((k : ℚ) / (T : ℚ)) := by
    rw [lerp_fin_fin] at he
    cases he
    rfl
  refine ⟨v, e, hv, he, e1, e2, ?_, fun h => ⟨v0 (u2 h), e3 (u2 h)⟩,
    fun h => ⟨v1 (u3 h), e4 (u3 h)⟩⟩
  rw [ee]
  exact ev

/-- The entries of the chunk table of a file are floats. -/
theorem chunkTableAt_float32 (file : List Nat) (h : ChunkedHeader) (k : Nat)
    (hk : k < h.numChunks) :
    arrayAt (chunkTableAt file h).min_x k = float32OfBits (wordAt file (h.headerSize + 72 * k + 0)) ∧
    arrayAt (chunkTableAt file h).max_x k = float32OfBits (wordAt file (h.headerSize + 72 * k + 12)) ∧
    arrayAt (chunkTableAt file h).min_y k = float32OfBits (wordAt file (h.headerSize + 72 * k + 4)) ∧
    arrayAt (chunkTableAt file h).max_y k = float32OfBits (wordAt file (h.headerSize + 72 * k + 16)) ∧
    arrayAt (chunkTableAt file h).min_z k = float32OfBits (wordAt file (h.headerSize + 72 * k + 8)) ∧
    arrayAt (chunkTableAt file h).max_z k
      = float32OfBits (wordAt file (h.headerSize + 72 * k + 20)) := by
  simp [chunkTableAt, arrayAt, List.getD_eq_getElem, hk, floatAt]

/-- One axis of the hull property in the program's arithmetic: when every chunk has finite
float bounds with `min <= max` on the axis, every coordinate interpolated between the bounds
of some chunk index, inside or outside the table, is `NaN` or lies in the widened hull of the
bounds, and so do the running extremes of such coordinates. -/
theorem axis_within_widened (mins maxs : List JsNum) (n : Nat) (hl1 : mins.length = n)
    (hl2 : maxs.length = n)
    (hfl : ∀ k < n, ∃ (bitsA bitsB : Nat) (a b : ℚ), arrayAt mins k = JsNum.fin a ∧
      arrayAt maxs k = JsNum.fin b ∧ float32OfBits bitsA = JsNum.fin a ∧
      float32OfBits bitsB = JsNum.fin b ∧ a ≤ b)
    (vs : List JsNum)
    (hvs : ∀ v ∈ vs, ∃ (ci : Nat) (t0 : ℚ), 0 ≤ t0 ∧ t0 ≤ 1 ∧
      v = lerpDouble (arrayAt mins ci) (arrayAt maxs ci) (roundDouble t0)) :
    (widenAxis dequantizeSlack (mins.foldl stepMin JsNum.posInf)
        (maxs.foldl stepMax JsNum.negInf)).1.le (vs.foldl stepMin JsNum.posInf) = true ∧
      (vs.foldl stepMax JsNum.negInf).le
        (widenAxis dequantizeSlack (mins.foldl stepMin JsNum.posInf)
          (maxs.foldl stepMax JsNum.negInf)).2 = true := by
  rcases Nat.eq_zero_or_pos n with hn | hn
  · subst hn
    have e1 : mins = [] := List.length_eq_zero.mp hl1
    have e2 : maxs = [] := List.length_eq_zero.mp hl2
    subst e1 e2
    have key : ∀ v ∈ vs, v = JsNum.nan := by
      intro v hv
      obtain ⟨ci, t0, _, _, rfl⟩ := hvs v hv
      rw [arrayAt_beyond [] ci (Nat.zero_le _), lerpDouble_nan_left]
    simp only [List.foldl_nil, widenAxis]
    exact ⟨foldl_stepMin_lower _ vs (fun v hv => Or.inl (key v hv)) _ rfl,
      foldl_stepMax_upper _ vs (fun v hv => Or.inl (key v hv)) _ rfl⟩
  · have hmins : ∀ v ∈ mins, ∃ a : ℚ, v = JsNum.fin a := by
      intro v hv
      obtain ⟨k, hk, rfl⟩ := List.getElem_of_mem hv
      obtain ⟨_, _, a, _, ea, _⟩ := hfl k (by omega)
      unfold arrayAt at ea
      rw [List.getD_eq_getElem _ _ hk] at ea
      exact ⟨a, ea⟩
    have hmaxs : ∀ v ∈ maxs, ∃ b : ℚ, v = JsNum.fin b := by
      intro v hv
      obtain ⟨k, hk, rfl⟩ := List.getElem_of_mem hv
      obtain ⟨_, _, _, b, _, eb, _⟩ := hfl k (by omega)
      unfold arrayAt at eb
      rw [List.getD_eq_getElem _ _ hk] at eb
      exact ⟨b, eb⟩
    obtain ⟨_, _, m3, m4⟩ := foldl_stepMin_spec mins
      (fun v hv => by obtain ⟨a, rfl⟩ := hmins v hv; simp) JsNum.posInf (by simp)
    obtain ⟨_, _, x3, x4⟩ := foldl_stepMax_spec maxs
      (fun v hv => by obtain ⟨b, rfl⟩ := hmaxs v hv; simp) JsNum.negInf (by simp)
    obtain ⟨l, hl⟩ : ∃ l : ℚ, mins.foldl stepMin JsNum.posInf = JsNum.fin l := by
      rcases m4 with e | e
      · have h0 := m3 _ (arrayAt_mem mins 0 (by omega))
        obtain ⟨a, ea⟩ := hmins _ (arrayAt_mem mins 0 (by omega))
        rw [e, ea] at h0
        simp [JsNum.le] at h0
      · exact hmins _ e
    obtain ⟨u, hu⟩ : ∃ u : ℚ, maxs.foldl stepMax JsNum.negInf = JsNum.fin u := by
      rcases x4 with e | e
      · have h0 := x3 _ (arrayAt_mem maxs 0 (by omega))
        obtain ⟨b, eb⟩ := hmaxs _ (arrayAt_mem maxs 0 (by omega))
        rw [e, eb] at h0
        simp [JsNum.le] at h0
      · exact hmaxs _ e
    rw [hl] at m3
    rw [hu] at x3
    rw [hl, hu]
    simp only [widenAxis]
    have key : ∀ v ∈ vs, v = JsNum.nan ∨
        ((JsNum.fin (l - dequantizeSlack * max |l| |u|)).le v = true ∧
          v.le (JsNum.fin (u + dequantizeSlack * max |l| |u|)) = true) := by
      intro v hv
      obtain ⟨ci, t0, h0, h1, rfl⟩ := hvs v hv
      rcases Nat.lt_or_ge ci n with hci | hci
      · right
        obtain ⟨bitsA, bitsB, a, b, ea, eb, fa, fb, hab⟩ := hfl ci hci
        have la : l ≤ a := by
          have := m3 _ (arrayAt_mem mins ci (by omega))
          rw [ea] at this
          simpa [JsNum.le] using this
        have bu : b ≤ u := by
          have := x3 _ (arrayAt_mem maxs ci (by omega))
          rw [eb] at this
          simpa [JsNum.le] using this
        obtain ⟨w, hw, ew, _, _⟩ := lerpDouble_float32 bitsA bitsB a b t0 fa fb h0 h1
        have in1 : a ≤ a * (1 - t0) + b * t0 := by nlinarith
        have in2 : a * (1 - t0) + b * t0 ≤ b := by nlinarith
        have ma : |a| ≤ max |l| |u| := abs_le_max_abs_abs la (le_trans hab bu)
        have mb : |b| ≤ max |l| |u| := abs_le_max_abs_abs (le_trans la hab) bu
        have hs : dequantizeSlack * max |a| |b| ≤ dequantizeSlack * max |l| |u| :=
          mul_le_mul_of_nonneg_left (max_le ma mb) (by unfold dequantizeSlack; positivity)
        rw [abs_le] at ew
        rw [ea, eb, hw]
        constructor
        · simp only [JsNum.le, decide_eq_true_eq]
          linarith only [ew.1, hs, in1, la]
        · simp only [JsNum.le, decide_eq_true_eq]
          linarith only [ew.2, hs, in2, bu]
      · left
        rw [arrayAt_beyond mins ci (by omega), lerpDouble_nan_left]
    exact ⟨foldl_stepMin_lower _ vs (fun v hv => (key v hv).imp id (·.1)) _ rfl,
      foldl_stepMax_upper _ vs (fun v hv => (key v hv).imp id (·.2)) _ rfl⟩

/-- The coordinates of a vertex of a chunked file: the program's interpolations between the
bounds of chunk `g / 256` at rounded parameters from `[0, 1]`. -/
theorem chunkedVertexAt_coords (file : List Nat) (h : ChunkedHeader) (c : ChunkArrays) (g : Nat) :
    (∃ t0 : ℚ, 0 ≤ t0 ∧ t0 ≤ 1 ∧ (chunkedVertexAt file h c g).x
        = lerpDouble (arrayAt c.min_x (g / 256)) (arrayAt c.max_x (g / 256)) (roundDouble t0)) ∧
    (∃ t0 : ℚ, 0 ≤ t0 ∧ t0 ≤ 1 ∧ (chunkedVertexAt file h c g).y
        = lerpDouble (arrayAt c.min_y (g / 256)) (arrayAt c.max_y (g / 256)) (roundDouble t0)) ∧
    (∃ t0 : ℚ, 0 ≤ t0 ∧ t0 ≤ 1 ∧ (chunkedVertexAt file h c g).z
        = lerpDouble (arrayAt c.min_z (g / 256)) (arrayAt c.max_z (g / 256))
            (roundDouble t0)) := by
  unfold chunkedVertexAt dequantizeDouble unpack111011Double
  dsimp only
  refine ⟨?_, ?_, ?_⟩
  · obtain ⟨q, h0, h1, hq⟩ := unpackUnormDouble_unit
      (ushr (wordAt file (h.headerSize + 72 * h.numChunks + 16 * g)) 21) 11 (Or.inr rfl)
    exact ⟨q, h0, h1, by rw [hq]⟩
  · obtain ⟨q, h0, h1, hq⟩ := unpackUnormDouble_unit
      (ushr (wordAt file (h.headerSize + 72 * h.numChunks + 16 * g)) 11) 10 (Or.inl rfl)
    exact ⟨q, h0, h1, by rw [hq]⟩
  · obtain ⟨q, h0, h1, hq⟩ := unpackUnormDouble_unit
      (wordAt file (h.headerSize + 72 * h.numChunks + 16 * g)) 11 (Or.inr rfl)
    exact ⟨q, h0, h1, by rw [hq]⟩

/-! ## The round trip of a quantized value -/

/-- A quantized integer below `2^bits` is its own normalized numerator. -/
theorem unpackUnorm_of_le (bits q : Nat) (hb : bits = 10 ∨ bits = 11) (hq : q ≤ 2 ^ bits - 1) :
    unpackUnorm q bits = JsNum.fin ((q : ℚ) / ((2 ^ bits - 1 : Nat) : ℚ)) := by
  have hlt : q < 2 ^ bits := by
    have : 0 < 2 ^ bits := by positivity
    omega
  rw [unpackUnorm_eq_mod q bits hb, Nat.mod_eq_of_lt hlt]

theorem roundDouble_five : roundDouble 5 = JsNum.fin 5 := by
  have := roundDouble_natCast 5 (by norm_num)
  simpa using this

/-- The five roundings of `lerp(1, 1 + 2^-52, t)` for `t` the double nearest to `2/1023`: the
result is 1. -/
theorem lerpDouble_adjacent_steps :
    roundDouble (2 / 1023) = JsNum.fin (4508001973047300 / 2 ^ 61) ∧
    roundDouble (1 - 4508001973047300 / 2 ^ 61) = JsNum.fin (8989589872033776 / 2 ^ 53) ∧
    roundDouble (1 * (8989589872033776 / 2 ^ 53)) = JsNum.fin (8989589872033776 / 2 ^ 53) ∧
    roundDouble ((1 + 1 / 2 ^ 52) * (4508001973047300 / 2 ^ 61))
      = JsNum.fin (4508001973047301 / 2 ^ 61) ∧
    roundDouble (8989589872033776 / 2 ^ 53 + 4508001973047301 / 2 ^ 61) = JsNum.fin 1 := by
  refine ⟨?_, ?_, ?_, ?_, ?_⟩
  · rw [roundDouble_eval _ (-9) 4508001973047300 (by norm_num [abs_of_pos])
      (by norm_num [abs_of_pos]) (by norm_num) (by norm_num) (by norm_num)
      (by norm_num [abs_of_pos])]
    congr 1
    norm_num
  · rw [roundDouble_eval _ (-1) 8989589872033776 (by norm_num [abs_of_pos])
      (by norm_num [abs_of_pos]) (by norm_num) (by norm_num) (by norm_num)
      (by norm_num [abs_of_pos])]
    congr 1
    norm_num
  · rw [roundDouble_eval _ (-1) 8989589872033776 (by norm_num [abs_of_pos])
      (by norm_num [abs_of_pos]) (by norm_num) (by norm_num) (by norm_num)
      (by norm_num [abs_of_pos])]
    congr 1
    norm_num
  · rw [roundDouble_eval _ (-9) 4508001973047301 (by norm_num [abs_of_pos])
      (by norm_num [abs_of_pos]) (by norm_num) (by norm_num) (by norm_num)
      (by norm_num [abs_of_pos])]
    congr 1
    norm_num
  · rw [roundDouble_eval _ 0 4503599627370496 (by norm_num [abs_of_pos])
      (by norm_num [abs_of_pos]) (by norm_num) (by norm_num) (by norm_num)
      (by norm_num [abs_of_pos])]
    congr 1
    norm_num

/-- Re-normalizing a finite value over a finite range that is not degenerate. -/
theorem renormalize_fin (v min max : ℚ) (hne : min ≠ max) :
    renormalize (JsNum.fin v) (JsNum.fin min) (JsNum.fin max)
      = JsNum.fin ((v - min) / (max - min)) := by
  have hd : max - min ≠ 0 := fun h => hne (by linarith)
  unfold renormalize
  rw [JsNum.fin_sub_fin, JsNum.fin_sub_fin, JsNum.fin_div_fin _ _ hd]

/-- The round trip through the program's interpolation between two different finite floats, at
a parameter `t0` of `[0, 1]`: the re-normalized value is within `2^-23` of `t0`. -/
theorem roundtrip_float32 (bitsLo bitsHi : Nat) (lo hi t0 : ℚ)
    (hlo : float32OfBits bitsLo = JsNum.fin lo) (hhi : float32OfBits bitsHi = JsNum.fin hi)
    (hne : lo ≠ hi) (h0 : 0 ≤ t0) (h1 : t0 ≤ 1) :
    ∃ v : ℚ, lerpDouble (JsNum.fin lo) (JsNum.fin hi) (roundDouble t0) = JsNum.fin v ∧
      |(v - lo) / (hi - lo) - t0| ≤ 1 / 2 ^ 23 := by
  obtain ⟨v, hv, ev, _, _⟩ := lerpDouble_float32 bitsLo bitsHi lo hi t0 hlo hhi h0 h1
  have hgap := float32_gap bitsLo bitsHi lo hi hlo hhi hne
  have hd : hi - lo ≠ 0 := fun h => hne (by linarith)
  have hdpos : 0 < |hi - lo| := abs_pos.mpr hd
  refine ⟨v, hv, ?_⟩
  have e1 : (v - lo) / (hi - lo) - t0 = (v - (lo * (1 - t0) + hi * t0)) / (hi - lo) := by
    field_simp
    ring
  rw [e1, abs_div, div_le_iff₀ hdpos]
  have h2 : dequantizeSlack * max |lo| |hi| ≤ dequantizeSlack * (2 ^ 25 * |hi - lo|) :=
    mul_le_mul_of_nonneg_left hgap (by unfold dequantizeSlack; positivity)
  have h3 : dequantizeSlack * (2 ^ 25 * |hi - lo|) = 1 / 2 ^ 23 * |hi - lo| := by
    unfold dequantizeSlack
    ring
  linarith only [ev, h2, h3]

/-! ## The round trip -/

/-- C14, as the claim states it, fails: with the degenerate range `min = max = 5` and 10 bits,
`q = 0` and `q = 1023` are both decoded to 5, so the decoded value no longer tells them apart;
the re-normalization `(5 - 5) / (5 - 5)` is `NaN`, which is within no distance of `0 / 1023`.
With the range `0 .. +Infinity` the integer `q = 0` is decoded to `NaN`. -/
theorem roundtrip_degenerate_range :
    (0 : Nat) ≤ 2 ^ 10 - 1 ∧ (1023 : Nat) ≤ 2 ^ 10 - 1 ∧
    lerpDouble (JsNum.fin 5) (JsNum.fin 5) (unpackUnormDouble 1023 10) = JsNum.fin 5 ∧
    lerpDouble (JsNum.fin 5) (JsNum.fin 5) (unpackUnormDouble 0 10) = JsNum.fin 5 ∧
    renormalize (lerpDouble (JsNum.fin 5) (JsNum.fin 5) (unpackUnormDouble 0 10)) (JsNum.fin 5)
      (JsNum.fin 5) = JsNum.nan ∧
    (JsNum.abs (renormalize (lerpDouble (JsNum.fin 5) (JsNum.fin 5) (unpackUnormDouble 0 10))
        (JsNum.fin 5) (JsNum.fin 5) - unpackUnorm 0 10)).le
      (JsNum.fin (1 / ((2 ^ 10 - 1 : Nat) : ℚ))) = false ∧
    lerpDouble (JsNum.fin 0) JsNum.posInf (unpackUnormDouble 0 10) = JsNum.nan := by
  have hz : unpackUnormDouble 0 10 = JsNum.fin 0 :=
    unpackUnormDouble_zeros 0 10 (Or.inl rfl) (by decide)
  have ho : unpackUnormDouble 1023 10 = JsNum.fin 1 :=
    unpackUnormDouble_ones 1023 10 (Or.inl rfl) (by decide)
  have hl : lerpDouble (JsNum.fin 5) (JsNum.fin 5) (unpackUnormDouble 0 10) = JsNum.fin 5 := by
    rw [hz, lerpDouble_zero 5 5 roundDouble_five]
  have hr : renormalize (lerpDouble (JsNum.fin 5) (JsNum.fin 5) (unpackUnormDouble 0 10))
      (JsNum.fin 5) (JsNum.fin 5) = JsNum.nan := by
    rw [hl]
    simp only [renormalize, JsNum.fin_sub_fin]
    show JsNum.div (JsNum.fin (5 - 5)) (JsNum.fin (5 - 5)) = JsNum.nan
    simp [JsNum.div]
  refine ⟨by decide, by decide, ?_, hl, hr, ?_, ?_⟩
  · rw [ho, lerpDouble_one 5 5 roundDouble_five]
  · rw [hr, unpackUnorm_of_le 10 0 (Or.inl rfl) (by decide)]
    rfl
  · rw [hz]
    unfold lerpDouble
    rw [one_sub_fin, posInf_mul_fin _ (le_refl _), if_pos rfl]
    show ((JsNum.fin 0 * (JsNum.fin (1 - 0)).toDouble).toDouble + JsNum.nan).toDouble
      = JsNum.nan
    rw [JsNum.add_nan]
    rfl

/-- C14, amended: for 10 or 11 bits, every quantized integer `q <= 2^bits - 1` and every chunk
range of two different finite floats `min` and `max`, the program decodes the normalized value
`q / (2^bits - 1)`, rounded to binary64, to a finite double `v`, and the theoretical
re-normalization `(v - min) / (max - min)` of that double is within `2^-23`, hence within
`1 / (2^bits - 1)`, of `q / (2^bits - 1)`. -/
theorem roundtrip_within_tolerance (bits q : Nat) (hb : bits = 10 ∨ bits = 11)
    (hq : q ≤ 2 ^ bits - 1) (bitsMin bitsMax : Nat) (min max : ℚ)
    (hmin : float32OfBits bitsMin = JsNum.fin min) (hmax : float32OfBits bitsMax = JsNum.fin max)
    (hne : min ≠ max) :
    unpackUnorm q bits = JsNum.fin ((q : ℚ) / ((2 ^ bits - 1 : Nat) : ℚ)) ∧
    unpackUnormDouble q bits = roundDouble ((q : ℚ) / ((2 ^ bits - 1 : Nat) : ℚ)) ∧
    ∃ v : ℚ, lerpDouble (JsNum.fin min) (JsNum.fin max) (unpackUnormDouble q bits)
        = JsNum.fin v ∧
      renormalize (JsNum.fin v) (JsNum.fin min) (JsNum.fin max)
        = JsNum.fin ((v - min) / (max - min)) ∧
      |(v - min) / (max - min) - (q : ℚ) / ((2 ^ bits - 1 : Nat) : ℚ)| ≤ 1 / 2 ^ 23 ∧
      (JsNum.abs (renormalize
          (lerpDouble (JsNum.fin min) (JsNum.fin max) (unpackUnormDouble q bits))
          (JsNum.fin min) (JsNum.fin max) - unpackUnorm q bits)).le
        (JsNum.fin (1 / ((2 ^ bits - 1 : Nat) : ℚ))) = true := by
  have hu := unpackUnorm_of_le bits q hb hq
  have hT : 0 < 2 ^ bits - 1 := by rcases hb with rfl | rfl <;> decide
  obtain ⟨u0, u1, _, _⟩ := field_unit q (2 ^ bits - 1) hT hq
  have hud : unpackUnormDouble q bits = roundDouble ((q : ℚ) / ((2 ^ bits - 1 : Nat) : ℚ)) := by
    unfold unpackUnormDouble
    rw [hu]
    rfl
  obtain ⟨v, hv, ev⟩ := roundtrip_float32 bitsMin bitsMax min max _ hmin hmax hne u0 u1
  have hr := renormalize_fin v min max hne
  refine ⟨hu, hud, v, by rw [hud, hv], hr, ev, ?_⟩
  rw [hud, hv, hr, hu, JsNum.fin_sub_fin]
  simp only [JsNum.abs, JsNum.le, decide_eq_true_eq]
  refine le_trans ev ?_
  rcases hb with rfl | rfl <;> norm_num

/-- Witness of C14 (amended): 10 bits, `q = 7`, range `0 .. 10`. -/
theorem roundtrip_within_tolerance_witness :
    (7 : Nat) ≤ 2 ^ 10 - 1 ∧ float32OfBits 0 = JsNum.fin 0 ∧
    float32OfBits 0x41200000 = JsNum.fin 10 ∧ (0 : ℚ) ≠ 10 ∧
    ∃ v : ℚ, lerpDouble (JsNum.fin 0) (JsNum.fin 10) (unpackUnormDouble 7 10) = JsNum.fin v ∧
      renormalize (JsNum.fin v) (JsNum.fin 0) (JsNum.fin 10) = JsNum.fin ((v - 0) / (10 - 0)) ∧
      |(v - 0) / (10 - 0) - ((7 : Nat) : ℚ) / ((2 ^ 10 - 1 : Nat) : ℚ)| ≤ 1 / 2 ^ 23 ∧
      (JsNum.abs (renormalize
          (lerpDouble (JsNum.fin 0) (JsNum.fin 10) (unpackUnormDouble 7 10))
          (JsNum.fin 0) (JsNum.fin 10) - unpackUnorm 7 10)).le
        (JsNum.fin (1 / ((2 ^ 10 - 1 : Nat) : ℚ))) = true :=
  ⟨by decide, by norm_num [float32OfBits], by norm_num [float32OfBits], by norm_num,
    (roundtrip_within_tolerance 10 7 (Or.inl rfl) (by decide) 0 0x41200000 0 10
      (by norm_num [float32OfBits]) (by norm_num [float32OfBits]) (by norm_num)).2.2⟩

/-- The file `tenthChunkedFile` end to end, in every runtime: the box reaches one unit in the
last place above the chunk maximum on X. -/
theorem tenthChunkedFile_analysis (rt : Runtime) :
    analyzeCompressedPly rt tenthChunkedFile
      = ⟨[(80, 72), (152, 16)],
          .ok (mkReport ⟨JsNum.fin (tenthFloat + 1 / 2 ^ 56), JsNum.fin (tenthFloat + 1 / 2 ^ 56),
            JsNum.fin tenthFloat, JsNum.fin tenthFloat, JsNum.fin tenthFloat,
            JsNum.fin tenthFloat⟩)⟩ := by
  have hh : analyzeCompressedPlyHeader tenthChunkedFile = .ok ⟨1, 1, 80⟩ := rfl
  have ha : (⟨1, 1, 80⟩ : ChunkedHeader).numChunks * chunkElementSize ≤ rt.maxAlloc :=
    rt.allocates_small _ (by decide)
  have wp : wordAt tenthChunkedFile 152 = 0x00200000 := by decide
  have hreads : (List.range (totalBatches 1)).map (chunkedBatchRead ⟨1, 1, 80⟩) = [(152, 16)] := by
    decide
  have hp : (List.range 1).map (chunkedVertexAt tenthChunkedFile ⟨1, 1, 80⟩ tenthChunkArrays)
      = [⟨JsNum.fin (tenthFloat + 1 / 2 ^ 56), JsNum.fin tenthFloat, JsNum.fin tenthFloat⟩] := by
    simp only [List.range_succ, List.range_zero, List.nil_append, List.map_cons, List.map_nil,
      chunkedVertexAt, Nat.mul_zero, Nat.add_zero, Nat.mul_one, wp, Nat.zero_div,
      dequantizeDouble_tenth]
  rw [analyzeCompressedPly_ok rt _ _ hh ha, tenthChunkedFile_table]
  simp only [ChunkedHeader.chunkDataOffset, chunkElementSize, hreads, hp]
  simp only [foldBox, List.foldl_cons, List.foldl_nil, BoundingBox.update, BoundingBox.empty,
    stepMin_posInf_fin, stepMax_negInf_fin]

/-! ## The chunk ranges -/

/-- Counterexample to C21: the file `tenthChunkedFile` has one chunk whose bounds on every axis
are `min = max = 0.1f` (so `min <= max`), and one vertex whose X field is 1.  The program
decodes its X coordinate to `0.1f + 2^-56`, above the maximum of the chunk, so in every
runtime the reported box is not contained in the hull of the chunk bounds. -/
theorem tenth_chunk_escapes_hull :
    analyzeCompressedPlyHeader tenthChunkedFile = .ok ⟨1, 1, 80⟩ ∧
    chunkTableAt tenthChunkedFile ⟨1, 1, 80⟩ = tenthChunkArrays ∧
    (arrayAt tenthChunkArrays.min_x 0).le (arrayAt tenthChunkArrays.max_x 0) = true ∧
    (dequantizeDouble tenthChunkArrays 0 0x00200000).x = JsNum.fin (tenthFloat + 1 / 2 ^ 56) ∧
    ((dequantizeDouble tenthChunkArrays 0 0x00200000).x).le (arrayAt tenthChunkArrays.max_x 0)
      = false ∧
    ∀ rt : Runtime, ∃ r, (analyzeCompressedPly rt tenthChunkedFile).result = .ok r ∧
      r.box.maxX = JsNum.fin (tenthFloat + 1 / 2 ^ 56) ∧
      r.box.within (chunkHull tenthChunkArrays) = false := by
  refine ⟨rfl, tenthChunkedFile_table, ?_, ?_, ?_, ?_⟩
  · simp [tenthChunkArrays, arrayAt, JsNum.le]
  · rw [dequantizeDouble_tenth]
  · rw [dequantizeDouble_tenth]
    simp [tenthChunkArrays, arrayAt, JsNum.le]
  · intro rt
    refine ⟨_, by rw [tenthChunkedFile_analysis rt], rfl, ?_⟩
    simp [mkReport, BoundingBox.within, chunkHull, tenthChunkArrays, stepMin_posInf_fin,
      stepMax_negInf_fin, JsNum.le]

/-- The box of a chunked file lies, on an axis whose chunks all have finite bounds with
`min <= max`, within the widened hull of the chunk bounds on that axis. -/
theorem chunked_box_widened (file : List Nat) (h : ChunkedHeader) :
    ((∀ k < h.numChunks, ∃ a b : ℚ, arrayAt (chunkTableAt file h).min_x k = JsNum.fin a ∧
        arrayAt (chunkTableAt file h).max_x k = JsNum.fin b ∧ a ≤ b) →
      ((chunkHull (chunkTableAt file h)).widen dequantizeSlack).minX.le
          (foldBox BoundingBox.empty ((List.range h.numVertices).map
            (chunkedVertexAt file h (chunkTableAt file h)))).minX = true ∧
        (foldBox BoundingBox.empty ((List.range h.numVertices).map
            (chunkedVertexAt file h (chunkTableAt file h)))).maxX.le
          ((chunkHull (chunkTableAt file h)).widen dequantizeSlack).maxX = true) ∧
    ((∀ k < h.numChunks, ∃ a b : ℚ, arrayAt (chunkTableAt file h).min_y k = JsNum.fin a ∧
        arrayAt (chunkTableAt file h).max_y k = JsNum.fin b ∧ a ≤ b) →
      ((chunkHull (chunkTableAt file h)).widen dequantizeSlack).minY.le
          (foldBox BoundingBox.empty ((List.range h.numVertices).map
            (chunkedVertexAt file h (chunkTableAt file h)))).minY = true ∧
        (foldBox BoundingBox.empty ((List.range h.numVertices).map
            (chunkedVertexAt file h (chunkTableAt file h)))).maxY.le
          ((chunkHull (chunkTableAt file h)).widen dequantizeSlack).maxY = true) ∧
    ((∀ k < h.numChunks, ∃ a b : ℚ, arrayAt (chunkTableAt file h).min_z k = JsNum.fin a ∧
        arrayAt (chunkTableAt file h).max_z k = JsNum.fin b ∧ a ≤ b) →
      ((chunkHull (chunkTableAt file h)).widen dequantizeSlack).minZ.le
          (foldBox BoundingBox.empty ((List.range h.numVertices).map
            (chunkedVertexAt file h (chunkTableAt file h)))).minZ = true ∧
        (foldBox BoundingBox.empty ((List.range h.numVertices).map
            (chunkedVertexAt file h (chunkTableAt file h)))).maxZ.le
          ((chunkHull (chunkTableAt file h)).widen dequantizeSlack).maxZ = true) := by
  obtain ⟨l1, l2, l3, l4, l5, l6⟩ := chunkTableAt_length file h
  rw [foldBox_eq _ BoundingBox.empty]
  simp only [BoundingBox.empty, chunkHull, BoundingBox.widen]
  refine ⟨fun hord => ?_, fun hord => ?_, fun hord => ?_⟩
  · apply axis_within_widened _ _ h.numChunks l1 l2
    · intro k hk
      obtain ⟨a, b, ea, eb, hab⟩ := hord k hk
      obtain ⟨f1, f2, _⟩ := chunkTableAt_float32 file h k hk
      exact ⟨_, _, a, b, ea, eb, by rw [← f1, ea], by rw [← f2, eb], hab⟩
    · intro v hv
      obtain ⟨p, hp, rfl⟩ := List.mem_map.mp hv
      obtain ⟨g, _, rfl⟩ := List.mem_map.mp hp
      obtain ⟨q, h0, h1, e⟩ := (chunkedVertexAt_coords file h (chunkTableAt file h) g).1
      exact ⟨g / 256, q, h0, h1, e⟩
  · apply axis_within_widened _ _ h.numChunks l3 l4
    · intro k hk
      obtain ⟨a, b, ea, eb, hab⟩ := hord k hk
      obtain ⟨_, _, f1, f2, _⟩ := chunkTableAt_float32 file h k hk
      exact ⟨_, _, a, b, ea, eb, by rw [← f1, ea], by rw [← f2, eb], hab⟩
    · intro v hv
      obtain ⟨p, hp, rfl⟩ := List.mem_map.mp hv
      obtain ⟨g, _, rfl⟩ := List.mem_map.mp hp
      obtain ⟨q, h0, h1, e⟩ := (chunkedVertexAt_coords file h (chunkTableAt file h) g).2.1
      exact ⟨g / 256, q, h0, h1, e⟩
  · apply axis_within_widened _ _ h.numChunks l5 l6
    · intro k hk
      obtain ⟨a, b, ea, eb, hab⟩ := hord k hk
      obtain ⟨_, _, _, _, f1, f2⟩ := chunkTableAt_float32 file h k hk
      exact ⟨_, _, a, b, ea, eb, by rw [← f1, ea], by rw [← f2, eb], hab⟩
    · intro v hv
      obtain ⟨p, hp, rfl⟩ := List.mem_map.mp hv
      obtain ⟨g, _, rfl⟩ := List.mem_map.mp hp
      obtain ⟨q, h0, h1, e⟩ := (chunkedVertexAt_coords file h (chunkTableAt file h) g).2.2
      exact ⟨g / 256, q, h0, h1, e⟩

/-- The three coordinates of a dequantized 32-bit word, in the program's arithmetic and in
exact arithmetic, by the fields of the word. -/
theorem dequantize_fields (c : ChunkArrays) (ci w : Nat) (hw : w < 2 ^ 32) :
    dequantizeDouble c ci w =
      { x := lerpDouble (arrayAt c.min_x ci) (arrayAt c.max_x ci)
          (roundDouble (((w / 2 ^ 21 % 2 ^ 11 : Nat) : ℚ) / ((2 ^ 11 - 1 : Nat) : ℚ)))
        y := lerpDouble (arrayAt c.min_y ci) (arrayAt c.max_y ci)
          (roundDouble (((w / 2 ^ 11 % 2 ^ 10 : Nat) : ℚ) / ((2 ^ 10 - 1 : Nat) : ℚ)))
        z := lerpDouble (arrayAt c.min_z ci) (arrayAt c.max_z ci)
          (roundDouble (((w % 2 ^ 11 : Nat) : ℚ) / ((2 ^ 11 - 1 : Nat) : ℚ))) } ∧
    dequantize c ci w =
      { x := lerp (arrayAt c.min_x ci) (arrayAt c.max_x ci)
          (JsNum.fin (((w / 2 ^ 21 % 2 ^ 11 : Nat) : ℚ) / ((2 ^ 11 - 1 : Nat) : ℚ)))
        y := lerp (arrayAt c.min_y ci) (arrayAt c.max_y ci)
          (JsNum.fin (((w / 2 ^ 11 % 2 ^ 10 : Nat) : ℚ) / ((2 ^ 10 - 1 : Nat) : ℚ)))
        z := lerp (arrayAt c.min_z ci) (arrayAt c.max_z ci)
          (JsNum.fin (((w % 2 ^ 11 : Nat) : ℚ) / ((2 ^ 11 - 1 : Nat) : ℚ))) } := by
  have u21 : ushr w 21 = w / 2 ^ 21 := by
    unfold ushr
    rw [Nat.mod_eq_of_lt hw, Nat.shiftRight_eq_div_pow]
  have u11 : ushr w 11 = w / 2 ^ 11 := by
    unfold ushr
    rw [Nat.mod_eq_of_lt hw, Nat.shiftRight_eq_div_pow]
  constructor
  · unfold dequantizeDouble unpack111011Double
    dsimp only
    rw [unpackUnormDouble_eq _ 11 (Or.inr rfl), unpackUnormDouble_eq _ 10 (Or.inl rfl),
      unpackUnormDouble_eq w 11 (Or.inr rfl), u21, u11]
  · unfold dequantize unpack111011
    dsimp only
    rw [unpackUnorm_eq_mod _ 11 (Or.inr rfl), unpackUnorm_eq_mod _ 10 (Or.inl rfl),
      unpackUnorm_eq_mod w 11 (Or.inr rfl), u21, u11]

/-- C21: for every chunk table, chunk index and 32-bit packed word, on an axis where the bounds
of the chunk are finite floats with `min <= max`: in exact arithmetic the dequantized
coordinate is a value of `[min, max]`, equal to `min` when the field of the axis is all zeros
and to `max` when it is all ones; the coordinate that the program computes in binary64 is
within `2^-48` of the larger absolute bound of that value, and is exactly `min` for the
all-zeros field and exactly `max` for the all-ones field.  For every chunked file whose chunk
table the runtime allocates, the analysis ends with a report whose box lies, on every axis
whose chunks all have finite bounds with `min <= max`, within the hull of the chunk bounds
widened by `2^-48` of its larger absolute bound (so within the widened hull as a box when that
holds on the three axes). -/
theorem dequantize_within_slack (c : ChunkArrays) (ci w : Nat) (hw : w < 2 ^ 32) :
    (∀ (bitsA bitsB : Nat) (a b : ℚ), arrayAt c.min_x ci = JsNum.fin a →
      arrayAt c.max_x ci = JsNum.fin b → float32OfBits bitsA = JsNum.fin a →
      float32OfBits bitsB = JsNum.fin b → a ≤ b →
      ∃ v e : ℚ, (dequantizeDouble c ci w).x = JsNum.fin v ∧
        (dequantize c ci w).x = JsNum.fin e ∧ a ≤ e ∧ e ≤ b ∧
        |v - e| ≤ dequantizeSlack * max |a| |b| ∧
        (w / 2 ^ 21 % 2 ^ 11 = 0 → v = a ∧ e = a) ∧
        (w / 2 ^ 21 % 2 ^ 11 = 2 ^ 11 - 1 → v = b ∧ e = b)) ∧
    (∀ (bitsA bitsB : Nat) (a b : ℚ), arrayAt c.min_y ci = JsNum.fin a →
      arrayAt c.max_y ci = JsNum.fin b → float32OfBits bitsA = JsNum.fin a →
      float32OfBits bitsB = JsNum.fin b → a ≤ b →
      ∃ v e : ℚ, (dequantizeDouble c ci w).y = JsNum.fin v ∧
        (dequantize c ci w).y = JsNum.fin e ∧ a ≤ e ∧ e ≤ b ∧
        |v - e| ≤ dequantizeSlack * max |a| |b| ∧
        (w / 2 ^ 11 % 2 ^ 10 = 0 → v = a ∧ e = a) ∧
        (w / 2 ^ 11 % 2 ^ 10 = 2 ^ 10 - 1 → v = b ∧ e = b)) ∧
    (∀ (bitsA bitsB : Nat) (a b : ℚ), arrayAt c.min_z ci = JsNum.fin a →
      arrayAt c.max_z ci = JsNum.fin b → float32OfBits bitsA = JsNum.fin a →
      float32OfBits bitsB = JsNum.fin b → a ≤ b →
      ∃ v e : ℚ, (dequantizeDouble c ci w).z = JsNum.fin v ∧
        (dequantize c ci w).z = JsNum.fin e ∧ a ≤ e ∧ e ≤ b ∧
        |v - e| ≤ dequantizeSlack * max |a| |b| ∧
        (w % 2 ^ 11 = 0 → v = a ∧ e = a) ∧ (w % 2 ^ 11 = 2 ^ 11 - 1 → v = b ∧ e = b)) ∧
    (∀ (rt : Runtime) (file : List Nat) (h : ChunkedHeader) (reads : List (Nat × Nat)),
      analyzeCompressedPlyHeader file = .ok h → readChunks rt file h = (reads, .ok c) →
      ∃ r, (analyzeCompressedPly rt file).result = .ok r ∧
        ((∀ k < h.numChunks, ∃ a b : ℚ, arrayAt c.min_x k = JsNum.fin a ∧
            arrayAt c.max_x k = JsNum.fin b ∧ a ≤ b) →
          ((chunkHull c).widen dequantizeSlack).minX.le r.box.minX = true ∧
            r.box.maxX.le ((chunkHull c).widen dequantizeSlack).maxX = true) ∧
        ((∀ k < h.numChunks, ∃ a b : ℚ, arrayAt c.min_y k = JsNum.fin a ∧
            arrayAt c.max_y k = JsNum.fin b ∧ a ≤ b) →
          ((chunkHull c).widen dequantizeSlack).minY.le r.box.minY = true ∧
            r.box.maxY.le ((chunkHull c).widen dequantizeSlack).maxY = true) ∧
        ((∀ k < h.numChunks, ∃ a b : ℚ, arrayAt c.min_z k = JsNum.fin a ∧
            arrayAt c.max_z k = JsNum.fin b ∧ a ≤ b) →
          ((chunkHull c).widen dequantizeSlack).minZ.le r.box.minZ = true ∧
            r.box.maxZ.le ((chunkHull c).widen dequantizeSlack).maxZ = true) ∧
        ((∀ k < h.numChunks,
            (∃ a b : ℚ, arrayAt c.min_x k = JsNum.fin a ∧ arrayAt c.max_x k = JsNum.fin b ∧
              a ≤ b) ∧
            (∃ a b : ℚ, arrayAt c.min_y k = JsNum.fin a ∧ arrayAt c.max_y k = JsNum.fin b ∧
              a ≤ b) ∧
            (∃ a b : ℚ, arrayAt c.min_z k = JsNum.fin a ∧ arrayAt c.max_z k = JsNum.fin b ∧
              a ≤ b)) →
          r.box.within ((chunkHull c).widen dequantizeSlack) = true)) := by
  have hx : w / 2 ^ 21 % 2 ^ 11 ≤ 2 ^ 11 - 1 := by omega
  have hy : w / 2 ^ 11 % 2 ^ 10 ≤ 2 ^ 10 - 1 := by omega
  have hz : w % 2 ^ 11 ≤ 2 ^ 11 - 1 := by omega
  obtain ⟨eD, eE⟩ := dequantize_fields c ci w hw
  refine ⟨?_, ?_, ?_, ?_⟩
  · intro bitsA bitsB a b ha hb fa fb hab
    obtain ⟨v, e, hv, he, r⟩ := lerpDouble_field bitsA bitsB a b fa fb hab _ (2 ^ 11 - 1)
      (by decide) hx
    exact ⟨v, e, by rw [eD, ha, hb]; exact hv, by rw [eE, ha, hb]; exact he, r⟩
  · intro bitsA bitsB a b ha hb fa fb hab
    obtain ⟨v, e, hv, he, r⟩ := lerpDouble_field bitsA bitsB a b fa fb hab _ (2 ^ 10 - 1)
      (by decide) hy
    exact ⟨v, e, by rw [eD, ha, hb]; exact hv, by rw [eE, ha, hb]; exact he, r⟩
  · intro bitsA bitsB a b ha hb fa fb hab
    obtain ⟨v, e, hv, he, r⟩ := lerpDouble_field bitsA bitsB a b fa fb hab _ (2 ^ 11 - 1)
      (by decide) hz
    exact ⟨v, e, by rw [eD, ha, hb]; exact hv, by rw [eE, ha, hb]; exact he, r⟩
  · intro rt file h reads hh hc
    obtain ⟨ha, rfl, _⟩ := readChunks_ok rt file h reads _ hc
    obtain ⟨ax, ay, az⟩ := chunked_box_widened file h
    refine ⟨_, by rw [analyzeCompressedPly_ok rt file h hh ha], ax, ay, az, ?_⟩
    intro hall
    obtain ⟨p1, p2⟩ := ax (fun k hk => (hall k hk).1)
    obtain ⟨p3, p4⟩ := ay (fun k hk => (hall k hk).2.1)
    obtain ⟨p5, p6⟩ := az (fun k hk => (hall k hk).2.2)
    show (BoundingBox.within _ _) = true
    unfold BoundingBox.within
    simp only [Bool.and_eq_true]
    exact ⟨⟨⟨⟨⟨p1, p2⟩, p3⟩, p4⟩, p5⟩, p6⟩

/-- Witness of C21 at the chunked scenario: the word `0xFFE007FF`, whose X field is all ones,
is decoded to `max = 10` on X, and the reported box lies within the widened hull of the one
chunk. -/
theorem dequantize_within_slack_witness :
    0xFFE007FF < 2 ^ 32 ∧
    (∃ v e : ℚ, (dequantizeDouble exampleChunkArrays 0 0xFFE007FF).x = JsNum.fin v ∧
      (dequantize exampleChunkArrays 0 0xFFE007FF).x = JsNum.fin e ∧ 0 ≤ e ∧ e ≤ 10 ∧
      |v - e| ≤ dequantizeSlack * max |0| |10| ∧
      (0xFFE007FF / 2 ^ 21 % 2 ^ 11 = 0 → v = 0 ∧ e = 0) ∧
      (0xFFE007FF / 2 ^ 21 % 2 ^ 11 = 2 ^ 11 - 1 → v = 10 ∧ e = 10)) ∧
    ∃ r, (analyzeCompressedPly largestRuntime exampleChunkedFile).result = .ok r ∧
      r.box.within ((chunkHull exampleChunkArrays).widen dequantizeSlack) = true := by
  have T := dequantize_within_slack exampleChunkArrays 0 0xFFE007FF (by decide)
  have f0 : float32OfBits 0 = JsNum.fin 0 := by norm_num [float32OfBits]
  have f1 : float32OfBits 0x41200000 = JsNum.fin 10 := by norm_num [float32OfBits]
  have hc : readChunks largestRuntime exampleChunkedFile ⟨1, 1, 80⟩
      = ([(80, 72)], .ok exampleChunkArrays) := by
    rw [readChunks_eq _ _ _ (by decide), exampleChunkedFile_table]
    rfl
  refine ⟨by decide, T.1 0 0x41200000 0 10 rfl rfl f0 f1 (by norm_num), ?_⟩
  obtain ⟨r, hr, _, _, _, hin⟩ := T.2.2.2 largestRuntime exampleChunkedFile ⟨1, 1, 80⟩ _ rfl hc
  refine ⟨r, hr, hin ?_⟩
  intro k hk
  have hk1 : k < 1 := hk
  have hk0 : k = 0 := by omega
  subst hk0
  exact ⟨⟨0, 10, rfl, rfl, by norm_num⟩, ⟨0, 10, rfl, rfl, by norm_num⟩,
    ⟨0, 10, rfl, rfl, by norm_num⟩⟩

/-! ## The chunk table lookups -/

/-- C22: in the chunked decoder vertex `g` looks its bounds up at the chunk index
`floor(g / 256)`.  If `numVertices <= 256 * numChunks` every such index is below `numChunks`;
if `numVertices > 256 * numChunks` some vertex index below `numVertices` has a chunk index
`>= numChunks`.  When the chunk table has been read (the runtime allocated its buffer), the
six arrays have `numChunks` entries, the index is computed and used without a check, a lookup
outside the table gives the position `NaN` on every axis, and the analysis ends with a
report.  When the runtime does not allocate that buffer, `Buffer.alloc` throws before any
payload read and no lookup takes place. -/
theorem chunk_lookup_in_bounds (rt : Runtime) (file : List Nat) (h : ChunkedHeader)
    (hh : analyzeCompressedPlyHeader file = .ok h) :
    (h.numVertices ≤ 256 * h.numChunks →
      ∀ g < h.numVertices, g / CHUNK_SIZE < h.numChunks) ∧
    (256 * h.numChunks < h.numVertices →
      ∃ g < h.numVertices, h.numChunks ≤ g / CHUNK_SIZE) ∧
    ((∀ g < h.numVertices, g / CHUNK_SIZE < h.numChunks)
      ↔ h.numVertices ≤ 256 * h.numChunks) ∧
    (∀ reads c, readChunks rt file h = (reads, .ok c) →
      (c.min_x.length = h.numChunks ∧ c.max_x.length = h.numChunks ∧
        c.min_y.length = h.numChunks ∧ c.max_y.length = h.numChunks ∧
        c.min_z.length = h.numChunks ∧ c.max_z.length = h.numChunks) ∧
      (∀ (buf : List Nat) (startVertex i : Nat),
        decodeChunkedVertex buf c startVertex i
          = (readUInt32LE buf (i * vertexElementSize)).map
              (dequantizeDouble c ((startVertex + i) / CHUNK_SIZE))) ∧
      (decodeChunked file h c).2
        = some ((List.range h.numVertices).map
            (fun g => dequantizeDouble c (g / CHUNK_SIZE)
              (wordAt file (h.headerSize + 72 * h.numChunks + 16 * g)))) ∧
      (∀ ci w, h.numChunks ≤ ci →
        dequantizeDouble c ci w = ⟨JsNum.nan, JsNum.nan, JsNum.nan⟩) ∧
      ∃ r, (analyzeCompressedPly rt file).result = .ok r) ∧
    (rt.maxAlloc < h.numChunks * chunkElementSize →
      readChunks rt file h = ([], .error .allocation) ∧
        analyzeCompressedPly rt file = ⟨[], .error .allocation⟩) := by
  have e256 : CHUNK_SIZE = 256 := rfl
  refine ⟨?_, ?_, ?_, ?_, fun ha => ⟨readChunks_alloc_fails rt file h ha,
    analyzeCompressedPly_alloc_fails rt file h hh ha⟩⟩
  · intro hle g hg
    rw [e256, Nat.div_lt_iff_lt_mul (by decide)]
    omega
  · intro hlt
    refine ⟨h.numVertices - 1, by omega, ?_⟩
    rw [e256, Nat.le_div_iff_mul_le (by decide)]
    omega
  · constructor
    · intro hall
      by_contra hn
      have := hall (h.numVertices - 1) (by omega)
      rw [e256, Nat.div_lt_iff_lt_mul (by decide)] at this
      omega
    · intro hle g hg
      rw [e256, Nat.div_lt_iff_lt_mul (by decide)]
      omega
  · intro reads c hc
    obtain ⟨ha, rfl, _⟩ := readChunks_ok rt file h reads c hc
    have hl := chunkTableAt_length file h
    refine ⟨hl, fun buf startVertex i => decodeChunkedVertex_eq buf _ startVertex i, ?_,
      fun ci w hci => dequantizeDouble_outside _ h.numChunks ci w hl hci, ?_⟩
    · rw [decodeChunked_eq]
      rfl
    · exact ⟨_, by rw [analyzeCompressedPly_ok rt file h hh ha]⟩

/-- Witness of C22 at a file that declares one vertex and no chunk, in the runtime with the
largest limit: vertex 0 has the chunk index 0, outside the empty table, and the analysis ends
with a report. -/
theorem chunk_lookup_in_bounds_witness :
    analyzeCompressedPlyHeader zeroChunkFile = .ok ⟨1, 0, 80⟩ ∧
    (∃ g < 1, 0 ≤ g / CHUNK_SIZE) ∧
    ∃ r, (analyzeCompressedPly largestRuntime zeroChunkFile).result = .ok r :=
  ⟨rfl, (chunk_lookup_in_bounds largestRuntime zeroChunkFile ⟨1, 0, 80⟩ rfl).2.1 (by decide),
    ((chunk_lookup_in_bounds largestRuntime zeroChunkFile ⟨1, 0, 80⟩ rfl).2.2.2.1 _ _
      (readChunks_eq largestRuntime zeroChunkFile ⟨1, 0, 80⟩ (by decide))).2.2.2.2⟩

/-! ## Remarks on the chunk table and on the round trip -/

/-- The file that declares one vertex and no chunk, end to end and in every runtime: an empty
chunk read, one vertex read, and the report of the empty box, as for a file without
vertices. -/
theorem zeroChunkFile_analysis (rt : Runtime) :
    analyzeCompressedPly rt zeroChunkFile
      = ⟨[(80, 0), (80, 16)], .ok (mkReport BoundingBox.empty)⟩ := by
  have hh : analyzeCompressedPlyHeader zeroChunkFile = .ok ⟨1, 0, 80⟩ := rfl
  have ha : (⟨1, 0, 80⟩ : ChunkedHeader).numChunks * chunkElementSize ≤ rt.maxAlloc :=
    rt.allocates_small _ (by decide)
  have hl := chunkTableAt_length zeroChunkFile ⟨1, 0, 80⟩
  have hreads : (List.range (totalBatches 1)).map (chunkedBatchRead ⟨1, 0, 80⟩) = [(80, 16)] := by
    decide
  have hp : (List.range 1).map
      (chunkedVertexAt zeroChunkFile ⟨1, 0, 80⟩ (chunkTableAt zeroChunkFile ⟨1, 0, 80⟩))
      = [⟨JsNum.nan, JsNum.nan, JsNum.nan⟩] := by
    simp only [List.range_succ, List.range_zero, List.nil_append, List.map_cons, List.map_nil,
      chunkedVertexAt]
    rw [dequantizeDouble_outside _ 0 _ _ hl (Nat.zero_le _)]
  rw [analyzeCompressedPly_ok rt _ _ hh ha]
  simp only [ChunkedHeader.chunkDataOffset, chunkElementSize, hreads, hp]
  rfl

/-- Outside finite bounds the range property has a limit: between the bounds `0` and
`+Infinity`, which satisfy `0 <= +Infinity`, an all-zero field is decoded to `NaN`, not to the
lower bound. -/
theorem dequantize_infinite_bound :
    (JsNum.fin 0).le JsNum.posInf = true ∧
      lerpDouble (JsNum.fin 0) JsNum.posInf (unpackUnormDouble 0 11) = JsNum.nan := by
  refine ⟨rfl, ?_⟩
  rw [unpackUnormDouble_zeros 0 11 (Or.inr rfl) (by decide)]
  unfold lerpDouble
  rw [one_sub_fin, posInf_mul_fin _ (le_refl _), if_pos rfl]
  show ((JsNum.fin 0 * (JsNum.fin (1 - 0)).toDouble).toDouble + JsNum.nan).toDouble = JsNum.nan
  rw [JsNum.add_nan]
  rfl


/-- The tolerance of the round trip rests on the bounds being floats: between the doubles `1`
and `1 + 2^-52`, one unit in the last place apart (no chunk table holds such a pair), the
integer `q = 2` of 10 bits is decoded to `1`, and the re-normalization gives 0, which is
`2 / 1023` away from the normalized value. -/
theorem roundtrip_adjacent_doubles :
    lerpDouble (JsNum.fin 1) (JsNum.fin (1 + 1 / 2 ^ 52)) (unpackUnormDouble 2 10)
      = JsNum.fin 1 ∧
    renormalize (JsNum.fin 1) (JsNum.fin 1) (JsNum.fin (1 + 1 / 2 ^ 52)) = JsNum.fin 0 ∧
    (JsNum.abs (renormalize
        (lerpDouble (JsNum.fin 1) (JsNum.fin (1 + 1 / 2 ^ 52)) (unpackUnormDouble 2 10))
        (JsNum.fin 1) (JsNum.fin (1 + 1 / 2 ^ 52)) - unpackUnorm 2 10)).le
      (JsNum.fin (1 / ((2 ^ 10 - 1 : Nat) : ℚ))) = false := by
  obtain ⟨s1, s2, s3, s4, s5⟩ := lerpDouble_adjacent_steps
  have e1 : unpackUnormDouble 2 10 = JsNum.fin (4508001973047300 / 2 ^ 61) := by
    rw [unpackUnormDouble_eq 2 10 (Or.inl rfl), ← s1]
    norm_num
  have hl : lerpDouble (JsNum.fin 1) (JsNum.fin (1 + 1 / 2 ^ 52)) (unpackUnormDouble 2 10)
      = JsNum.fin 1 := by
    rw [e1, lerpDouble_fin, s2, JsNum.fin_mul_fin, JsNum.toDouble_fin, s3, s4,
      JsNum.fin_add_fin, JsNum.toDouble_fin, s5]
  have hr : renormalize (JsNum.fin 1) (JsNum.fin 1) (JsNum.fin (1 + 1 / 2 ^ 52))
      = JsNum.fin 0 := by
    rw [renormalize_fin 1 1 _ (by norm_num)]
    norm_num
  refine ⟨hl, hr, ?_⟩
  rw [hl, hr, unpackUnorm_of_le 10 2 (Or.inl rfl) (by decide), JsNum.fin_sub_fin]
  simp only [JsNum.abs, JsNum.le, decide_eq_false_iff_not, not_le]
  norm_num [abs_of_neg]

end OrbitRender
